import Mathlib

/-! whisper.tflite: asset decoding, WAV normalisation and token decoding.

A shallow embedding of `TFLiteEngine.cpp` and `wav_util.h`.

* `std::string` and raw buffers are lists of byte values (`Bytes`).
* C `int` values are `Int`; the values that occur (token ids, counts read from
  a well-formed asset) are far from the 32-bit limits.
* `std::map<int, std::string>` is an association list with unique keys.
* `float` is `F32`: the finite single-precision values as integer multiples of
  `2 ^ (-149)`, the two infinities and NaN, every operation rounding to
  nearest-even.
* Undefined behaviour of the C++ program (reading past a buffer, integer
  division by zero, a null pointer, an out-of-range conversion) is an explicit
  outcome.
-/

namespace Whisper

deriving instance DecidableEq for Except

/-! ## Bytes and strings -/

/-- Contents of a `std::string` or of a raw buffer; every element is a byte value. -/
abbrev Bytes := List Nat

/-- Bytes of an ASCII string literal. -/
def ascii (s : String) : Bytes := s.toList.map Char.toNat

/-- What a `const char*` obtained by `c_str()` denotes for `strlen` and for
`std::string::operator+=(const char*)`: the bytes before the first NUL. -/
def cStr (w : Bytes) : Bytes := w.takeWhile (fun b => b != 0)

/-- Little-endian value of a byte sequence (an object representation in memory). -/
def leValue : Bytes → Nat
  | [] => 0
  | b :: rest => b + 256 * leValue rest

/-- Reinterpretation of a 32-bit pattern as a two's complement `int`. -/
def toInt32 (u : Nat) : Int := if u < 2 ^ 31 then (u : Int) else (u : Int) - 2 ^ 32

/-- Reinterpretation of a 16-bit pattern as an `int16_t`. -/
def toInt16 (u : Nat) : Int := if u < 2 ^ 15 then (u : Int) else (u : Int) - 2 ^ 16

/-- The next `n` bytes at a read pointer and the advanced pointer; `none` when the
read leaves the buffer. A pointer into a buffer is the part of the buffer from it on. -/
def takeBytes (n : Nat) (p : Bytes) : Option (Bytes × Bytes) :=
  if n ≤ p.length then some (p.take n, p.drop n) else none

/-- The idiom `std::memcpy(&x, p, sizeof(x)); p += sizeof(x);` for an `int x`. -/
def takeInt (p : Bytes) : Option (Int × Bytes) :=
  match takeBytes 4 p with
  | some (b, rest) => some (toInt32 (leValue b), rest)
  | none => none

/-- A block of `count` 32-bit words copied by `memcpy`, and the advanced pointer. -/
def takeWords : Nat → Bytes → Option (List Nat × Bytes)
  | 0, p => some ([], p)
  | count + 1, p =>
    match takeBytes 4 p with
    | none => none
    | some (b, rest) =>
      match takeWords count rest with
      | none => none
      | some (ws, rest') => some (leValue b :: ws, rest')

/-! ## Single-precision floats -/

/-- A `float`: a finite value `units * 2 ^ (-149)`, an infinity, or NaN. The sign of
zero is not tracked: every divisor in this program is a non-negative value. -/
inductive F32 where
  | fin (units : Int)
  | inf (neg : Bool)
  | nan
deriving DecidableEq, Repr

/-- Number of halvings that bring `q` below `2 ^ 24`; the first argument bounds the
recursion and `q` itself always suffices. -/
def halvings : Nat → Nat → Nat
  | 0, _ => 0
  | fuel + 1, q => if q < 2 ^ 24 then 0 else halvings fuel (q / 2) + 1

/-- Spacing, in units of `2 ^ (-149)`, of the floats around a magnitude of `q` units. -/
def quantum (q : Nat) : Nat := 2 ^ halvings q q

/-- Round-to-nearest-even of the exact value `n / d` units (`d > 0`) to a `float`. -/
def roundF32 (n : Int) (d : Nat) : F32 :=
  let a := n.natAbs
  let D := d * quantum (a / d)
  let m := a / D
  let r := a % D
  let m' := if 2 * r < D then m else if D < 2 * r then m + 1 else if m % 2 = 0 then m else m + 1
  let u := m' * quantum (a / d)
  if u < 2 ^ 128 * 2 ^ 149 then F32.fin (if n < 0 then -(u : Int) else (u : Int)) else F32.inf (decide (n < 0))

namespace F32

/-- The float `0.0f`. -/
def zero : F32 := fin 0

/-- Conversion of an integer value (`static_cast<float>` of an integer type). -/
def ofInt (i : Int) : F32 := roundF32 (i * 2 ^ 149) 1

/-- Float addition. -/
def add : F32 → F32 → F32
  | fin x, fin y => roundF32 (x + y) 1
  | fin _, inf s => inf s
  | inf s, fin _ => inf s
  | inf s, inf t => if s = t then inf s else nan
  | _, _ => nan

/-- Float negation. -/
def neg : F32 → F32
  | fin x => fin (-x)
  | inf s => inf (!s)
  | nan => nan

/-- Float subtraction. -/
def sub (x y : F32) : F32 := add x (neg y)

/-- Float multiplication. -/
def mul : F32 → F32 → F32
  | fin x, fin y => roundF32 (x * y) (2 ^ 149)
  | fin x, inf s => if x = 0 then nan else inf (decide (x < 0) != s)
  | inf s, fin y => if y = 0 then nan else inf (s != decide (y < 0))
  | inf s, inf t => inf (s != t)
  | _, _ => nan

/-- Float division; a zero divisor is `+0.0f`. -/
def div : F32 → F32 → F32
  | fin x, fin y =>
    if y = 0 then (if x = 0 then nan else inf (decide (x < 0)))
    else roundF32 (x * 2 ^ 149 * y.sign) y.natAbs
  | fin _, inf _ => fin 0
  | inf s, fin y => inf (s != decide (y < 0))
  | _, _ => nan

/-- The conversion `static_cast<uint32_t>(x)`: truncation toward zero, undefined
(`none`) when the truncated value is not a `uint32_t`. -/
def toUInt32 : F32 → Option Nat
  | fin x =>
    if x < 0 then (if x.natAbs < 2 ^ 149 then some 0 else none)
    else if x.natAbs / 2 ^ 149 < 2 ^ 32 then some (x.natAbs / 2 ^ 149) else none
  | _ => none

/-- The float with a given IEEE-754 binary32 bit pattern. -/
def ofBits (w : Nat) : F32 :=
  let s := decide (w / 2 ^ 31 % 2 = 1)
  let e := w / 2 ^ 23 % 2 ^ 8
  let m := w % 2 ^ 23
  if e = 255 then (if m = 0 then inf s else nan)
  else
    let mag : Nat := if e = 0 then m else (2 ^ 23 + m) * 2 ^ (e - 1)
    fin (if s then -(mag : Int) else (mag : Int))

/-- The rational value of a finite float. -/
def toRat? : F32 → Option ℚ
  | fin x => some ((x : ℚ) / 2 ^ 149)
  | _ => none

end F32

/-! ## Engine state -/

/-- The `whisper_vocab` record: reserved token ids and the id-to-string table. -/
structure whisper_vocab where
  token_eot : Int
  token_sot : Int
  token_prev : Int
  token_solm : Int
  token_not : Int
  token_beg : Int
  id_to_token : AList (fun _ : Int => Bytes)

/-- The `whisper_filters` record; `data` holds the coefficients as 32-bit patterns,
which `memcpy` moves without interpreting them. -/
structure whisper_filters where
  n_mel : Int
  n_fft : Int
  data : List Nat
deriving DecidableEq

/-- The `whisper_mel` record filled by feature extraction. -/
structure whisper_mel where
  n_len : Int
  n_mel : Int
  data : List F32
deriving DecidableEq

/-- The `g_whisper_tflite` record. Pointers are options, `none` being the null pointer;
`input` is the content of the interpreter input tensor. -/
structure whisper_tflite where
  buffer : Option Bytes
  size : Int
  model : Bool
  interpreter : Bool
  input : Option (List F32)
  is_whisper_tflite_initialized : Bool

/-- Everything the engine operations read and write. -/
structure TFLiteEngine where
  g_whisper_tflite : whisper_tflite
  g_vocab : whisper_vocab
  filters : whisper_filters
  mel : whisper_mel

/-! ## loadModel -/

/-- The two embedded assets `filters_vocab_en` and `filters_vocab_multilingual`. -/
structure Assets where
  filters_vocab_en : Bytes
  filters_vocab_multilingual : Bytes

/-- What the file system and the inference library answer during `loadModel`. -/
structure ModelEnv where
  is_open : Bool
  content : Bytes
  readOk : Bool
  partialBuffer : Bytes
  modelBuilt : Bool
  interpreterBuilt : Bool
  tensorsAllocated : Bool
  inputTensor : List F32

/-- How a call of `loadModel` ends. -/
inductive LoadOutcome where
  | returned (status : Int) (e : TFLiteEngine)
  | exited (e : TFLiteEngine)
  | undefined

/-- The loop of lines 75-84: `n` length-prefixed strings stored at keys `i, i+1, ...`. -/
def readVocab : Nat → Int → Bytes → AList (fun _ : Int => Bytes) →
    Option (Bytes × AList (fun _ : Int => Bytes))
  | 0, _, p, m => some (p, m)
  | n + 1, i, p, m =>
    match takeInt p with
    | none => none
    | some (len, p1) =>
      if len < 0 then none
      else
        match takeBytes len.toNat p1 with
        | none => none
        | some (word, p2) => readVocab n (i + 1) p2 (m.insert i word)

/-- The string built for index `i` in the loop of lines 98-117. -/
def tailWord (v : whisper_vocab) (i : Int) : Bytes :=
  if i > v.token_beg then ascii ("[_TT_" ++ toString (i - v.token_beg) ++ "]")
  else if i = v.token_eot then ascii "[_EOT_]"
  else if i = v.token_sot then ascii "[_SOT_]"
  else if i = v.token_prev then ascii "[_PREV_]"
  else if i = v.token_not then ascii "[_NOT_]"
  else if i = v.token_beg then ascii "[_BEG_]"
  else ascii ("[_extra_token_" ++ toString i ++ "]")

/-- The loop of lines 98-117 over the indices `i, i+1, ..., i+k-1`. -/
def addTail (v : whisper_vocab) : Nat → Int → AList (fun _ : Int => Bytes) →
    AList (fun _ : Int => Bytes)
  | 0, _, m => m
  | k + 1, i, m => addTail v k (i + 1) (m.insert i (tailWord v i))

/-- The six increments of lines 90-95. -/
def shiftTokens (v : whisper_vocab) : whisper_vocab :=
  { v with
    token_eot := v.token_eot + 1
    token_sot := v.token_sot + 1
    token_prev := v.token_prev + 1
    token_solm := v.token_solm + 1
    token_not := v.token_not + 1
    token_beg := v.token_beg + 1 }

/-- The value of `n_vocab_additional`. -/
def totalVocabSize (isMultilingual : Bool) : Int := if isMultilingual then 51865 else 51864

/-- Lines 55-117: filters and vocabulary are decoded from the asset; `p` points behind
the magic number. `none` stands for a read outside the asset or a negative size. -/
def decodeAsset (p : Bytes) (isMultilingual : Bool) (e : TFLiteEngine) : Option TFLiteEngine :=
  match takeInt p with
  | none => none
  | some (n_mel, p1) =>
    match takeInt p1 with
    | none => none
    | some (n_fft, p2) =>
      if n_mel * n_fft < 0 ∨ 2 ^ 31 ≤ n_mel * n_fft then none
      else
        match takeWords (n_mel * n_fft).toNat p2 with
        | none => none
        | some (coeffs, p3) =>
          match takeInt p3 with
          | none => none
          | some (n_vocab, p4) =>
            match readVocab n_vocab.toNat 0 p4 e.g_vocab.id_to_token with
            | none => none
            | some (_, m) =>
              let v0 : whisper_vocab := { e.g_vocab with id_to_token := m }
              let v1 := if isMultilingual then shiftTokens v0 else v0
              let total := totalVocabSize isMultilingual
              let m' := addTail v1 (total - n_vocab).toNat n_vocab m
              some { e with
                filters := { n_mel := n_mel, n_fft := n_fft, data := coeffs }
                g_vocab := { v1 with id_to_token := m' } }

/-- Lines 120-159: the model file is read and the interpreter is built. -/
def loadModelBuffer (env : ModelEnv) (e : TFLiteEngine) : LoadOutcome :=
  if !env.is_open then LoadOutcome.returned (-1) e
  else
    let buffer := if env.readOk then env.content else env.partialBuffer
    let t1 : whisper_tflite :=
      { e.g_whisper_tflite with size := env.content.length, buffer := some buffer }
    let t2 : whisper_tflite := { t1 with model := env.modelBuilt }
    if !env.modelBuilt then LoadOutcome.exited { e with g_whisper_tflite := t2 }
    else
      let t3 : whisper_tflite := { t2 with interpreter := env.interpreterBuilt }
      if !env.interpreterBuilt then LoadOutcome.exited { e with g_whisper_tflite := t3 }
      else if !env.tensorsAllocated then LoadOutcome.exited { e with g_whisper_tflite := t3 }
      else
        LoadOutcome.returned 0
          { e with g_whisper_tflite :=
              { t3 with input := some env.inputTensor, is_whisper_tflite_initialized := true } }

/-- The function `TFLiteEngine::loadModel`. -/
def loadModel (assets : Assets) (env : ModelEnv) (isMultilingual : Bool) (e : TFLiteEngine) :
    LoadOutcome :=
  if !e.g_whisper_tflite.is_whisper_tflite_initialized then
    let vocabData :=
      if isMultilingual then assets.filters_vocab_multilingual else assets.filters_vocab_en
    match takeInt vocabData with
    | none => LoadOutcome.undefined
    | some (magic, p) =>
      if magic ≠ 0x57535052 then LoadOutcome.returned (-1) e
      else
        match decodeAsset p isMultilingual e with
        | none => LoadOutcome.undefined
        | some e1 => loadModelBuffer env e1
  else LoadOutcome.returned 0 e


/-! ## transcribeBuffer and transcribeFile -/

/-- Modelled from the spec: `whisper.h` is not among the sources; the target rate
of the audio normaliser is 16000 samples per second. -/
def WHISPER_SAMPLE_RATE : Nat := 16000

/-- Modelled from the spec: `whisper.h` is not among the sources; the processing
window is a fixed 30-second duration. -/
def WHISPER_CHUNK_SIZE : Nat := 30

/-- The call `v.resize(n, x)` of a `std::vector`. -/
def vectorResize {α : Type} (v : List α) (n : Nat) (x : α) : List α :=
  v.take n ++ List.replicate (n - v.length) x

/-- The loop of lines 219-248 from position `i` on: `text` is what was appended so far. -/
def decodeLoop (v : whisper_vocab) : List Int → Bytes → Bytes
  | [], text => text
  | token :: rest, text =>
    if token = v.token_eot then text
    else if token = v.token_sot ∨ token = v.token_prev ∨ token = v.token_not ∨
        token = v.token_beg ∨ token = v.token_solm then decodeLoop v rest text
    else if token ≥ 0 then
      match v.id_to_token.lookup token with
      | some word =>
        if (cStr word).length > 0 then decodeLoop v rest (text ++ cStr word)
        else decodeLoop v rest text
      | none => decodeLoop v rest text
    else decodeLoop v rest text

/-- The text `transcribeBuffer` returns for the output tokens `output_int[0 .. output_size)`. -/
def decodeTokens (v : whisper_vocab) (tokens : List Int) : Bytes := decodeLoop v tokens []

/-- Calls that leave `transcribeBuffer`, in program order. -/
inductive Event where
  | logMelSpectrogram (samples : List F32)
  | writeInput (data : List F32)
  | setNumThreads (n : Nat)
  | invoke
deriving DecidableEq

/-- What feature extraction and the interpreter answer during `transcribeBuffer`:
`log_mel_spectrogram` fails with `none`, `Invoke` fails with `none` and otherwise
leaves the output tokens `output_int[0 .. output_size)`. -/
structure InferenceEnv where
  processor_count : Nat
  log_mel_spectrogram : List F32 → whisper_filters → Option whisper_mel
  invoke : List F32 → Option (List Int)

/-- How a call of `transcribeBuffer` ends: with a text, or in a null-pointer access. -/
inductive TranscribeOutcome where
  | returned (text : Bytes)
  | undefined
deriving DecidableEq

/-- Result, final engine state and calls made by `transcribeBuffer`. -/
structure TranscribeResult where
  outcome : TranscribeOutcome
  engine : TFLiteEngine
  trace : List Event

/-- The function `TFLiteEngine::transcribeBuffer`. -/
def transcribeBuffer (env : InferenceEnv) (e : TFLiteEngine) (samples : List F32) :
    TranscribeResult :=
  let samples := vectorResize samples (WHISPER_SAMPLE_RATE * WHISPER_CHUNK_SIZE) F32.zero
  let t0 := [Event.logMelSpectrogram samples]
  match env.log_mel_spectrogram samples e.filters with
  | none => { outcome := TranscribeOutcome.returned [], engine := e, trace := t0 }
  | some mel =>
    let e1 : TFLiteEngine := { e with mel := mel }
    match e1.g_whisper_tflite.input with
    | none => { outcome := TranscribeOutcome.undefined, engine := e1, trace := t0 }
    | some input =>
      let count := (mel.n_mel * mel.n_len).toNat
      let input' := mel.data.take count ++ input.drop count
      let e2 : TFLiteEngine :=
        { e1 with g_whisper_tflite := { e1.g_whisper_tflite with input := some input' } }
      let t1 := t0 ++ [Event.writeInput input']
      if !e2.g_whisper_tflite.interpreter then
        { outcome := TranscribeOutcome.undefined, engine := e2, trace := t1 }
      else
        let t2 := t1 ++ [Event.setNumThreads env.processor_count, Event.invoke]
        match env.invoke input' with
        | none => { outcome := TranscribeOutcome.returned [], engine := e2, trace := t2 }
        | some tokens =>
          { outcome := TranscribeOutcome.returned (decodeTokens e2.g_vocab tokens),
            engine := e2, trace := t2 }

/-! ## readWAVFile -/

/-- The `n` bytes at offset `off` of an object representation. -/
def field (mem : Bytes) (off n : Nat) : Bytes := (mem.drop off).take n

/-- An input file stream: the file, the read position and whether no failure was recorded. -/
structure IfStream where
  file : Bytes
  pos : Nat
  good : Bool
deriving DecidableEq

namespace IfStream

/-- The call `read(dest, n)`: the bytes obtained overwrite the beginning of the
destination `mem`; fewer than `n` bytes record a failure, and a failed stream reads nothing. -/
def read (s : IfStream) (n : Nat) (mem : Bytes) : IfStream × Bytes :=
  if !s.good then (s, mem)
  else
    let got := (s.file.drop s.pos).take n
    ({ s with pos := s.pos + got.length, good := decide (got.length = n) },
      got ++ mem.drop got.length)

/-- The call `seekg(off, std::ios::cur)` with a non-negative offset. -/
def seekg (s : IfStream) (off : Nat) : IfStream :=
  if !s.good then s else { s with pos := s.pos + off }

end IfStream

/-- Contents of the local variables of `readWAVFile` before anything is stored in
them: `wav_header` (36 bytes), `chunk_id` and `chunk_size` (4 bytes each). -/
structure Uninit where
  wav_header : Bytes
  chunk_id : Bytes
  chunk_size : Bytes

/-- The packed `WAVHeader` record as read from its 36-byte object representation. -/
structure WAVHeader where
  riff_header : Bytes
  wav_size : Nat
  wave_header : Bytes
  fmt_header : Bytes
  fmt_chunk_size : Nat
  audio_format : Nat
  num_channels : Nat
  sample_rate : Nat
  byte_rate : Nat
  block_align : Nat
  bits_per_sample : Nat
deriving DecidableEq

/-- Field layout of the packed `WAVHeader`. -/
def parseHeader (mem : Bytes) : WAVHeader :=
  { riff_header := field mem 0 4
    wav_size := leValue (field mem 4 4)
    wave_header := field mem 8 4
    fmt_header := field mem 12 4
    fmt_chunk_size := leValue (field mem 16 4)
    audio_format := leValue (field mem 20 2)
    num_channels := leValue (field mem 22 2)
    sample_rate := leValue (field mem 24 4)
    byte_rate := leValue (field mem 28 4)
    block_align := leValue (field mem 32 2)
    bits_per_sample := leValue (field mem 34 2) }

/-- The loop of lines 77-87. The result is `found_data`, the bytes of `chunk_size` and
the stream; the first argument bounds the number of iterations. -/
def findDataLoop : Nat → IfStream → Bytes → Bytes → Bool × Bytes × IfStream
  | 0, s, _, chunk_size => (false, chunk_size, s)
  | fuel + 1, s, chunk_id, chunk_size =>
    let r1 := s.read 4 chunk_id
    if !r1.1.good then (false, chunk_size, r1.1)
    else
      let r2 := r1.1.read 4 chunk_size
      if field r1.2 0 4 = ascii "data" then (true, r2.2, r2.1)
      else findDataLoop fuel (r2.1.seekg (leValue (field r2.2 0 4))) r1.2 r2.2

/-- The chunk scan of lines 72-87; every iteration that goes on consumes four bytes of
the file, so `file.length + 1` iterations are never exhausted. -/
def findData (s : IfStream) (u : Uninit) : Bool × Bytes × IfStream :=
  findDataLoop (s.file.length + 1) s u.chunk_id u.chunk_size

/-- Undefined behaviour that `readWAVFile` can run into. -/
inductive WavFault where
  | divByZero
  | bufferOverflow
  | badCast
  | outOfBounds
deriving DecidableEq, Repr

/-- The `int16_t` elements stored in a little-endian object representation. -/
def int16Elems : Bytes → List Int
  | b0 :: b1 :: rest => toInt16 (b0 + 256 * b1) :: int16Elems rest
  | _ => []

/-- The `float` elements stored in a little-endian object representation. -/
def floatElems : Bytes → List F32
  | b0 :: b1 :: b2 :: b3 :: rest =>
    F32.ofBits (b0 + 256 * (b1 + 256 * (b2 + 256 * b3))) :: floatElems rest
  | _ => []

/-- The inner loop of lines 118-121 and 141-144: `sum += x` for every channel value,
starting from `0.0f`. -/
def channelSum (xs : List F32) : F32 := xs.foldl F32.add F32.zero

/-- The channel values of frame `i` in an interleaved buffer. -/
def frame {α : Type} (xs : List α) (num_channels i : Nat) : List α :=
  (xs.drop (i * num_channels)).take num_channels

/-- Lines 104-124: conversion of the 16-bit samples to mono floats. -/
def convertPcm16 (pcm16_samples : List Int) (num_channels num_samples_per_channel : Nat) :
    List F32 :=
  if num_channels = 1 then
    (List.range num_samples_per_channel).map fun i =>
      F32.div (F32.ofInt (pcm16_samples.getD i 0)) (F32.ofInt 32768)
  else
    (List.range num_samples_per_channel).map fun i =>
      F32.div
        (F32.div (channelSum ((frame pcm16_samples num_channels i).map F32.ofInt))
          (F32.ofInt num_channels))
        (F32.ofInt 32768)

/-- Lines 131-147: mixdown of the float samples. -/
def convertFloat (float_samples_raw : List F32) (num_channels num_samples_per_channel : Nat) :
    List F32 :=
  if num_channels = 1 then float_samples_raw
  else
    (List.range num_samples_per_channel).map fun i =>
      F32.div (channelSum (frame float_samples_raw num_channels i)) (F32.ofInt num_channels)

/-- The value of `new_size` at line 158. -/
def resampleSize (size sample_rate : Nat) : Option Nat :=
  F32.toUInt32 (F32.div (F32.ofInt size) (F32.div (F32.ofInt sample_rate) (F32.ofInt 16000)))

/-- The body of the loop of lines 161-171 for index `i`; each arithmetic operation is
rounded on its own. -/
def resampleAt (float_samples : List F32) (ratio : F32) (i : Nat) : Except WavFault F32 :=
  let src_index := F32.mul (F32.ofInt i) ratio
  match F32.toUInt32 src_index with
  | none => Except.error WavFault.badCast
  | some src_idx =>
    let frac := F32.sub src_index (F32.ofInt src_idx)
    let next := (src_idx + 1) % 2 ^ 32
    if next < float_samples.length then
      match float_samples.get? src_idx, float_samples.get? next with
      | some a, some b =>
        Except.ok (F32.add (F32.mul a (F32.sub (F32.ofInt 1) frac)) (F32.mul b frac))
      | _, _ => Except.error WavFault.outOfBounds
    else
      match float_samples.get? src_idx with
      | some a => Except.ok a
      | none => Except.error WavFault.outOfBounds

/-- The loop of lines 161-171 over the indices in the list; a fault ends it. -/
def resampleLoop (float_samples : List F32) (ratio : F32) : List Nat → Except WavFault (List F32)
  | [] => Except.ok []
  | i :: rest =>
    match resampleAt float_samples ratio i with
    | Except.error f => Except.error f
    | Except.ok y =>
      match resampleLoop float_samples ratio rest with
      | Except.error f => Except.error f
      | Except.ok ys => Except.ok (y :: ys)

/-- Lines 155-174: linear-interpolation resampling to 16 kHz. -/
def resample (float_samples : List F32) (sample_rate : Nat) : Except WavFault (List F32) :=
  if sample_rate ≠ 16000 then
    let ratio := F32.div (F32.ofInt sample_rate) (F32.ofInt 16000)
    match resampleSize float_samples.length sample_rate with
    | none => Except.error WavFault.badCast
    | some new_size => resampleLoop float_samples ratio (List.range new_size)
  else Except.ok float_samples

/-- Lines 95-152: the sample payload is read and converted to mono floats; the stream
stands right after the size field of the data chunk. -/
def readSamples (h : WAVHeader) (chunk_size : Nat) (s : IfStream) :
    Except WavFault (Option (List F32)) :=
  let bytes_per_sample := h.bits_per_sample / 8
  if bytes_per_sample = 0 then Except.error WavFault.divByZero
  else
    let num_samples_total := chunk_size / bytes_per_sample
    if h.num_channels = 0 then Except.error WavFault.divByZero
    else
      let num_samples_per_channel := num_samples_total / h.num_channels
      if h.audio_format = 1 then
        if h.bits_per_sample = 16 then
          let got := (s.read chunk_size []).2
          if 2 * num_samples_total < got.length then Except.error WavFault.bufferOverflow
          else
            let mem := got ++ List.replicate (2 * num_samples_total - got.length) 0
            Except.ok (some (convertPcm16 (int16Elems mem) h.num_channels num_samples_per_channel))
        else Except.ok none
      else if h.audio_format = 3 then
        let got := (s.read chunk_size []).2
        if 4 * num_samples_total < got.length then Except.error WavFault.bufferOverflow
        else
          let mem := got ++ List.replicate (4 * num_samples_total - got.length) 0
          Except.ok (some (convertFloat (floatElems mem) h.num_channels num_samples_per_channel))
      else Except.ok none

/-- Lines 35-93: the header is read and checked and the chunks are scanned. The result
is the header, the value of `chunk_size` and the stream at line 95, or `none` when the
function returns the empty vector before. -/
def locateData (u : Uninit) (bytes : Bytes) : Option (WAVHeader × Nat × IfStream) :=
  let r := IfStream.read { file := bytes, pos := 0, good := true } 36 u.wav_header
  let h := parseHeader r.2
  if h.riff_header ≠ ascii "RIFF" ∨ h.wave_header ≠ ascii "WAVE" ∨
      h.fmt_header ≠ ascii "fmt " then none
  else
    let s1 := if h.fmt_chunk_size > 16 then r.1.seekg (h.fmt_chunk_size - 16) else r.1
    match findData s1 u with
    | (false, _, _) => none
    | (true, size_bytes, s2) => some (h, leValue (field size_bytes 0 4), s2)

/-- The function `readWAVFile`; `file` is `none` when the file cannot be opened. -/
def readWAVFile (u : Uninit) (file : Option Bytes) : Except WavFault (List F32) :=
  match file with
  | none => Except.ok []
  | some bytes =>
    match locateData u bytes with
    | none => Except.ok []
    | some (h, chunk_size, s) =>
      match readSamples h chunk_size s with
      | Except.error f => Except.error f
      | Except.ok none => Except.ok []
      | Except.ok (some float_samples) => resample float_samples h.sample_rate

/-- The function `TFLiteEngine::transcribeFile`; `none` stands for undefined behaviour
inside `readWAVFile`. -/
def transcribeFile (env : InferenceEnv) (e : TFLiteEngine) (u : Uninit) (file : Option Bytes) :
    Option TranscribeResult :=
  match readWAVFile u file with
  | Except.error _ => none
  | Except.ok pcmf32 =>
    if pcmf32.isEmpty then
      some { outcome := TranscribeOutcome.returned [], engine := e, trace := [] }
    else
      let target_size := WHISPER_SAMPLE_RATE * WHISPER_CHUNK_SIZE
      let pcmf32 :=
        if pcmf32.length < target_size then vectorResize pcmf32 target_size F32.zero
        else if pcmf32.length > target_size then vectorResize pcmf32 target_size F32.zero
        else pcmf32
      some (transcribeBuffer env e pcmf32)

/-! ## The asset layout -/

/-- The four bytes of a 32-bit value, least significant first. -/
def le32 (x : Nat) : Bytes := [x % 256, x / 256 % 256, x / 65536 % 256, x / 16777216 % 256]

/-- The vocabulary entries of the asset layout: `(len:int32, bytes:len)` for each string. -/
def encodeVocab : List Bytes → Bytes
  | [] => []
  | w :: ws => le32 w.length ++ w ++ encodeVocab ws

/-- The asset layout of the external-interfaces section of the specification:
`[magic][melBinCount][fftSize][coefficients][vocabSize][vocabSize x (len, bytes)]`. -/
def encodeAsset (melBinCount fftSize : Nat) (coefficients : List Nat) (words : List Bytes) :
    Bytes :=
  le32 0x57535052 ++ le32 melBinCount ++ le32 fftSize ++ (coefficients.map le32).flatten ++
    le32 words.length ++ encodeVocab words

/-- An asset whose counts and lengths are 32-bit `int` values and whose coefficient
block has `melBinCount * fftSize` 32-bit words. -/
def WellFormedAsset (melBinCount fftSize : Nat) (coefficients : List Nat) (words : List Bytes) :
    Prop :=
  melBinCount < 2 ^ 31 ∧ fftSize < 2 ^ 31 ∧ melBinCount * fftSize < 2 ^ 31 ∧
  coefficients.length = melBinCount * fftSize ∧ (∀ c ∈ coefficients, c < 2 ^ 32) ∧
  words.length < 2 ^ 31 ∧ ∀ w ∈ words, w.length < 2 ^ 31

/-- The table after the strings `words` were stored at the keys `i, i+1, ...`. -/
def insertWords : List Bytes → Int → AList (fun _ : Int => Bytes) → AList (fun _ : Int => Bytes)
  | [], _, m => m
  | w :: ws, i, m => insertWords ws (i + 1) (m.insert i w)

/-- The number of entries of the id-to-string table (`std::map::size`). -/
def vocabSize (v : whisper_vocab) : Nat := v.id_to_token.keys.length

/-! ## Sample inputs -/

/-- The engine in the state `loadModel` returns or exits with, if it does. -/
def LoadOutcome.engine? : LoadOutcome → Option TFLiteEngine
  | LoadOutcome.returned _ e => some e
  | LoadOutcome.exited e => some e
  | LoadOutcome.undefined => none

/-- The asset `loadModel` selects for a mode flag. -/
def Assets.select (assets : Assets) (isMultilingual : Bool) : Bytes :=
  if isMultilingual then assets.filters_vocab_multilingual else assets.filters_vocab_en

/-- The six reserved ids are indices of the single-language vocabulary. -/
def ReservedInRange (v : whisper_vocab) : Prop :=
  (0 ≤ v.token_eot ∧ v.token_eot < 51864) ∧ (0 ≤ v.token_sot ∧ v.token_sot < 51864) ∧
  (0 ≤ v.token_prev ∧ v.token_prev < 51864) ∧ (0 ≤ v.token_solm ∧ v.token_solm < 51864) ∧
  (0 ≤ v.token_not ∧ v.token_not < 51864) ∧ (0 ≤ v.token_beg ∧ v.token_beg < 51864)

/-- An engine on which nothing was loaded; the reserved ids are those of the Whisper
single-language vocabulary. -/
def sampleEngine : TFLiteEngine :=
  { g_whisper_tflite :=
      { buffer := none, size := 0, model := false, interpreter := false, input := none,
        is_whisper_tflite_initialized := false }
    g_vocab :=
      { token_eot := 50256, token_sot := 50257, token_prev := 50360, token_solm := 50361,
        token_not := 50362, token_beg := 50363, id_to_token := ∅ }
    filters := { n_mel := 0, n_fft := 0, data := [] }
    mel := { n_len := 0, n_mel := 0, data := [] } }

/-- A model file that cannot be opened. -/
def closedModelEnv : ModelEnv :=
  { is_open := false, content := [], readOk := false, partialBuffer := [], modelBuilt := false,
    interpreterBuilt := false, tensorsAllocated := false, inputTensor := [] }

/-- A small asset: a 1 x 2 filter bank and the strings "a" and "b". -/
def smallAsset : Bytes := encodeAsset 1 2 [0, 1065353216] [ascii "a", ascii "b"]

/-- An asset with 51865 explicit (empty) strings. -/
def largeAsset : Bytes := encodeAsset 0 0 [] (List.replicate 51865 [])

/-- A vocabulary record with the single entry `15 ↦ "hi"`. -/
def hiVocab : whisper_vocab :=
  { token_eot := 50256, token_sot := 50257, token_prev := 50360, token_solm := 50361,
    token_not := 50362, token_beg := 50363,
    id_to_token := AList.insert 15 (ascii "hi") ∅ }

/-- An asset whose first four bytes decode to `0x58535052`. -/
def badMagicAsset : Bytes := [0x52, 0x50, 0x53, 0x58, 1, 0, 0, 0]

/-- The small asset in both slots. -/
def smallAssets : Assets :=
  { filters_vocab_en := smallAsset, filters_vocab_multilingual := smallAsset }

/-- The large asset in both slots. -/
def largeAssets : Assets :=
  { filters_vocab_en := largeAsset, filters_vocab_multilingual := largeAsset }

/-- A single-language asset with a wrong magic number next to a valid multilingual one. -/
def badMagicAssets : Assets :=
  { filters_vocab_en := badMagicAsset, filters_vocab_multilingual := smallAsset }

/-- The ids lines 229-231 skip. -/
def isSkipped (v : whisper_vocab) (token : Int) : Bool :=
  decide (token = v.token_sot ∨ token = v.token_prev ∨ token = v.token_not ∨
    token = v.token_beg ∨ token = v.token_solm)

/-- The tokens that contribute text: non-negative, not skipped, present in the table. -/
def isEmitted (v : whisper_vocab) (token : Int) : Bool :=
  decide (0 ≤ token) && !isSkipped v token && (v.id_to_token.lookup token).isSome

/-- The text of the Token Decoder section for a sequence without end-of-text id: the
complete table strings of the contributing tokens, in order, without separators. -/
def emittedStrings (v : whisper_vocab) (tokens : List Int) : Bytes :=
  (tokens.filter (isEmitted v)).flatMap fun token => (v.id_to_token.lookup token).getD []

/-- A vocabulary record whose entry 15 is the three bytes `'a'`, NUL, `'b'`. -/
def nulVocab : whisper_vocab :=
  { token_eot := 50256, token_sot := 50257, token_prev := 50360, token_solm := 50361,
    token_not := 50362, token_beg := 50363,
    id_to_token := AList.insert 15 [97, 0, 98] ∅ }

/-- Feature extraction and inference that always succeed, with an empty result. -/
def sampleInferenceEnv : InferenceEnv :=
  { processor_count := 4
    log_mel_spectrogram := fun _ _ => some { n_len := 1, n_mel := 1, data := [F32.zero] }
    invoke := fun _ => some [] }

/-- The two bytes of a 16-bit value, least significant first. -/
def le16 (x : Nat) : Bytes := [x % 256, x / 256 % 256]

/-- A RIFF/WAVE file with a 16-byte format chunk directly followed by the data chunk. -/
def wavBytes (audio_format num_channels sample_rate bits_per_sample : Nat) (data : Bytes) :
    Bytes :=
  ascii "RIFF" ++ le32 (28 + data.length) ++ ascii "WAVE" ++ ascii "fmt " ++ le32 16 ++
    le16 audio_format ++ le16 num_channels ++ le32 sample_rate ++
    le32 (sample_rate * num_channels * (bits_per_sample / 8)) ++
    le16 (num_channels * (bits_per_sample / 8)) ++ le16 bits_per_sample ++
    ascii "data" ++ le32 data.length ++ data

/-- Local variables of `readWAVFile` that start out as zero bytes. -/
def zeroUninit : Uninit :=
  { wav_header := List.replicate 36 0, chunk_id := [0, 0, 0, 0], chunk_size := [0, 0, 0, 0] }

/-- A mono 16-bit PCM file at 16000 Hz with the samples 16384 and -16384. -/
def monoWav : Bytes := wavBytes 1 1 16000 16 [0, 64, 0, 192]

/-- The `i`-th 16-bit sample of the payload that starts at the stream position. -/
def pcmSample (s : IfStream) (i : Nat) : Int :=
  toInt16 (leValue (field s.file (s.pos + 2 * i) 2))

/-- The sum of the `n` channel samples of frame `i` of an interleaved 16-bit payload. -/
def frameSum (s : IfStream) (n i : Nat) : Int :=
  ((List.range n).map fun ch => pcmSample s (i * n + ch)).sum

/-- A three-channel 16-bit PCM file at 16000 Hz with the single frame (1, 0, 0). -/
def triWav : Bytes := wavBytes 1 3 16000 16 [1, 0, 0, 0, 0, 0]

/-- A stereo 16-bit PCM file at 16000 Hz with the frames (16384, -16384) and (3, 4). -/
def stereoWav : Bytes := wavBytes 1 2 16000 16 [0, 64, 0, 192, 3, 0, 4, 0]

/-- The output length of the Audio Normalizer section of the specification:
`floor(inputLength / ratio)` with `ratio = headerRate / 16000`. -/
def exactResampleSize (inputLength headerRate : Nat) : Int :=
  ⌊(inputLength : ℚ) / ((headerRate : ℚ) / 16000)⌋

/-- A mono 16-bit PCM file at 8000 Hz with the samples 16384 and -16384. -/
def lowRateWav : Bytes := wavBytes 1 1 8000 16 [0, 64, 0, 192]

/-- A mono integer-PCM file at 16000 Hz that declares 4 bits per sample. -/
def fourBitWav : Bytes := wavBytes 1 1 16000 4 [1, 0]

/-- A file with the unknown format code 7 that declares no channels. -/
def noChannelWav : Bytes := wavBytes 7 0 16000 8 [1, 0]

/-- A mono integer-PCM file at 16000 Hz with 8 bits per sample. -/
def eightBitWav : Bytes := wavBytes 1 1 16000 8 [1, 0]

/-! ## freeModel -/

/-- The function `TFLiteEngine::freeModel`: the engine afterwards and the buffers
`delete[]` was called on. The pointer member is left as it is. -/
def freeModel (e : TFLiteEngine) : TFLiteEngine × List Bytes :=
  match e.g_whisper_tflite.buffer with
  | some buffer => (e, [buffer])
  | none => (e, [])

/-- A model file that is read completely and an inference library that builds. -/
def goodModelEnv : ModelEnv :=
  { is_open := true, content := [1, 2, 3], readOk := true, partialBuffer := [],
    modelBuilt := true, interpreterBuilt := true, tensorsAllocated := true, inputTensor := [] }

/-- A model file that opens but whose `read` fails after one byte, with an inference
library that builds from whatever buffer it is given. -/
def shortReadEnv : ModelEnv :=
  { is_open := true, content := [1, 2, 3], readOk := false, partialBuffer := [1, 0, 0],
    modelBuilt := true, interpreterBuilt := true, tensorsAllocated := true, inputTensor := [] }

/-- An engine in the state a successful `loadModel` leaves: buffer owned, flag set. -/
def readyEngine : TFLiteEngine :=
  { sampleEngine with
    g_whisper_tflite :=
      { buffer := some [1, 2, 3], size := 3, model := true, interpreter := true,
        input := some [], is_whisper_tflite_initialized := true } }

/-- A float file at 16000 Hz that declares 0 bits per sample. -/
def zeroBitWav : Bytes := wavBytes 3 1 16000 0 [0, 0, 128, 63]

/-- A 16-bit integer-PCM file at 16000 Hz that declares 0 channels. -/
def zeroChannelWav : Bytes := wavBytes 1 0 16000 16 [0, 64, 0, 192]

/-- An asset that declares a 65536 x 65536 filter bank, with as many coefficients. -/
def overflowAsset : Bytes := encodeAsset 65536 65536 (List.replicate (65536 * 65536) 0) []

/-- The overflowing asset in both slots. -/
def overflowAssets : Assets :=
  { filters_vocab_en := overflowAsset, filters_vocab_multilingual := overflowAsset }

/-! ## Interpolation -/

/-- The conversion of line 112: a 16-bit sample as a float. -/
def pcmFloat (sample : Int) : F32 := F32.div (F32.ofInt sample) (F32.ofInt 32768)

/-- The value the interpolation step of the specification gives for output index `i`,
in exact arithmetic: `srcIndex = i * (headerRate / 16000)`, the two bracketing samples
blended by the fractional part, the last sample held. -/
def exactInterpolation (x : List ℚ) (headerRate i : Nat) : ℚ :=
  let srcIndex : ℚ := (i : ℚ) * ((headerRate : ℚ) / 16000)
  let s := ⌊srcIndex⌋.toNat
  let f := srcIndex - ⌊srcIndex⌋
  if s + 1 < x.length then x.getD s 0 * (1 - f) + x.getD (s + 1) 0 * f else x.getD s 0

/-- A buffer of 3972 samples, all zero except sample 3969, which is `1.0f`. -/
def stepBuffer : List F32 :=
  List.replicate 3969 F32.zero ++ [F32.fin (2 ^ 149), F32.zero, F32.zero]

/-- The float buffer `[1.0f, 2 ^ (-24)]`. -/
def tinyBuffer : List F32 := [F32.fin (2 ^ 149), F32.fin (2 ^ 125)]

/-! ## Chunks -/

/-- A chunk of the container file: a 4-byte tag and a payload. -/
structure Chunk where
  tag : Bytes
  payload : Bytes

/-- A chunk in the file: tag, 4-byte size, payload of that size. -/
def encodeChunk (c : Chunk) : Bytes := c.tag ++ le32 c.payload.length ++ c.payload

/-- A sequence of chunks in the file. -/
def encodeChunks : List Chunk → Bytes
  | [] => []
  | c :: cs => encodeChunk c ++ encodeChunks cs

/-- A chunk with a 4-byte tag other than "data" whose size fits the size field. -/
def NonDataChunk (c : Chunk) : Prop :=
  c.tag.length = 4 ∧ c.tag ≠ ascii "data" ∧ c.payload.length < 2 ^ 32

/-- What is left of a file in which the stream ends before a data chunk is read: fewer
than 8 bytes that do not start with the tag "data", or a last chunk with another tag
whose declared size exceeds the bytes that follow. -/
def EndsWithoutData (tail : Bytes) : Prop :=
  (tail.length < 8 ∧ tail.take 4 ≠ ascii "data") ∨
  ∃ (tag : Bytes) (n : Nat) (rest : Bytes), tail = tag ++ le32 n ++ rest ∧ tag.length = 4 ∧
    tag ≠ ascii "data" ∧ n < 2 ^ 32 ∧ rest.length < n

/-- The 36 header bytes of a 16-bit mono PCM file with an 18-byte format chunk. -/
def sampleHeader : Bytes :=
  ascii "RIFF" ++ le32 100 ++ ascii "WAVE" ++ ascii "fmt " ++ le32 18 ++ le16 1 ++ le16 1 ++
    le32 16000 ++ le32 32000 ++ le16 2 ++ le16 16

/-- A "LIST" chunk with three payload bytes and a "fact" chunk with four. -/
def sampleChunks : List Chunk :=
  [{ tag := ascii "LIST", payload := [1, 2, 3] }, { tag := ascii "fact", payload := [9, 9, 9, 9] }]

/-! ## Source indices -/

/-- The value of `src_idx` at line 163 for the output index `i`. -/
def sourceIndex (sample_rate i : Nat) : Option Nat :=
  F32.toUInt32 (F32.mul (F32.ofInt i) (F32.div (F32.ofInt sample_rate) (F32.ofInt 16000)))

/-- The 36 header bytes of a mono 16-bit PCM file at 8000 Hz with a 16-byte format chunk. -/
def lowRateHeader : Bytes :=
  ascii "RIFF" ++ le32 16777256 ++ ascii "WAVE" ++ ascii "fmt " ++ le32 16 ++ le16 1 ++ le16 1 ++
    le32 8000 ++ le32 16000 ++ le16 2 ++ le16 16

/-- A mono 16-bit PCM file at 8000 Hz with 8388610 samples, all zero. -/
def longWav : Bytes :=
  lowRateHeader ++ (ascii "data" ++ (le32 16777220 ++ List.replicate 16777220 0))

/-! ## A file with 1024 channels -/

/-- The 36 header bytes of a 16-bit PCM file at 16000 Hz with 1024 channels. -/
def wideHeader : Bytes :=
  ascii "RIFF" ++ le32 2084 ++ ascii "WAVE" ++ ascii "fmt " ++ le32 16 ++ le16 1 ++
    le16 1024 ++ le32 16000 ++ le32 32768000 ++ le16 2048 ++ le16 16

/-- One frame of 1024 samples: 512 times -32768, then -1, then 511 times 0. -/
def widePayload : Bytes :=
  (List.replicate 512 [0, 128]).flatten ++ ([255, 255] ++ List.replicate 1022 0)

/-- A 16-bit PCM file at 16000 Hz with 1024 channels and one frame. -/
def wideWav : Bytes := wideHeader ++ (ascii "data" ++ (le32 2048 ++ widePayload))

/-- Four payload bytes, the samples 16384 and -16384, followed by a second chunk tagged
"data" that holds the sample 1. -/
def twoDataPayload : Bytes := [0, 64, 0, 192] ++ (ascii "data" ++ (le32 2 ++ [1, 0]))

/-- A 16-bit PCM file at 44100 Hz with three channels and seventeen frames (1, 0, 0). -/
def constantWav : Bytes := wavBytes 1 3 44100 16 (List.replicate 17 [1, 0, 0, 0, 0, 0]).flatten

/-! # Theorems -/

/-! ## Token decoding -/

theorem decodeLoop_append (v : whisper_vocab) (pre rest : List Int) (text : Bytes)
    (hpre : v.token_eot ∉ pre) :
    decodeLoop v (pre ++ rest) text = decodeLoop v rest (decodeLoop v pre text) := by
  induction pre generalizing text with
  | nil => simp [decodeLoop]
  | cons t ts ih =>
    have ht : t ≠ v.token_eot := fun h => hpre (by simp [h])
    have hts : v.token_eot ∉ ts := fun h => hpre (by simp [h])
    simp only [List.cons_append, decodeLoop, if_neg ht]
    split
    · exact ih _ hts
    · split
      · split
        · split
          · exact ih _ hts
          · exact ih _ hts
        · exact ih _ hts
      · exact ih _ hts

/-- C1: token decoding stops at the first end-of-text token. For every vocabulary and
reserved ids, when `pre` holds no end-of-text id the text decoded from
`pre ++ [token_eot] ++ post` is the text decoded from `pre` alone. -/
theorem decodeTokens_stops_at_eot (v : whisper_vocab) (pre post : List Int)
    (hpre : v.token_eot ∉ pre) :
    decodeTokens v (pre ++ [v.token_eot] ++ post) = decodeTokens v pre := by
  unfold decodeTokens
  rw [List.append_assoc, decodeLoop_append v pre _ _ hpre]
  simp [decodeLoop]

theorem decodeTokens_stops_at_eot_witness :
    hiVocab.token_eot ∉ [hiVocab.token_sot, 15] ∧
    decodeTokens hiVocab ([hiVocab.token_sot, 15] ++ [hiVocab.token_eot] ++ [9999]) =
      decodeTokens hiVocab [hiVocab.token_sot, 15] ∧
    decodeTokens hiVocab [hiVocab.token_sot, 15] = ascii "hi" :=
  ⟨by decide, decodeTokens_stops_at_eot hiVocab [hiVocab.token_sot, 15] [9999] (by decide),
    by decide⟩

/-! ## Asset decoding -/

theorem leValue_le32 (x : Nat) (hx : x < 2 ^ 32) : leValue (le32 x) = x := by
  simp only [le32, leValue]
  omega

theorem le32_length (x : Nat) : (le32 x).length = 4 := rfl

theorem takeBytes_append (a b : Bytes) : takeBytes a.length (a ++ b) = some (a, b) := by
  simp [takeBytes]

theorem takeBytes_le32 (x : Nat) (rest : Bytes) :
    takeBytes 4 (le32 x ++ rest) = some (le32 x, rest) :=
  takeBytes_append (le32 x) rest

theorem takeInt_le32 (x : Nat) (rest : Bytes) (hx : x < 2 ^ 31) :
    takeInt (le32 x ++ rest) = some ((x : Int), rest) := by
  have h32 : x < 2 ^ 32 := by omega
  simp only [takeInt, takeBytes_le32, leValue_le32 x h32, toInt32, if_pos hx]

theorem takeWords_encode (cs : List Nat) (rest : Bytes) (hcs : ∀ c ∈ cs, c < 2 ^ 32) :
    takeWords cs.length ((cs.map le32).flatten ++ rest) = some (cs, rest) := by
  induction cs with
  | nil => simp [takeWords]
  | cons c cs ih =>
    have hc : c < 2 ^ 32 := hcs c (by simp)
    have hrest : ∀ x ∈ cs, x < 2 ^ 32 := fun x hx => hcs x (by simp [hx])
    simp only [List.map_cons, List.flatten_cons, List.append_assoc, List.length_cons, takeWords,
      takeBytes_le32, ih hrest, leValue_le32 c hc]

theorem readVocab_encode (ws : List Bytes) (i : Int) (rest : Bytes)
    (m : AList (fun _ : Int => Bytes)) (hws : ∀ w ∈ ws, w.length < 2 ^ 31) :
    readVocab ws.length i (encodeVocab ws ++ rest) m = some (rest, insertWords ws i m) := by
  induction ws generalizing i m with
  | nil => simp [readVocab, encodeVocab, insertWords]
  | cons w ws ih =>
    have hw : w.length < 2 ^ 31 := hws w (by simp)
    have hrest : ∀ x ∈ ws, x.length < 2 ^ 31 := fun x hx => hws x (by simp [hx])
    have hneg : ¬ ((w.length : Int) < 0) := by omega
    simp only [encodeVocab, List.append_assoc, List.length_cons, readVocab,
      takeInt_le32 w.length _ hw, if_neg hneg, Int.toNat_ofNat, takeBytes_append,
      insertWords, ih _ _ hrest]

/-- Decoding the asset layout: the filters are the encoded ones and the table holds the
encoded strings followed by the synthesised tail. -/
theorem decodeAsset_encode (melBinCount fftSize : Nat) (coefficients : List Nat)
    (words : List Bytes) (isMultilingual : Bool) (e : TFLiteEngine)
    (hwf : WellFormedAsset melBinCount fftSize coefficients words) :
    decodeAsset (le32 melBinCount ++ le32 fftSize ++ (coefficients.map le32).flatten ++
        le32 words.length ++ encodeVocab words) isMultilingual e =
      some { e with
        filters := { n_mel := melBinCount, n_fft := fftSize, data := coefficients }
        g_vocab :=
          { (if isMultilingual then
                shiftTokens { e.g_vocab with
                  id_to_token := insertWords words 0 e.g_vocab.id_to_token }
              else { e.g_vocab with
                  id_to_token := insertWords words 0 e.g_vocab.id_to_token }) with
            id_to_token :=
              addTail
                (if isMultilingual then
                  shiftTokens { e.g_vocab with
                    id_to_token := insertWords words 0 e.g_vocab.id_to_token }
                else { e.g_vocab with
                    id_to_token := insertWords words 0 e.g_vocab.id_to_token })
                (totalVocabSize isMultilingual - (words.length : Int)).toNat
                (words.length : Int) (insertWords words 0 e.g_vocab.id_to_token) } } := by
  obtain ⟨hm, hf, hmf, hlen, hcs, hn, hws⟩ := hwf
  have hprod : ¬ ((melBinCount : Int) * (fftSize : Int) < 0 ∨
      (2 : Int) ^ 31 ≤ (melBinCount : Int) * (fftSize : Int)) := by
    have h1 : ((melBinCount : Int) * (fftSize : Int)) = ((melBinCount * fftSize : Nat) : Int) := by
      push_cast; ring
    rw [h1]
    omega
  have hcount : ((melBinCount : Int) * (fftSize : Int)).toNat = coefficients.length := by
    have h1 : ((melBinCount : Int) * (fftSize : Int)) = ((melBinCount * fftSize : Nat) : Int) := by
      push_cast; ring
    rw [h1, Int.toNat_ofNat, hlen]
  have hvoc := readVocab_encode words 0 [] e.g_vocab.id_to_token hws
  rw [List.append_nil] at hvoc
  simp only [decodeAsset, List.append_assoc, takeInt_le32 melBinCount _ hm,
    takeInt_le32 fftSize _ hf, if_neg hprod, hcount, takeWords_encode coefficients _ hcs,
    takeInt_le32 words.length _ hn, Int.toNat_ofNat, hvoc]

theorem mem_insertWords (ws : List Bytes) (i a : Int) (m : AList (fun _ : Int => Bytes)) :
    a ∈ insertWords ws i m ↔ a ∈ m ∨ (i ≤ a ∧ a < i + ws.length) := by
  induction ws generalizing i m with
  | nil => simp [insertWords]
  | cons w ws ih =>
    simp only [insertWords, ih, AList.mem_insert, List.length_cons]
    push_cast
    constructor
    · rintro ((h | h) | h)
      · right; omega
      · left; exact h
      · right; omega
    · rintro (h | h)
      · left; right; exact h
      · by_cases ha : a = i
        · left; left; exact ha
        · right; omega

theorem mem_addTail (v : whisper_vocab) (k : Nat) (i a : Int)
    (m : AList (fun _ : Int => Bytes)) :
    a ∈ addTail v k i m ↔ a ∈ m ∨ (i ≤ a ∧ a < i + k) := by
  induction k generalizing i m with
  | zero => simp [addTail]
  | succ k ih =>
    simp only [addTail, ih, AList.mem_insert]
    push_cast
    constructor
    · rintro ((h | h) | h)
      · right; omega
      · left; exact h
      · right; omega
    · rintro (h | h)
      · left; right; exact h
      · by_cases ha : a = i
        · left; left; exact ha
        · right; omega

/-- A table whose keys are exactly the integers `0 ≤ a < n` has `n` entries. -/
theorem keys_length_of_mem_iff (m : AList (fun _ : Int => Bytes)) (n : Nat)
    (h : ∀ a : Int, a ∈ m ↔ (0 ≤ a ∧ a < n)) : m.keys.length = n := by
  have hperm : m.keys.Perm ((List.range n).map (fun k : Nat => (k : Int))) := by
    rw [List.perm_ext_iff_of_nodup m.keys_nodup]
    · intro a
      rw [← AList.mem_keys, h a]
      simp only [List.mem_map, List.mem_range]
      constructor
      · rintro ⟨h0, h1⟩
        exact ⟨a.toNat, by omega, by omega⟩
      · rintro ⟨k, hk, rfl⟩
        omega
    · exact (List.nodup_range n).map (fun x y hxy => by exact_mod_cast hxy)
  simpa using hperm.length_eq

theorem loadModelBuffer_vocab (env : ModelEnv) (e : TFLiteEngine) :
    ∃ e2, (loadModelBuffer env e).engine? = some e2 ∧ e2.g_vocab = e.g_vocab ∧
      e2.filters = e.filters := by
  unfold loadModelBuffer
  dsimp only
  split_ifs <;> exact ⟨_, rfl, rfl, rfl⟩

theorem takeInt_magic (rest : Bytes) :
    takeInt (le32 0x57535052 ++ rest) = some (0x57535052, rest) :=
  takeInt_le32 0x57535052 rest (by norm_num)

/-- The engine `loadModel` continues with after a well-formed asset was decoded on an
engine that is not initialised. -/
theorem loadModel_encode (assets : Assets) (env : ModelEnv) (isMultilingual : Bool)
    (e : TFLiteEngine) (melBinCount fftSize : Nat) (coefficients : List Nat)
    (words : List Bytes) (hwf : WellFormedAsset melBinCount fftSize coefficients words)
    (hsel : assets.select isMultilingual = encodeAsset melBinCount fftSize coefficients words)
    (hinit : e.g_whisper_tflite.is_whisper_tflite_initialized = false) :
    ∃ e1, decodeAsset (le32 melBinCount ++ le32 fftSize ++ (coefficients.map le32).flatten ++
        le32 words.length ++ encodeVocab words) isMultilingual e = some e1 ∧
      loadModel assets env isMultilingual e = loadModelBuffer env e1 := by
  have hdec := decodeAsset_encode melBinCount fftSize coefficients words isMultilingual e hwf
  refine ⟨_, hdec, ?_⟩
  have hsel' : (if isMultilingual then assets.filters_vocab_multilingual
      else assets.filters_vocab_en) = le32 0x57535052 ++ (le32 melBinCount ++ le32 fftSize ++
        (coefficients.map le32).flatten ++ le32 words.length ++ encodeVocab words) := by
    rw [← Assets.select, hsel, encodeAsset]
    simp only [List.append_assoc]
  unfold loadModel
  simp only [hinit, Bool.not_false, if_true, hsel', takeInt_magic, hdec]
  simp

/-- The keys of the table after decoding on an empty table. -/
theorem mem_decoded_table (v : whisper_vocab) (words : List Bytes) (total a : Int) :
    a ∈ addTail v (total - (words.length : Int)).toNat (words.length : Int)
        (insertWords words 0 ∅) ↔
      (0 ≤ a ∧ a < max (words.length : Int) total) := by
  rw [mem_addTail, mem_insertWords]
  have hempty : a ∉ (∅ : AList (fun _ : Int => Bytes)) := AList.not_mem_empty a
  have hk : (((total - (words.length : Int)).toNat : Nat) : Int) =
      max (total - (words.length : Int)) 0 := Int.toNat_eq_max _
  rw [hk]
  constructor
  · rintro ((h | h) | h)
    · exact absurd h hempty
    · omega
    · omega
  · intro h
    by_cases hlt : a < (words.length : Int)
    · left; right; omega
    · right; omega

/-- Number of entries of the table after decoding on an empty table. -/
theorem decoded_table_size (v : whisper_vocab) (words : List Bytes) (total : Int) :
    (addTail v (total - (words.length : Int)).toNat (words.length : Int)
        (insertWords words 0 ∅)).keys.length = (max (words.length : Int) total).toNat := by
  apply keys_length_of_mem_iff
  intro a
  rw [mem_decoded_table]
  have : (((max (words.length : Int) total).toNat : Nat) : Int) = max (words.length : Int) total := by
    apply Int.toNat_of_nonneg
    exact le_trans (Int.natCast_nonneg _) (le_max_left _ _)
  rw [this]

/-- The vocabulary record `loadModel` leaves after a well-formed asset was decoded on an
engine that is not initialised and has an empty table: the ids are shifted in
multilingual mode and the table is the decoded one. -/
theorem loadModel_vocab (assets : Assets) (env : ModelEnv) (isMultilingual : Bool)
    (e : TFLiteEngine) (melBinCount fftSize : Nat) (coefficients : List Nat)
    (words : List Bytes) (hwf : WellFormedAsset melBinCount fftSize coefficients words)
    (hsel : assets.select isMultilingual = encodeAsset melBinCount fftSize coefficients words)
    (hinit : e.g_whisper_tflite.is_whisper_tflite_initialized = false)
    (hempty : e.g_vocab.id_to_token = ∅) :
    ∃ e2 v, (loadModel assets env isMultilingual e).engine? = some e2 ∧
      e2.g_vocab.id_to_token =
        addTail v (totalVocabSize isMultilingual - (words.length : Int)).toNat
          (words.length : Int) (insertWords words 0 ∅) ∧
      e2.g_vocab.token_eot = e.g_vocab.token_eot + (if isMultilingual then 1 else 0) ∧
      e2.g_vocab.token_sot = e.g_vocab.token_sot + (if isMultilingual then 1 else 0) ∧
      e2.g_vocab.token_prev = e.g_vocab.token_prev + (if isMultilingual then 1 else 0) ∧
      e2.g_vocab.token_solm = e.g_vocab.token_solm + (if isMultilingual then 1 else 0) ∧
      e2.g_vocab.token_not = e.g_vocab.token_not + (if isMultilingual then 1 else 0) ∧
      e2.g_vocab.token_beg = e.g_vocab.token_beg + (if isMultilingual then 1 else 0) := by
  obtain ⟨e1, hdec, hload⟩ := loadModel_encode assets env isMultilingual e melBinCount fftSize
    coefficients words hwf hsel hinit
  rw [decodeAsset_encode melBinCount fftSize coefficients words isMultilingual e hwf] at hdec
  obtain ⟨e2, he2, hv, -⟩ := loadModelBuffer_vocab env e1
  rw [← hload] at he2
  have he1 := (Option.some.inj hdec).symm
  subst he1
  rw [hempty] at hv
  cases isMultilingual
  · exact ⟨e2, { e.g_vocab with id_to_token := insertWords words 0 ∅ }, he2,
      by rw [hv]; rfl, by simp [hv], by simp [hv], by simp [hv], by simp [hv], by simp [hv],
      by simp [hv]⟩
  · exact ⟨e2, shiftTokens { e.g_vocab with id_to_token := insertWords words 0 ∅ }, he2,
      by rw [hv]; rfl, by simp [hv, shiftTokens], by simp [hv, shiftTokens],
      by simp [hv, shiftTokens], by simp [hv, shiftTokens], by simp [hv, shiftTokens],
      by simp [hv, shiftTokens]⟩

/-- C3 (amended): for every well-formed asset with at most `totalVocabSize` explicit
strings and either mode flag, `loadModel` on a fresh engine leaves a table with exactly
`totalVocabSize` entries in which every integer of `[0, totalVocabSize)` and each of the
six reserved ids is a key. -/
theorem loadModel_vocab_complete (assets : Assets) (env : ModelEnv) (isMultilingual : Bool)
    (e : TFLiteEngine) (melBinCount fftSize : Nat) (coefficients : List Nat)
    (words : List Bytes) (hwf : WellFormedAsset melBinCount fftSize coefficients words)
    (hsel : assets.select isMultilingual = encodeAsset melBinCount fftSize coefficients words)
    (hinit : e.g_whisper_tflite.is_whisper_tflite_initialized = false)
    (hempty : e.g_vocab.id_to_token = ∅) (hids : ReservedInRange e.g_vocab)
    (hn : (words.length : Int) ≤ totalVocabSize isMultilingual) :
    ∃ e2, (loadModel assets env isMultilingual e).engine? = some e2 ∧
      vocabSize e2.g_vocab = (totalVocabSize isMultilingual).toNat ∧
      (∀ a : Int, 0 ≤ a → a < totalVocabSize isMultilingual → a ∈ e2.g_vocab.id_to_token) ∧
      e2.g_vocab.token_eot ∈ e2.g_vocab.id_to_token ∧
      e2.g_vocab.token_sot ∈ e2.g_vocab.id_to_token ∧
      e2.g_vocab.token_prev ∈ e2.g_vocab.id_to_token ∧
      e2.g_vocab.token_solm ∈ e2.g_vocab.id_to_token ∧
      e2.g_vocab.token_not ∈ e2.g_vocab.id_to_token ∧
      e2.g_vocab.token_beg ∈ e2.g_vocab.id_to_token := by
  obtain ⟨e2, v, he2, htab, h1, h2, h3, h4, h5, h6⟩ := loadModel_vocab assets env
    isMultilingual e melBinCount fftSize coefficients words hwf hsel hinit hempty
  obtain ⟨⟨a1, b1⟩, ⟨a2, b2⟩, ⟨a3, b3⟩, ⟨a4, b4⟩, ⟨a5, b5⟩, ⟨a6, b6⟩⟩ := hids
  have hmax : max (words.length : Int) (totalVocabSize isMultilingual) =
      totalVocabSize isMultilingual := max_eq_right hn
  have hmem : ∀ a : Int, a ∈ e2.g_vocab.id_to_token ↔
      (0 ≤ a ∧ a < totalVocabSize isMultilingual) := by
    intro a
    rw [htab, mem_decoded_table, hmax]
  have htot : totalVocabSize isMultilingual = 51864 + (if isMultilingual then 1 else 0) := by
    cases isMultilingual <;> rfl
  refine ⟨e2, he2, ?_, fun a h0 h1 => (hmem a).2 ⟨h0, h1⟩, ?_, ?_, ?_, ?_, ?_, ?_⟩
  · rw [vocabSize, htab, decoded_table_size, hmax]
  all_goals
    rw [hmem, htot]
    first
      | rw [h1] | rw [h2] | rw [h3] | rw [h4] | rw [h5] | rw [h6]
    split_ifs <;> omega

theorem wellFormed_smallAsset : WellFormedAsset 1 2 [0, 1065353216] [ascii "a", ascii "b"] := by
  refine ⟨by norm_num, by norm_num, by norm_num, rfl, ?_, by simp, ?_⟩
  · intro c hc
    simp only [List.mem_cons, List.mem_singleton, List.not_mem_nil, or_false] at hc
    rcases hc with rfl | rfl <;> norm_num
  · intro w hw
    simp only [List.mem_cons, List.mem_singleton, List.not_mem_nil, or_false] at hw
    rcases hw with rfl | rfl <;> simp [ascii]

theorem reservedInRange_sampleEngine : ReservedInRange sampleEngine.g_vocab := by
  simp [ReservedInRange, sampleEngine]

theorem loadModel_vocab_complete_witness :
    ∃ e2, (loadModel smallAssets
        closedModelEnv true sampleEngine).engine? = some e2 ∧
      vocabSize e2.g_vocab = (totalVocabSize true).toNat ∧
      (∀ a : Int, 0 ≤ a → a < totalVocabSize true → a ∈ e2.g_vocab.id_to_token) ∧
      e2.g_vocab.token_eot ∈ e2.g_vocab.id_to_token ∧
      e2.g_vocab.token_sot ∈ e2.g_vocab.id_to_token ∧
      e2.g_vocab.token_prev ∈ e2.g_vocab.id_to_token ∧
      e2.g_vocab.token_solm ∈ e2.g_vocab.id_to_token ∧
      e2.g_vocab.token_not ∈ e2.g_vocab.id_to_token ∧
      e2.g_vocab.token_beg ∈ e2.g_vocab.id_to_token :=
  loadModel_vocab_complete
    smallAssets
    closedModelEnv true sampleEngine 1 2 [0, 1065353216] [ascii "a", ascii "b"]
    wellFormed_smallAsset rfl rfl rfl reservedInRange_sampleEngine
    (by simp [totalVocabSize])

theorem wellFormed_largeAsset : WellFormedAsset 0 0 [] (List.replicate 51865 []) := by
  refine ⟨by norm_num, by norm_num, by norm_num, rfl, by simp, ?_, ?_⟩
  · rw [List.length_replicate]; norm_num
  intro w hw
  rw [List.eq_of_mem_replicate hw]
  simp

/-- C3 (as stated) fails: a well-formed single-language asset with 51865 explicit strings
leaves a table with 51865 entries, not `totalVocabSize = 51864`. -/
theorem loadModel_vocab_size_exceeds :
    WellFormedAsset 0 0 [] (List.replicate 51865 []) ∧
    ∃ e2, (loadModel largeAssets
        closedModelEnv false sampleEngine).engine? = some e2 ∧
      vocabSize e2.g_vocab = 51865 ∧ vocabSize e2.g_vocab ≠ (totalVocabSize false).toNat := by
  refine ⟨wellFormed_largeAsset, ?_⟩
  obtain ⟨e2, v, he2, htab, -⟩ := loadModel_vocab
    largeAssets
    closedModelEnv false sampleEngine 0 0 [] (List.replicate 51865 [])
    wellFormed_largeAsset rfl rfl rfl
  have hsize : vocabSize e2.g_vocab = 51865 := by
    rw [vocabSize, htab, decoded_table_size, List.length_replicate]
    norm_num [totalVocabSize]
    rfl
  refine ⟨e2, he2, hsize, ?_⟩
  rw [hsize]
  simp [totalVocabSize]

/-- C4: when the first four bytes of the selected asset do not decode to the sentinel
`0x57535052`, `loadModel` on an engine that is not initialised returns `-1` and the
engine (filters, table, reserved ids, initialised flag) is exactly as before. -/
theorem loadModel_bad_magic (assets : Assets) (env : ModelEnv) (isMultilingual : Bool)
    (e : TFLiteEngine) (magic : Int) (rest : Bytes)
    (hinit : e.g_whisper_tflite.is_whisper_tflite_initialized = false)
    (hread : takeInt (assets.select isMultilingual) = some (magic, rest))
    (hmagic : magic ≠ 0x57535052) :
    loadModel assets env isMultilingual e = LoadOutcome.returned (-1) e := by
  unfold Assets.select at hread
  unfold loadModel
  simp only [hinit, Bool.not_false, if_true, hread]
  simp [hmagic]

theorem loadModel_bad_magic_witness :
    loadModel badMagicAssets closedModelEnv false sampleEngine =
      LoadOutcome.returned (-1) sampleEngine :=
  loadModel_bad_magic badMagicAssets closedModelEnv false sampleEngine
    0x58535052 [1, 0, 0, 0] rfl (by decide) (by decide)

/-- What the loop of `transcribeBuffer` computes for a sequence without end-of-text id:
the contributing tokens each append the bytes of their string before its first NUL. -/
theorem decodeLoop_eq_bind (v : whisper_vocab) (tokens : List Int) (text : Bytes)
    (h : v.token_eot ∉ tokens) :
    decodeLoop v tokens text =
      text ++ (tokens.filter (isEmitted v)).flatMap
        fun token => cStr ((v.id_to_token.lookup token).getD []) := by
  induction tokens generalizing text with
  | nil => simp [decodeLoop]
  | cons t ts ih =>
    have ht : t ≠ v.token_eot := fun h' => h (by simp [h'])
    have hts : v.token_eot ∉ ts := fun h' => h (by simp [h'])
    simp only [decodeLoop, if_neg ht]
    by_cases hskip : t = v.token_sot ∨ t = v.token_prev ∨ t = v.token_not ∨
        t = v.token_beg ∨ t = v.token_solm
    · have hem : isEmitted v t = false := by simp [isEmitted, isSkipped, hskip]
      rw [if_pos hskip, ih _ hts, List.filter_cons_of_neg (by simp [hem])]
    · rw [if_neg hskip]
      by_cases hnn : t ≥ 0
      · rw [if_pos hnn]
        cases hl : v.id_to_token.lookup t with
        | none =>
          have hem : isEmitted v t = false := by simp [isEmitted, hl]
          simp only [hl]
          rw [ih _ hts, List.filter_cons_of_neg (by simp [hem])]
        | some word =>
          have hem : isEmitted v t = true := by
            simp [isEmitted, isSkipped, hskip, hl, ge_iff_le.mp hnn]
          simp only []
          rw [List.filter_cons_of_pos hem, List.flatMap_cons, hl]
          simp only [Option.getD_some]
          split
          · rw [ih _ hts, List.append_assoc]
          · rename_i hlen
            have hnil : cStr word = [] := by
              cases hc : cStr word with
              | nil => rfl
              | cons a as => rw [hc] at hlen; simp at hlen
            rw [ih _ hts, hnil, List.nil_append]
      · have hem : isEmitted v t = false := by
          have : ¬ (0 ≤ t) := by omega
          simp [isEmitted, this]
        rw [if_neg hnn, ih _ hts, List.filter_cons_of_neg (by simp [hem])]

/-- C2 (failing input): for the token sequence `[15]`, which holds no end-of-text id, and
a table whose entry 15 is `'a'`, NUL, `'b'`, `transcribeBuffer` decodes the single byte
`'a'`, while the complete string of the only contributing token has three bytes. -/
theorem decodeTokens_cuts_at_nul :
    nulVocab.token_eot ∉ [(15 : Int)] ∧ decodeTokens nulVocab [15] = [97] ∧
    emittedStrings nulVocab [15] = [97, 0, 98] := by
  decide

/-! ## The 30-second window -/

theorem vectorResize_length {α : Type} (v : List α) (n : Nat) (x : α) :
    (vectorResize v n x).length = n := by
  simp only [vectorResize, List.length_append, List.length_take, List.length_replicate]
  omega

theorem vectorResize_get_lt {α : Type} (v : List α) (n : Nat) (x : α) (i : Nat)
    (hi : i < min v.length n) : (vectorResize v n x)[i]? = v[i]? := by
  have h1 : i < v.length := lt_of_lt_of_le hi (min_le_left _ _)
  have h2 : i < n := lt_of_lt_of_le hi (min_le_right _ _)
  rw [vectorResize, List.getElem?_append_left (by simp; omega), List.getElem?_take_of_lt h2]

theorem vectorResize_get_ge {α : Type} (v : List α) (n : Nat) (x : α) (i : Nat)
    (h1 : v.length ≤ i) (h2 : i < n) : (vectorResize v n x)[i]? = some x := by
  have hlen : (v.take n).length = v.length := by simp; omega
  rw [vectorResize, List.getElem?_append_right (by omega), hlen, List.getElem?_replicate]
  simp
  omega

theorem vectorResize_idem {α : Type} (v : List α) (n : Nat) (x : α) (h : v.length = n) :
    vectorResize v n x = v := by
  subst h
  simp [vectorResize]

theorem transcribeBuffer_trace_head (env : InferenceEnv) (e : TFLiteEngine)
    (samples : List F32) :
    (transcribeBuffer env e samples).trace.head? =
      some (Event.logMelSpectrogram
        (vectorResize samples (WHISPER_SAMPLE_RATE * WHISPER_CHUNK_SIZE) F32.zero)) := by
  unfold transcribeBuffer
  dsimp only
  split
  · rfl
  · split
    · rfl
    · split
      · rfl
      · split <;> rfl

/-- C8: for every input buffer of length `L`, the buffer `transcribeBuffer` hands to
feature extraction has length `W = WHISPER_SAMPLE_RATE * WHISPER_CHUNK_SIZE`, agrees with
the input below `min L W` and is zero from `L` up to `W`; the same holds for the buffer
`transcribeFile` passes on when `readWAVFile` returned a non-empty buffer. -/
theorem transcribe_window (env : InferenceEnv) (e : TFLiteEngine) :
    (∀ samples : List F32, ∃ buf,
      (transcribeBuffer env e samples).trace.head? = some (Event.logMelSpectrogram buf) ∧
      buf.length = WHISPER_SAMPLE_RATE * WHISPER_CHUNK_SIZE ∧
      (∀ i, i < min samples.length (WHISPER_SAMPLE_RATE * WHISPER_CHUNK_SIZE) →
        buf[i]? = samples[i]?) ∧
      (∀ i, samples.length ≤ i → i < WHISPER_SAMPLE_RATE * WHISPER_CHUNK_SIZE →
        buf[i]? = some F32.zero)) ∧
    (∀ (u : Uninit) (file : Option Bytes) (pcmf32 : List F32),
      readWAVFile u file = Except.ok pcmf32 → pcmf32 ≠ [] → ∃ r buf,
        transcribeFile env e u file = some r ∧
        r.trace.head? = some (Event.logMelSpectrogram buf) ∧
        buf.length = WHISPER_SAMPLE_RATE * WHISPER_CHUNK_SIZE ∧
        (∀ i, i < min pcmf32.length (WHISPER_SAMPLE_RATE * WHISPER_CHUNK_SIZE) →
          buf[i]? = pcmf32[i]?) ∧
        (∀ i, pcmf32.length ≤ i → i < WHISPER_SAMPLE_RATE * WHISPER_CHUNK_SIZE →
          buf[i]? = some F32.zero)) := by
  have hbuf : ∀ samples : List F32, ∃ buf,
      (transcribeBuffer env e samples).trace.head? = some (Event.logMelSpectrogram buf) ∧
      buf.length = WHISPER_SAMPLE_RATE * WHISPER_CHUNK_SIZE ∧
      (∀ i, i < min samples.length (WHISPER_SAMPLE_RATE * WHISPER_CHUNK_SIZE) →
        buf[i]? = samples[i]?) ∧
      (∀ i, samples.length ≤ i → i < WHISPER_SAMPLE_RATE * WHISPER_CHUNK_SIZE →
        buf[i]? = some F32.zero) := fun samples =>
    ⟨_, transcribeBuffer_trace_head env e samples, vectorResize_length _ _ _,
      fun i hi => vectorResize_get_lt _ _ _ i hi,
      fun i h1 h2 => vectorResize_get_ge _ _ _ i h1 h2⟩
  refine ⟨hbuf, ?_⟩
  intro u file pcmf32 hread hne
  have hemp : pcmf32.isEmpty = false := by
    cases pcmf32 with
    | nil => exact absurd rfl hne
    | cons a as => rfl
  unfold transcribeFile
  simp only [hread, hemp, Bool.false_eq_true, if_false]
  refine ⟨_, _, rfl, transcribeBuffer_trace_head env e _, vectorResize_length _ _ _, ?_, ?_⟩
  · intro i hi
    split_ifs with h1 h2
    · rw [vectorResize_idem _ _ _ (vectorResize_length _ _ _)]
      exact vectorResize_get_lt _ _ _ i hi
    · rw [vectorResize_idem _ _ _ (vectorResize_length _ _ _)]
      exact vectorResize_get_lt _ _ _ i hi
    · exact vectorResize_get_lt _ _ _ i hi
  · intro i hi1 hi2
    split_ifs with h1 h2
    · rw [vectorResize_idem _ _ _ (vectorResize_length _ _ _)]
      exact vectorResize_get_ge _ _ _ i hi1 hi2
    · rw [vectorResize_idem _ _ _ (vectorResize_length _ _ _)]
      exact vectorResize_get_ge _ _ _ i hi1 hi2
    · exact vectorResize_get_ge _ _ _ i hi1 hi2

set_option maxRecDepth 100000 in
theorem readWAVFile_monoWav :
    readWAVFile zeroUninit (some monoWav) =
      Except.ok [F32.fin (2 ^ 148), F32.fin (-(2 ^ 148))] := by
  decide

theorem transcribe_window_witness :
    ∃ r buf, transcribeFile sampleInferenceEnv sampleEngine zeroUninit (some monoWav) = some r ∧
      r.trace.head? = some (Event.logMelSpectrogram buf) ∧
      buf.length = WHISPER_SAMPLE_RATE * WHISPER_CHUNK_SIZE ∧
      (∀ i, i < min [F32.fin (2 ^ 148), F32.fin (-(2 ^ 148))].length
          (WHISPER_SAMPLE_RATE * WHISPER_CHUNK_SIZE) →
        buf[i]? = [F32.fin (2 ^ 148), F32.fin (-(2 ^ 148))][i]?) ∧
      (∀ i, [F32.fin (2 ^ 148), F32.fin (-(2 ^ 148))].length ≤ i →
        i < WHISPER_SAMPLE_RATE * WHISPER_CHUNK_SIZE → buf[i]? = some F32.zero) :=
  (transcribe_window sampleInferenceEnv sampleEngine).2 zeroUninit (some monoWav)
    [F32.fin (2 ^ 148), F32.fin (-(2 ^ 148))] readWAVFile_monoWav (by simp)

/-- C9 (failing input): on an engine that is not initialised, `transcribeBuffer` calls
feature extraction, stores its result in the engine and then writes through the null
input-tensor pointer. -/
theorem transcribeBuffer_uninitialised :
    sampleEngine.g_whisper_tflite.is_whisper_tflite_initialized = false ∧
    (transcribeBuffer sampleInferenceEnv sampleEngine []).outcome = TranscribeOutcome.undefined ∧
    (transcribeBuffer sampleInferenceEnv sampleEngine []).trace =
      [Event.logMelSpectrogram
        (vectorResize [] (WHISPER_SAMPLE_RATE * WHISPER_CHUNK_SIZE) F32.zero)] ∧
    (transcribeBuffer sampleInferenceEnv sampleEngine []).engine.mel ≠ sampleEngine.mel :=
  ⟨rfl, rfl, rfl, by decide⟩

/-! ## Single-precision arithmetic -/

theorem halvings_le (fuel q s : Nat) (h : q < 2 ^ (24 + s)) : halvings fuel q ≤ s := by
  induction fuel generalizing q s with
  | zero => simp [halvings]
  | succ fuel ih =>
    unfold halvings
    split
    · exact Nat.zero_le s
    · rename_i hq
      cases s with
      | zero => exact absurd h hq
      | succ s =>
        have hhalf : q / 2 < 2 ^ (24 + s) := by
          rw [Nat.div_lt_iff_lt_mul (by norm_num)]
          calc q < 2 ^ (24 + (s + 1)) := h
            _ = 2 ^ (24 + s) * 2 := by rw [← Nat.add_assoc, Nat.pow_succ]
        exact Nat.succ_le_succ (ih (q / 2) s hhalf)

theorem quantum_pos (q : Nat) : 0 < quantum q := Nat.pos_pow_of_pos _ (by norm_num)

/-- The float grid contains every `m * 2 ^ s` units with `m ≤ 2 ^ 24`. -/
theorem quantum_dvd (m s : Nat) (hm : m ≤ 2 ^ 24) : quantum (m * 2 ^ s) ∣ m * 2 ^ s := by
  rcases Nat.lt_or_ge m (2 ^ 24) with hlt | hge
  · have hle : halvings (m * 2 ^ s) (m * 2 ^ s) ≤ s := by
      apply halvings_le
      rw [Nat.pow_add]
      exact Nat.mul_lt_mul_of_lt_of_le hlt (Nat.le_refl _) (Nat.pos_pow_of_pos _ (by norm_num))
    exact Dvd.dvd.mul_left (Nat.pow_dvd_pow 2 hle) m
  · have hm' : m = 2 ^ 24 := Nat.le_antisymm hm hge
    subst hm'
    have hle : halvings (2 ^ 24 * 2 ^ s) (2 ^ 24 * 2 ^ s) ≤ s + 24 := by
      apply halvings_le
      rw [← Nat.pow_add]
      apply Nat.pow_lt_pow_right (by norm_num)
      omega
    rw [← Nat.pow_add, Nat.add_comm 24 s] at hle ⊢
    exact Nat.pow_dvd_pow 2 hle

/-- A value on the float grid and below `2 ^ 128` is not changed by rounding. -/
theorem roundF32_exact (k : Int) (d : Nat) (hd : 0 < d)
    (hq : quantum k.natAbs ∣ k.natAbs) (hlt : k.natAbs < 2 ^ 128 * 2 ^ 149) :
    roundF32 (k * d) d = F32.fin k := by
  have ha : (k * (d : Int)).natAbs = k.natAbs * d := by
    rw [Int.natAbs_mul, Int.natAbs_ofNat]
  have hdiv : k.natAbs * d / d = k.natAbs := Nat.mul_div_cancel _ hd
  obtain ⟨c, hc⟩ := hq
  have hQ := quantum_pos k.natAbs
  have hD : 0 < d * quantum k.natAbs := Nat.mul_pos hd hQ
  have hmul : k.natAbs * d = c * (d * quantum k.natAbs) := by
    conv_lhs => rw [hc]
    ring
  have hm : k.natAbs * d / (d * quantum k.natAbs) = c := by
    rw [hmul, Nat.mul_div_cancel _ hD]
  have hr : k.natAbs * d % (d * quantum k.natAbs) = 0 := by
    rw [hmul, Nat.mul_mod_left]
  have hu : c * quantum k.natAbs = k.natAbs := by
    conv_rhs => rw [hc]
    ring
  unfold roundF32
  simp only [ha, hdiv, hm, hr, Nat.mul_zero, hD, if_true, hu, hlt]
  congr 1
  by_cases hk : k < 0
  · have : k * (d : Int) < 0 := Int.mul_neg_of_neg_of_pos hk (by exact_mod_cast hd)
    rw [if_pos this]
    omega
  · have : ¬ (k * (d : Int) < 0) := by
      have h0 : 0 ≤ k := by omega
      have := Int.mul_nonneg h0 (Int.natCast_nonneg d)
      omega
    rw [if_neg this]
    omega

theorem natAbs_mul_two_pow (i : Int) (s : Nat) : (i * 2 ^ s).natAbs = i.natAbs * 2 ^ s := by
  rw [Int.natAbs_mul, Int.natAbs_pow]
  rfl

/-- A value `m * 2 ^ s` units with `|m| ≤ 2 ^ 24`, below `2 ^ 128`, is not changed by rounding. -/
theorem roundF32_dyadic (m : Int) (s d : Nat) (hd : 0 < d) (hm : m.natAbs ≤ 2 ^ 24)
    (hs : s ≤ 252) : roundF32 (m * 2 ^ s * d) d = F32.fin (m * 2 ^ s) := by
  apply roundF32_exact _ _ hd
  · rw [natAbs_mul_two_pow]
    exact quantum_dvd _ _ hm
  · rw [natAbs_mul_two_pow]
    calc m.natAbs * 2 ^ s ≤ 2 ^ 24 * 2 ^ s := Nat.mul_le_mul_right _ hm
      _ = 2 ^ (24 + s) := (Nat.pow_add 2 24 s).symm
      _ < 2 ^ (128 + 149) := Nat.pow_lt_pow_right (by norm_num) (by omega)
      _ = 2 ^ 128 * 2 ^ 149 := Nat.pow_add 2 128 149

/-- An integer of magnitude at most `2 ^ 24` converts to `float` without rounding. -/
theorem ofInt_exact (i : Int) (hi : i.natAbs ≤ 2 ^ 24) : F32.ofInt i = F32.fin (i * 2 ^ 149) := by
  have h := roundF32_dyadic i 149 1 (by norm_num) hi (by norm_num)
  rw [Nat.cast_one, mul_one] at h
  exact h

theorem ofNat_exact (n : Nat) (hn : n ≤ 2 ^ 24) :
    F32.ofInt (n : Int) = F32.fin ((n : Int) * 2 ^ 149) :=
  ofInt_exact n (by rw [Int.natAbs_ofNat]; exact hn)

theorem roundF32_zero (d : Nat) (hd : 0 < d) : roundF32 0 d = F32.fin 0 := by
  have h := roundF32_dyadic 0 0 d hd (by simp) (by norm_num)
  simpa using h

theorem add_dyadic (x y m : Int) (s : Nat) (h : x + y = m * 2 ^ s) (hm : m.natAbs ≤ 2 ^ 24)
    (hs : s ≤ 252) : F32.add (F32.fin x) (F32.fin y) = F32.fin (m * 2 ^ s) := by
  have hr := roundF32_dyadic m s 1 (by norm_num) hm hs
  rw [Nat.cast_one, mul_one] at hr
  show roundF32 (x + y) 1 = _
  rw [h]
  exact hr


/-! ## Rounding error -/

theorem halvings_small (fuel q : Nat) (h : q < 2 ^ 24) : halvings fuel q = 0 :=
  Nat.le_zero.mp (halvings_le fuel q 0 h)

theorem halvings_spec (fuel q : Nat) (h : q < 2 ^ (24 + fuel)) :
    q / 2 ^ halvings fuel q < 2 ^ 24 ∧ (2 ^ 24 ≤ q → 2 ^ 23 ≤ q / 2 ^ halvings fuel q) := by
  induction fuel generalizing q with
  | zero =>
    have hq : q < 2 ^ 24 := h
    simp only [halvings, pow_zero, Nat.div_one]
    exact ⟨hq, fun h24 => absurd hq (by omega)⟩
  | succ fuel ih =>
    by_cases hq : q < 2 ^ 24
    · rw [halvings_small _ _ hq, pow_zero, Nat.div_one]
      exact ⟨hq, fun h24 => absurd hq (by omega)⟩
    · have hhalf : q / 2 < 2 ^ (24 + fuel) := by
        rw [Nat.div_lt_iff_lt_mul (by norm_num)]
        calc q < 2 ^ (24 + (fuel + 1)) := h
          _ = 2 ^ (24 + fuel) * 2 := by rw [← Nat.add_assoc, Nat.pow_succ]
      obtain ⟨h1, h2⟩ := ih (q / 2) hhalf
      have hstep : halvings (fuel + 1) q = halvings fuel (q / 2) + 1 := by
        rw [halvings, if_neg hq]
      have hdiv : q / 2 ^ (halvings fuel (q / 2) + 1) = q / 2 / 2 ^ halvings fuel (q / 2) := by
        rw [Nat.pow_succ, Nat.mul_comm, Nat.div_div_eq_div_mul]
      rw [hstep, hdiv]
      refine ⟨h1, fun _ => ?_⟩
      by_cases hq2 : 2 ^ 24 ≤ q / 2
      · exact h2 hq2
      · have hsmall : q / 2 < 2 ^ 24 := by omega
        rw [halvings_small _ _ hsmall, pow_zero, Nat.div_one]
        omega

/-- The spacing around `q` units: `q` has at most 24 significant bits in it, and exactly
24 when `q` is at least `2 ^ 24` units. -/
theorem quantum_spec (q : Nat) :
    q / quantum q < 2 ^ 24 ∧ (2 ^ 24 ≤ q → 2 ^ 23 * quantum q ≤ q) := by
  have hfuel : q < 2 ^ (24 + q) :=
    lt_of_lt_of_le (Nat.lt_two_pow q) (Nat.pow_le_pow_right (by norm_num) (by omega))
  obtain ⟨h1, h2⟩ := halvings_spec q q hfuel
  refine ⟨h1, fun h24 => ?_⟩
  have := h2 h24
  exact (Nat.le_div_iff_mul_le (quantum_pos q)).mp this

/-- Rounding `n / d` units, a non-negative value below `2 ^ 101`: the result is finite,
`m * 2 ^ e` units with `m ≤ 2 ^ 24`, and within half a spacing of the exact value. -/
theorem roundF32_near (n d : Nat) (hd : 0 < d) (hlt : n / d < 2 ^ 250) :
    ∃ m e : Nat, roundF32 (n : Int) d = F32.fin ((m * 2 ^ e : Nat) : Int) ∧ m ≤ 2 ^ 24 ∧
      e ≤ 227 ∧ 2 ^ e = quantum (n / d) ∧
      2 * (m * 2 ^ e * d) ≤ 2 * n + d * 2 ^ e ∧ 2 * n ≤ 2 * (m * 2 ^ e * d) + d * 2 ^ e := by
  obtain ⟨hq1, hq2⟩ := quantum_spec (n / d)
  have hQ := quantum_pos (n / d)
  have hD : 0 < d * quantum (n / d) := Nat.mul_pos hd hQ
  have hm : n / (d * quantum (n / d)) < 2 ^ 24 := by
    rw [← Nat.div_div_eq_div_mul]
    exact hq1
  have hsplit := Nat.div_add_mod n (d * quantum (n / d))
  have hrem := Nat.mod_lt n hD
  have hQlt : quantum (n / d) ≤ 2 ^ 227 := by
    by_cases h24 : 2 ^ 24 ≤ n / d
    · have h0 := hq2 h24
      by_contra hcon
      have h1 : 2 ^ 227 < quantum (n / d) := Nat.lt_of_not_le hcon
      have h2 : 2 ^ 23 * 2 ^ 227 < 2 ^ 23 * quantum (n / d) :=
        Nat.mul_lt_mul_of_le_of_lt (le_refl _) h1 (by norm_num)
      have h3 : (2 : Nat) ^ 23 * 2 ^ 227 = 2 ^ 250 := by rw [← Nat.pow_add]
      rw [h3] at h2
      exact absurd (lt_of_lt_of_le h2 h0) (Nat.not_lt.mpr (Nat.le_of_lt hlt))
    · have hsmall : n / d < 2 ^ 24 := Nat.lt_of_not_le h24
      have : quantum (n / d) = 1 := by
        unfold quantum
        rw [halvings_small _ _ hsmall, pow_zero]
      rw [this]
      exact Nat.one_le_two_pow
  have hfin : ∀ m' : Nat, m' ≤ 2 ^ 24 → m' * quantum (n / d) < 2 ^ 128 * 2 ^ 149 := by
    intro m' hm'
    calc m' * quantum (n / d) ≤ 2 ^ 24 * 2 ^ 227 := Nat.mul_le_mul hm' hQlt
      _ = 2 ^ 251 := by rw [← Nat.pow_add]
      _ < 2 ^ (128 + 149) := Nat.pow_lt_pow_right (by norm_num) (by norm_num)
      _ = 2 ^ 128 * 2 ^ 149 := Nat.pow_add 2 128 149
  have hnn : ¬ ((n : Int) < 0) := by omega
  have hcase : ∀ m' : Nat,
      (m' = n / (d * quantum (n / d)) ∧
        2 * (n % (d * quantum (n / d))) ≤ d * quantum (n / d)) ∨
      (m' = n / (d * quantum (n / d)) + 1 ∧
        d * quantum (n / d) ≤ 2 * (n % (d * quantum (n / d)))) →
      m' ≤ 2 ^ 24 ∧ 2 * (m' * quantum (n / d) * d) ≤ 2 * n + d * quantum (n / d) ∧
        2 * n ≤ 2 * (m' * quantum (n / d) * d) + d * quantum (n / d) := by
    intro m' h
    have hmul : m' * quantum (n / d) * d = (d * quantum (n / d)) * m' := by ring
    rw [hmul]
    rcases h with ⟨rfl, h⟩ | ⟨rfl, h⟩
    · refine ⟨by omega, by omega, by omega⟩
    · rw [Nat.mul_add, Nat.mul_one]
      refine ⟨by omega, by omega, by omega⟩
  have hround : ∀ m' : Nat, m' ≤ 2 ^ 24 →
      (if m' * quantum (n / d) < 2 ^ 128 * 2 ^ 149 then
          F32.fin (if (n : Int) < 0 then -((m' * quantum (n / d) : Nat) : Int)
            else ((m' * quantum (n / d) : Nat) : Int))
        else F32.inf (decide ((n : Int) < 0))) = F32.fin ((m' * quantum (n / d) : Nat) : Int) := by
    intro m' hm'
    rw [if_pos (hfin m' hm'), if_neg hnn]
  obtain ⟨e, he⟩ : ∃ e, 2 ^ e = quantum (n / d) := ⟨_, rfl⟩
  have he227 : e ≤ 227 := by
    rw [← he] at hQlt
    exact (Nat.pow_le_pow_iff_right (by norm_num)).mp hQlt
  unfold roundF32
  simp only [Int.natAbs_ofNat]
  by_cases h1 : 2 * (n % (d * quantum (n / d))) < d * quantum (n / d)
  · obtain ⟨hm24, hup, hlo⟩ := hcase (n / (d * quantum (n / d))) (Or.inl ⟨rfl, by omega⟩)
    refine ⟨n / (d * quantum (n / d)), e, ?_, hm24, he227, he, ?_, ?_⟩
    · rw [if_pos h1, he]
      exact hround _ hm24
    · rw [he]; exact hup
    · rw [he]; exact hlo
  · by_cases h2 : d * quantum (n / d) < 2 * (n % (d * quantum (n / d)))
    · obtain ⟨hm24, hup, hlo⟩ := hcase (n / (d * quantum (n / d)) + 1) (Or.inr ⟨rfl, by omega⟩)
      refine ⟨n / (d * quantum (n / d)) + 1, e, ?_, hm24, he227, he, ?_, ?_⟩
      · rw [if_neg h1, if_pos h2, he]
        exact hround _ hm24
      · rw [he]; exact hup
      · rw [he]; exact hlo
    · by_cases h3 : n / (d * quantum (n / d)) % 2 = 0
      · obtain ⟨hm24, hup, hlo⟩ := hcase (n / (d * quantum (n / d))) (Or.inl ⟨rfl, by omega⟩)
        refine ⟨n / (d * quantum (n / d)), e, ?_, hm24, he227, he, ?_, ?_⟩
        · rw [if_neg h1, if_neg h2, if_pos h3, he]
          exact hround _ hm24
        · rw [he]; exact hup
        · rw [he]; exact hlo
      · obtain ⟨hm24, hup, hlo⟩ :=
          hcase (n / (d * quantum (n / d)) + 1) (Or.inr ⟨rfl, by omega⟩)
        refine ⟨n / (d * quantum (n / d)) + 1, e, ?_, hm24, he227, he, ?_, ?_⟩
        · rw [if_neg h1, if_neg h2, if_neg h3, he]
          exact hround _ hm24
        · rw [he]; exact hup
        · rw [he]; exact hlo

/-- Rounding a value of at least `2 ^ 24` units: the relative error is at most `2 ^ (-24)`. -/
theorem roundF32_rel (n d : Nat) (hd : 0 < d) (hlt : n / d < 2 ^ 250) (hnorm : 2 ^ 24 * d ≤ n) :
    ∃ m e : Nat, roundF32 (n : Int) d = F32.fin ((m * 2 ^ e : Nat) : Int) ∧ m ≤ 2 ^ 24 ∧
      e ≤ 227 ∧ 2 ^ e = quantum (n / d) ∧
      2 ^ 24 * (m * 2 ^ e * d) ≤ (2 ^ 24 + 1) * n ∧ (2 ^ 24 - 1) * n ≤ 2 ^ 24 * (m * 2 ^ e * d) := by
  obtain ⟨m, e, hround, hm, he227, he, hup, hlo⟩ := roundF32_near n d hd hlt
  have h24 : 2 ^ 24 ≤ n / d := (Nat.le_div_iff_mul_le hd).mpr hnorm
  have hq := (quantum_spec (n / d)).2 h24
  rw [← he] at hq
  have hdq : d * (2 ^ 23 * 2 ^ e) ≤ n :=
    le_trans (Nat.mul_le_mul_left d hq) (Nat.mul_div_le n d)
  have hdq' : 2 ^ 23 * (d * 2 ^ e) ≤ n := by
    have : d * (2 ^ 23 * 2 ^ e) = 2 ^ 23 * (d * 2 ^ e) := by ring
    omega
  exact ⟨m, e, hround, hm, he227, he, by omega, by omega⟩

/-- The conversion of a `uint32_t` or `size_t` value below `2 ^ 64` to `float`. -/
theorem ofInt_rel (k : Nat) (hk : k < 2 ^ 64) :
    ∃ m e : Nat, F32.ofInt (k : Int) = F32.fin ((m * 2 ^ e : Nat) : Int) ∧ m ≤ 2 ^ 24 ∧
      e ≤ 227 ∧ 2 ^ 24 * (m * 2 ^ e) ≤ (2 ^ 24 + 1) * (k * 2 ^ 149) ∧
      (2 ^ 24 - 1) * (k * 2 ^ 149) ≤ 2 ^ 24 * (m * 2 ^ e) := by
  have hcast : (k : Int) * 2 ^ 149 = ((k * 2 ^ 149 : Nat) : Int) := by push_cast; rfl
  rcases Nat.eq_zero_or_pos k with rfl | hpos
  · refine ⟨0, 0, ?_, by norm_num, by norm_num, by norm_num, by norm_num⟩
    rw [ofInt_exact _ (by norm_num)]
    norm_num
  · have hlt : k * 2 ^ 149 / 1 < 2 ^ 250 := by
      rw [Nat.div_one]
      calc k * 2 ^ 149 < 2 ^ 64 * 2 ^ 149 := Nat.mul_lt_mul_of_pos_right hk (by norm_num)
        _ = 2 ^ 213 := by rw [← Nat.pow_add]
        _ < 2 ^ 250 := Nat.pow_lt_pow_right (by norm_num) (by norm_num)
    have hnorm : 2 ^ 24 * 1 ≤ k * 2 ^ 149 := by
      calc 2 ^ 24 * 1 ≤ 1 * 2 ^ 149 := by norm_num
        _ ≤ k * 2 ^ 149 := Nat.mul_le_mul_right _ hpos
    obtain ⟨m, e, hround, hm, he, -, hup, hlo⟩ :=
      roundF32_rel (k * 2 ^ 149) 1 (by norm_num) hlt hnorm
    rw [Nat.mul_one] at hup hlo
    refine ⟨m, e, ?_, hm, he, hup, hlo⟩
    unfold F32.ofInt
    rw [hcast]
    exact hround

/-- The quotient of two positive finite floats as a rounded exact quotient. -/
theorem div_fin_pos (x y : Nat) (hy : 0 < y) :
    F32.div (F32.fin (x : Int)) (F32.fin (y : Int)) = roundF32 ((x * 2 ^ 149 : Nat) : Int) y := by
  have hne : ¬ ((y : Int) = 0) := by omega
  have hsign : (y : Int).sign = 1 := Int.sign_eq_one_of_pos (by omega)
  unfold F32.div
  simp only [hne, if_false, hsign, Int.natAbs_ofNat, mul_one]
  push_cast
  rfl

/-- The product of two non-negative finite floats as a rounded exact product. -/
theorem mul_fin_nat (x y : Nat) :
    F32.mul (F32.fin (x : Int)) (F32.fin (y : Int)) = roundF32 ((x * y : Nat) : Int) (2 ^ 149) := by
  unfold F32.mul
  push_cast
  rfl

/-- The float `ratio` of line 157 for a header rate `r`: within two roundings of
`r / 16000`. -/
theorem ratio_rel (r : Nat) (hr : 0 < r) (hr32 : r < 2 ^ 32) :
    ∃ ρ : Nat, F32.div (F32.ofInt (r : Int)) (F32.ofInt 16000) = F32.fin (ρ : Int) ∧
      2 ^ 48 * (16000 * ρ) ≤ (2 ^ 24 + 1) * ((2 ^ 24 + 1) * (r * 2 ^ 149)) ∧
      (2 ^ 24 - 1) * ((2 ^ 24 - 1) * (r * 2 ^ 149)) ≤ 2 ^ 48 * (16000 * ρ) := by
  obtain ⟨m, e, hR, -, -, hRup, hRlo⟩ := ofInt_rel r (lt_trans hr32 (by norm_num))
  have h16 : F32.ofInt 16000 = F32.fin ((16000 * 2 ^ 149 : Nat) : Int) := by
    rw [ofInt_exact 16000 (by norm_num)]
    norm_num
  have hRpos : 2 ^ 148 ≤ m * 2 ^ e := by omega
  have hRlt : m * 2 ^ e < 2 ^ 182 := by omega
  have hlt : m * 2 ^ e * 2 ^ 149 / (16000 * 2 ^ 149) < 2 ^ 250 := by
    rw [Nat.div_lt_iff_lt_mul (by norm_num)]
    omega
  have hnorm : 2 ^ 24 * (16000 * 2 ^ 149) ≤ m * 2 ^ e * 2 ^ 149 := by omega
  obtain ⟨m', e', hround, -, -, -, hup, hlo⟩ :=
    roundF32_rel (m * 2 ^ e * 2 ^ 149) (16000 * 2 ^ 149) (by norm_num) hlt hnorm
  refine ⟨m' * 2 ^ e', ?_, by omega, by omega⟩
  rw [hR, h16, div_fin_pos _ _ (by norm_num)]
  exact hround

/-- The float quotient `size / ratio` of line 158 for `L ≥ 1` samples: within two roundings
of `L / ratio`. -/
theorem quotient_rel (L ρ : Nat) (hL : 0 < L) (hL64 : L < 2 ^ 53) (hρ : 2 ^ 130 ≤ ρ)
    (hρ' : ρ < 2 ^ 170) :
    ∃ Q : Nat, F32.div (F32.ofInt (L : Int)) (F32.fin (ρ : Int)) = F32.fin (Q : Int) ∧
      2 ^ 48 * (Q * ρ) ≤ (2 ^ 24 + 1) * ((2 ^ 24 + 1) * (L * 2 ^ 298)) ∧
      (2 ^ 24 - 1) * ((2 ^ 24 - 1) * (L * 2 ^ 298)) ≤ 2 ^ 48 * (Q * ρ) := by
  obtain ⟨m, e, hLu, -, -, hup, hlo⟩ := ofInt_rel L (lt_trans hL64 (by norm_num))
  have hlt : m * 2 ^ e * 2 ^ 149 / ρ < 2 ^ 250 := by
    rw [Nat.div_lt_iff_lt_mul (by omega)]
    omega
  have hnorm : 2 ^ 24 * ρ ≤ m * 2 ^ e * 2 ^ 149 := by omega
  obtain ⟨m', e', hround, -, -, -, hQup, hQlo⟩ :=
    roundF32_rel (m * 2 ^ e * 2 ^ 149) ρ (by omega) hlt hnorm
  refine ⟨m' * 2 ^ e', ?_, by omega, by omega⟩
  rw [hLu, div_fin_pos _ _ (by omega)]
  exact hround

/-- The float product `i * ratio` of line 162 for an index up to `2 ^ 24`: within one
rounding of the exact product. -/
theorem product_rel (i ρ : Nat) (hi : i ≤ 2 ^ 24) (hρ : 2 ^ 130 ≤ ρ) (hρ' : ρ < 2 ^ 170) :
    ∃ m e : Nat, F32.mul (F32.ofInt (i : Int)) (F32.fin (ρ : Int)) =
        F32.fin ((m * 2 ^ e : Nat) : Int) ∧ m ≤ 2 ^ 24 ∧ e ≤ 227 ∧
      2 ^ 24 * (m * 2 ^ e) ≤ (2 ^ 24 + 1) * (i * ρ) ∧
      (2 ^ 24 - 1) * (i * ρ) ≤ 2 ^ 24 * (m * 2 ^ e) := by
  have hcast : F32.ofInt (i : Int) = F32.fin ((i * 2 ^ 149 : Nat) : Int) := by
    rw [ofNat_exact i hi]
    push_cast
    rfl
  rw [hcast, mul_fin_nat]
  rcases Nat.eq_zero_or_pos i with rfl | hpos
  · refine ⟨0, 0, ?_, by norm_num, by norm_num, by norm_num, by norm_num⟩
    rw [Nat.zero_mul, Nat.zero_mul, Nat.zero_mul]
    exact roundF32_zero _ (by norm_num)
  · have hn : i * 2 ^ 149 * ρ = i * ρ * 2 ^ 149 := by ring
    have h1 : i * ρ ≤ 2 ^ 24 * ρ := Nat.mul_le_mul_right ρ hi
    have h2 : ρ ≤ i * ρ := Nat.le_mul_of_pos_left ρ hpos
    have hlt : i * ρ * 2 ^ 149 / 2 ^ 149 < 2 ^ 250 := by
      rw [Nat.mul_div_cancel _ (by norm_num)]
      omega
    have hnorm : 2 ^ 24 * 2 ^ 149 ≤ i * ρ * 2 ^ 149 := by omega
    obtain ⟨m, e, hround, hm, he, -, hup, hlo⟩ :=
      roundF32_rel (i * ρ * 2 ^ 149) (2 ^ 149) (by norm_num) hlt hnorm
    refine ⟨m, e, ?_, hm, he, by omega, by omega⟩
    rw [hn]
    exact hround

theorem mul_le_mul_atoms (k a b c d : Nat) (h : c * a ≤ d * b) : c * (k * a) ≤ d * (k * b) := by
  calc c * (k * a) = k * (c * a) := by ring
    _ ≤ k * (d * b) := Nat.mul_le_mul_left k h
    _ = d * (k * b) := by ring

theorem toUInt32_fin_nat (x : Nat) (h : x / 2 ^ 149 < 2 ^ 32) :
    F32.toUInt32 (F32.fin (x : Int)) = some (x / 2 ^ 149) := by
  have hnn : ¬ ((x : Int) < 0) := by omega
  unfold F32.toUInt32
  simp only [hnn, if_false, Int.natAbs_ofNat, h, if_true]

/-- Lines 157-163 for a header rate `0 < r < 2 ^ 32` and `L` samples with
`L / (r / 16000) ≤ 2 ^ 21`: `new_size` is within one of the exact quotient, and for every
index below it the product `i * ratio` is a finite float below `L`. -/
theorem resample_core (L r : Nat) (hr : 0 < r) (hr32 : r < 2 ^ 32)
    (hq : L * 16000 ≤ r * 2 ^ 21) :
    ∃ ρ n : Nat, F32.div (F32.ofInt (r : Int)) (F32.ofInt 16000) = F32.fin (ρ : Int) ∧
      resampleSize L r = some n ∧ n * r ≤ L * 16000 + r ∧ L * 16000 < (n + 2) * r ∧
      n ≤ 2 ^ 21 + 1 ∧
      ∀ i, i < n → ∃ m e : Nat,
        F32.mul (F32.ofInt (i : Int)) (F32.fin (ρ : Int)) = F32.fin ((m * 2 ^ e : Nat) : Int) ∧
        m ≤ 2 ^ 24 ∧ e ≤ 227 ∧ m * 2 ^ e < L * 2 ^ 149 ∧
        2 ^ 22 * (16000 * (m * 2 ^ e)) ≤ (2 ^ 22 + 1) * (i * r * 2 ^ 149) ∧
        (2 ^ 22 - 1) * (i * r * 2 ^ 149) ≤ 2 ^ 22 * (16000 * (m * 2 ^ e)) := by
  obtain ⟨ρ, hratio, hρup, hρlo⟩ := ratio_rel r hr hr32
  have hρ130 : 2 ^ 130 ≤ ρ := by omega
  have hρ170 : ρ < 2 ^ 170 := by omega
  have hlo : (2 ^ 24 - 1) * ((2 ^ 24 - 1) * 2 ^ 149) * r ≤ 2 ^ 48 * 16000 * ρ := by omega
  have hup : 2 ^ 48 * 16000 * ρ ≤ (2 ^ 24 + 1) * ((2 ^ 24 + 1) * 2 ^ 149) * r := by omega
  refine ⟨ρ, ?_⟩
  rcases Nat.eq_zero_or_pos L with rfl | hL
  · refine ⟨0, hratio, ?_, by omega, by omega, by norm_num, fun i hi => absurd hi (by omega)⟩
    unfold resampleSize
    rw [hratio, show ((0 : Nat) : Int) = 0 from rfl, ofInt_exact 0 (by norm_num)]
    have h0 : F32.div (F32.fin (0 * 2 ^ 149)) (F32.fin (ρ : Int)) = F32.fin 0 := by
      have := div_fin_pos 0 ρ (by omega)
      rw [Nat.zero_mul] at this
      rw [zero_mul]
      exact this.trans (roundF32_zero ρ (by omega))
    rw [h0]
    rfl
  · obtain ⟨Q, hQ, hQup, hQlo⟩ := quotient_rel L ρ hL (by omega) hρ130 hρ170
    have hQr1 := mul_le_mul_atoms Q r ρ _ _ hlo
    have hQr2 := mul_le_mul_atoms Q ρ r _ _ hup
    obtain ⟨n, hn⟩ : ∃ n, n = Q / 2 ^ 149 := ⟨_, rfl⟩
    have hn1 : n * 2 ^ 149 ≤ Q := by omega
    have hn2 : Q < (n + 1) * 2 ^ 149 := by omega
    have hnr1 : 2 ^ 149 * (n * r) ≤ Q * r := by
      calc 2 ^ 149 * (n * r) = n * 2 ^ 149 * r := by ring
        _ ≤ Q * r := Nat.mul_le_mul_right r hn1
    have hnr2 : Q * r < 2 ^ 149 * (n * r) + 2 ^ 149 * r := by
      calc Q * r < (n + 1) * 2 ^ 149 * r := Nat.mul_lt_mul_of_pos_right hn2 hr
        _ = 2 ^ 149 * (n * r) + 2 ^ 149 * r := by ring
    have hsize1 : n * r ≤ L * 16000 + r := by omega
    have hsize2 : L * 16000 < (n + 2) * r := by
      have : (n + 2) * r = n * r + 2 * r := by ring
      omega
    have hn21 : n ≤ 2 ^ 21 + 1 := by
      have h1 : n * r ≤ (2 ^ 21 + 1) * r := by
        have : (2 ^ 21 + 1) * r = r * 2 ^ 21 + r := by ring
        omega
      exact Nat.le_of_mul_le_mul_right h1 hr
    refine ⟨n, hratio, ?_, hsize1, hsize2, hn21, ?_⟩
    · unfold resampleSize
      rw [hratio, hQ, hn]
      exact toUInt32_fin_nat Q (by omega)
    · intro i hi
      obtain ⟨m, e, hp, hm, he, hpup, hplo⟩ := product_rel i ρ (by omega) hρ130 hρ170
      have hiρ : 2 ^ 149 * (i * ρ) + 2 ^ 149 * ρ ≤ Q * ρ := by
        calc 2 ^ 149 * (i * ρ) + 2 ^ 149 * ρ = (i + 1) * 2 ^ 149 * ρ := by ring
          _ ≤ Q * ρ := Nat.mul_le_mul_right ρ (by omega)
      have hir1 := mul_le_mul_atoms i r ρ _ _ hlo
      have hir2 := mul_le_mul_atoms i ρ r _ _ hup
      have hirU : i * r * 2 ^ 149 = 2 ^ 149 * (i * r) := by ring
      refine ⟨m, e, hp, hm, he, by omega, by omega, by omega⟩

/-- The integer part of a finite non-negative float converts back without rounding. -/
theorem ofInt_trunc (m e : Nat) (hm : m ≤ 2 ^ 24) (he : e ≤ 227) :
    F32.ofInt ((m * 2 ^ e / 2 ^ 149 : Nat) : Int) =
      F32.fin ((m * 2 ^ e / 2 ^ 149 * 2 ^ 149 : Nat) : Int) := by
  by_cases h149 : 149 ≤ e
  · have hsplit : m * 2 ^ e = m * 2 ^ (e - 149) * 2 ^ 149 := by
      rw [Nat.mul_assoc, ← Nat.pow_add]
      congr 2
      omega
    have hdiv : m * 2 ^ e / 2 ^ 149 = m * 2 ^ (e - 149) := by
      rw [hsplit, Nat.mul_div_cancel _ (by norm_num)]
    have h := roundF32_dyadic (m : Int) e 1 (by norm_num) (by rw [Int.natAbs_ofNat]; exact hm)
      (by omega)
    rw [Nat.cast_one, mul_one] at h
    rw [hdiv, ← hsplit]
    unfold F32.ofInt
    have hcast : ((m * 2 ^ (e - 149) : Nat) : Int) * 2 ^ 149 = (m : Int) * 2 ^ e := by
      have := congrArg (fun x : Nat => (x : Int)) hsplit
      push_cast at this ⊢
      exact this.symm
    rw [hcast, h]
    push_cast
    rfl
  · have hpu : m * 2 ^ e ≤ 2 ^ 24 * 2 ^ 148 :=
      Nat.mul_le_mul hm (Nat.pow_le_pow_right (by norm_num) (by omega))
    have hs : m * 2 ^ e / 2 ^ 149 ≤ 2 ^ 24 := by omega
    rw [ofNat_exact _ hs]
    push_cast
    rfl

/-- The fractional part `src_index - src_idx` of line 164 is computed without rounding. -/
theorem frac_exact (m e : Nat) (hm : m ≤ 2 ^ 24) (he : e ≤ 227) :
    F32.sub (F32.fin ((m * 2 ^ e : Nat) : Int)) (F32.ofInt ((m * 2 ^ e / 2 ^ 149 : Nat) : Int)) =
      F32.fin ((m * 2 ^ e % 2 ^ 149 : Nat) : Int) := by
  rw [ofInt_trunc m e hm he]
  show F32.add (F32.fin ((m * 2 ^ e : Nat) : Int))
    (F32.fin (-((m * 2 ^ e / 2 ^ 149 * 2 ^ 149 : Nat) : Int))) = _
  have hdm := Nat.div_add_mod (m * 2 ^ e) (2 ^ 149)
  have hsum : ((m * 2 ^ e : Nat) : Int) + -((m * 2 ^ e / 2 ^ 149 * 2 ^ 149 : Nat) : Int) =
      ((m * 2 ^ e % 2 ^ 149 : Nat) : Int) := by
    omega
  by_cases h149 : 149 ≤ e
  · have hsplit : m * 2 ^ e = m * 2 ^ (e - 149) * 2 ^ 149 := by
      rw [Nat.mul_assoc, ← Nat.pow_add]
      congr 2
      omega
    have hmod : m * 2 ^ e % 2 ^ 149 = 0 := by
      rw [hsplit, Nat.mul_mod_left]
    rw [hmod] at hsum ⊢
    have h := add_dyadic _ _ 0 0 (hsum.trans (by norm_num)) (by norm_num) (by norm_num)
    rw [h]
    norm_num
  · have hdvd1 : 2 ^ e ∣ m * 2 ^ e := Dvd.intro_left m rfl
    have hdvd2 : 2 ^ e ∣ 2 ^ 149 := Nat.pow_dvd_pow 2 (by omega)
    have hdvd : 2 ^ e ∣ m * 2 ^ e % 2 ^ 149 := (Nat.dvd_mod_iff hdvd2).mpr hdvd1
    obtain ⟨k, hk⟩ := hdvd
    have hkm : k ≤ 2 ^ 24 := by
      have h1 : m * 2 ^ e % 2 ^ 149 ≤ m * 2 ^ e := Nat.mod_le _ _
      rw [hk, Nat.mul_comm] at h1
      exact le_trans (Nat.le_of_mul_le_mul_right h1 (Nat.pos_pow_of_pos _ (by norm_num))) hm
    have h := add_dyadic _ _ (k : Int) e
      (hsum.trans (by rw [hk]; push_cast; ring)) (by rw [Int.natAbs_ofNat]; exact hkm) (by omega)
    rw [h, hk]
    push_cast
    ring_nf

/-! ## Reading WAV files -/

theorem read_file (s : IfStream) (n : Nat) (mem : Bytes) : (s.read n mem).1.file = s.file := by
  unfold IfStream.read
  split <;> rfl

theorem seekg_file (s : IfStream) (off : Nat) : (s.seekg off).file = s.file := by
  unfold IfStream.seekg
  split <;> rfl

theorem findDataLoop_file (fuel : Nat) (s : IfStream) (chunk_id chunk_size : Bytes) :
    (findDataLoop fuel s chunk_id chunk_size).2.2.file = s.file := by
  induction fuel generalizing s chunk_id chunk_size with
  | zero => rfl
  | succ fuel ih =>
    unfold findDataLoop
    dsimp only
    split
    · exact read_file _ _ _
    · split
      · rw [read_file, read_file]
      · rw [ih, seekg_file, read_file, read_file]

/-- The stream `readWAVFile` reads the samples from is a stream over the given file. -/
theorem locateData_file (u : Uninit) (bytes : Bytes) (h : WAVHeader) (chunk_size : Nat)
    (s : IfStream) (hloc : locateData u bytes = some (h, chunk_size, s)) : s.file = bytes := by
  unfold locateData at hloc
  dsimp only at hloc
  split at hloc
  · exact absurd hloc (by simp)
  · split at hloc
    · exact absurd hloc (by simp)
    · rename_i size_bytes s2 hfind
      have hs : s2 = s := by
        have := Option.some.inj hloc
        exact (Prod.mk.inj (Prod.mk.inj this).2).2
      have hfile := findDataLoop_file
        ((if (parseHeader (IfStream.read { file := bytes, pos := 0, good := true } 36
            u.wav_header).2).fmt_chunk_size > 16 then
          (IfStream.read { file := bytes, pos := 0, good := true } 36 u.wav_header).1.seekg
            ((parseHeader (IfStream.read { file := bytes, pos := 0, good := true } 36
              u.wav_header).2).fmt_chunk_size - 16)
          else (IfStream.read { file := bytes, pos := 0, good := true } 36
            u.wav_header).1).file.length + 1)
        (if (parseHeader (IfStream.read { file := bytes, pos := 0, good := true } 36
            u.wav_header).2).fmt_chunk_size > 16 then
          (IfStream.read { file := bytes, pos := 0, good := true } 36 u.wav_header).1.seekg
            ((parseHeader (IfStream.read { file := bytes, pos := 0, good := true } 36
              u.wav_header).2).fmt_chunk_size - 16)
          else (IfStream.read { file := bytes, pos := 0, good := true } 36 u.wav_header).1)
        u.chunk_id u.chunk_size
      unfold findData at hfind
      rw [hfind] at hfile
      rw [← hs]
      simp only at hfile
      rw [hfile]
      split
      · rw [seekg_file, read_file]
      · rw [read_file]

theorem int16Elems_length (mem : Bytes) : (int16Elems mem).length = mem.length / 2 := by
  induction mem using int16Elems.induct with
  | case1 b0 b1 rest ih =>
    simp only [int16Elems, List.length_cons, ih]
    omega
  | case2 mem hmem =>
    have hlen : mem.length < 2 := by
      match mem, hmem with
      | [], _ => simp
      | [_], _ => simp
      | b0 :: b1 :: rest, hmem => exact absurd rfl (hmem b0 b1 rest)
    rw [int16Elems]
    · simp; omega
    · exact hmem

theorem int16Elems_getElem? (mem : Bytes) (i : Nat) (hi : 2 * i + 2 ≤ mem.length) :
    (int16Elems mem)[i]? = some (toInt16 (leValue ((mem.drop (2 * i)).take 2))) := by
  induction i generalizing mem with
  | zero =>
    match mem, hi with
    | b0 :: b1 :: rest, _ => simp [int16Elems, leValue]
  | succ i ih =>
    match mem, hi with
    | b0 :: b1 :: rest, hi =>
      have hrest : 2 * i + 2 ≤ rest.length := by
        simp only [List.length_cons] at hi
        omega
      have h2 : 2 * (i + 1) = 2 * i + 1 + 1 := by ring
      simp only [int16Elems, List.getElem?_cons_succ, ih rest hrest, h2, List.drop_succ_cons]

theorem read_good (s : IfStream) (n : Nat) (hgood : s.good = true)
    (hdata : s.pos + n ≤ s.file.length) :
    (s.read n []).2 = (s.file.drop s.pos).take n ∧ ((s.file.drop s.pos).take n).length = n := by
  have hlen : ((s.file.drop s.pos).take n).length = n := by
    rw [List.length_take, List.length_drop]
    omega
  refine ⟨?_, hlen⟩
  unfold IfStream.read
  simp [hgood]

theorem toInt16_natAbs_le (v : Nat) (hv : v < 2 ^ 16) : (toInt16 v).natAbs ≤ 2 ^ 15 := by
  unfold toInt16
  split <;> omega

theorem leValue_pair_lt (b : Bytes) (hb : ∀ x ∈ b, x < 256) : leValue (b.take 2) < 2 ^ 16 := by
  match b, hb with
  | [], _ => simp [leValue]
  | [x], hb =>
    have := hb x (by simp)
    simp only [List.take, leValue]
    omega
  | x :: y :: rest, hb =>
    have hx := hb x (by simp)
    have hy := hb y (by simp)
    simp only [List.take, leValue]
    omega

theorem pcmSample_natAbs_le (s : IfStream) (i : Nat) (hb : ∀ x ∈ s.file, x < 256) :
    (pcmSample s i).natAbs ≤ 2 ^ 15 := by
  apply toInt16_natAbs_le
  apply leValue_pair_lt
  intro x hx
  exact hb x (List.mem_of_mem_drop hx)

/-- The quotient of a float `m * 2 ^ s` units by a power of two is exact. -/
theorem div_two_pow (m : Int) (s t : Nat) (hm : m.natAbs ≤ 2 ^ 24) (ht : t ≤ s + 149)
    (hs : s + 149 - t ≤ 252) :
    F32.div (F32.fin (m * 2 ^ s)) (F32.fin (2 ^ t)) = F32.fin (m * 2 ^ (s + 149 - t)) := by
  have hpos : (0 : Int) < 2 ^ t := by positivity
  have hne : ¬ ((2 : Int) ^ t = 0) := by omega
  have hsign : ((2 : Int) ^ t).sign = 1 := Int.sign_eq_one_of_pos hpos
  have habs : ((2 : Int) ^ t).natAbs = 2 ^ t := by
    rw [Int.natAbs_pow]; rfl
  have hval : m * 2 ^ s * 2 ^ 149 * 1 = m * 2 ^ (s + 149 - t) * ((2 ^ t : Nat) : Int) := by
    have hsplit : s + 149 = (s + 149 - t) + t := by omega
    rw [mul_one, mul_assoc, ← pow_add]
    conv_lhs => rw [hsplit, pow_add]
    push_cast
    ring
  unfold F32.div
  simp only [hne, if_false, hsign, habs]
  rw [hval]
  exact roundF32_dyadic m (s + 149 - t) (2 ^ t) (Nat.pos_pow_of_pos _ (by norm_num)) hm hs

theorem ofInt_32768 : F32.ofInt 32768 = F32.fin (2 ^ 164) := by
  rw [ofInt_exact 32768 (by norm_num)]
  norm_num

/-- A 16-bit sample divided by `32768.0f` is `sample * 2 ^ (-15)` without rounding. -/
theorem sample_div_exact (v : Int) (hv : v.natAbs ≤ 2 ^ 15) :
    F32.div (F32.ofInt v) (F32.ofInt 32768) = F32.fin (v * 2 ^ 134) := by
  have hv' : v.natAbs ≤ 2 ^ 24 := le_trans hv (by norm_num)
  rw [ofInt_exact v hv', ofInt_32768]
  exact div_two_pow v 149 164 hv' (by norm_num) (by norm_num)

theorem toRat_sample (v : Int) :
    F32.toRat? (F32.fin (v * 2 ^ 134)) = some ((v : ℚ) / 32768) := by
  have h : (2 : ℚ) ^ 149 = 32768 * 2 ^ 134 := by norm_num
  unfold F32.toRat?
  rw [Option.some.injEq, Int.cast_mul, Int.cast_pow, Int.cast_ofNat, h,
    mul_div_mul_right _ _ (by positivity)]

theorem field_payload (file : Bytes) (pos n i : Nat) (hi : 2 * i + 2 ≤ n) :
    (((file.drop pos).take n).drop (2 * i)).take 2 = field file (pos + 2 * i) 2 := by
  unfold field
  rw [List.drop_take, List.take_take, List.drop_drop]
  congr 1
  omega

/-- Lines 95-113 for a mono 16-bit PCM header and a payload of `F` complete frames. -/
theorem readSamples_mono16 (h : WAVHeader) (s : IfStream) (F : Nat)
    (hfmt : h.audio_format = 1) (hch : h.num_channels = 1) (hbits : h.bits_per_sample = 16)
    (hgood : s.good = true) (hdata : s.pos + 2 * F ≤ s.file.length) :
    readSamples h (2 * F) s = Except.ok (some ((List.range F).map fun i =>
      F32.div (F32.ofInt (pcmSample s i)) (F32.ofInt 32768))) := by
  obtain ⟨hgot, hlen⟩ := read_good s (2 * F) hgood hdata
  have htotal : 2 * F / (16 / 8) = F := by omega
  unfold readSamples
  simp only [hfmt, hch, hbits, htotal, hgot, hlen, Nat.div_one, lt_irrefl, if_false,
    Nat.sub_self, List.replicate_zero, List.append_nil, if_true]
  simp only [show (16 / 8 = 0) = False by simp, show ((1 : Nat) = 0) = False by simp, if_false]
  congr 2
  unfold convertPcm16
  simp only [if_true]
  apply List.map_congr_left
  intro i hi
  have hi' : i < F := List.mem_range.mp hi
  have helem := int16Elems_getElem? ((s.file.drop s.pos).take (2 * F)) i (by omega)
  rw [field_payload s.file s.pos (2 * F) i (by omega)] at helem
  rw [List.getD_eq_getElem?_getD, helem]
  rfl

theorem resample_16000 (float_samples : List F32) :
    resample float_samples 16000 = Except.ok float_samples := by
  simp [resample]

/-- C5: for every mono 16-bit integer-PCM WAV whose header rate is 16000 and whose data
chunk holds `F` frames, `readWAVFile` returns a buffer of length exactly `F` whose `i`-th
value is the `i`-th signed 16-bit sample divided by 32768, exactly, with no resampling. -/
theorem readWAVFile_mono16 (u : Uninit) (bytes : Bytes) (h : WAVHeader) (chunk_size : Nat)
    (s : IfStream) (F : Nat) (hbytes : ∀ b ∈ bytes, b < 256)
    (hloc : locateData u bytes = some (h, chunk_size, s))
    (hfmt : h.audio_format = 1) (hch : h.num_channels = 1) (hbits : h.bits_per_sample = 16)
    (hrate : h.sample_rate = 16000) (hsize : chunk_size = 2 * F) (hgood : s.good = true)
    (hdata : s.pos + 2 * F ≤ s.file.length) :
    ∃ out, readWAVFile u (some bytes) = Except.ok out ∧ out.length = F ∧
      ∀ i, i < F → (out[i]?).bind F32.toRat? = some ((pcmSample s i : ℚ) / 32768) := by
  have hfile := locateData_file u bytes h chunk_size s hloc
  have hb : ∀ x ∈ s.file, x < 256 := by rw [hfile]; exact hbytes
  subst hsize
  refine ⟨(List.range F).map fun i => F32.div (F32.ofInt (pcmSample s i)) (F32.ofInt 32768),
    ?_, by simp, ?_⟩
  · unfold readWAVFile
    simp only [hloc, readSamples_mono16 h s F hfmt hch hbits hgood hdata, hrate, resample_16000]
  · intro i hi
    rw [List.getElem?_map, List.getElem?_range hi, Option.map_some', Option.some_bind,
      sample_div_exact _ (pcmSample_natAbs_le s i hb), toRat_sample]

theorem monoWav_bytes : ∀ b ∈ monoWav, b < 256 := by decide

theorem locateData_monoWav :
    locateData zeroUninit monoWav =
      some (parseHeader monoWav, 4, { file := monoWav, pos := 44, good := true }) := by
  decide

theorem readWAVFile_mono16_witness :
    ∃ out, readWAVFile zeroUninit (some monoWav) = Except.ok out ∧ out.length = 2 ∧
      ∀ i, i < 2 → (out[i]?).bind F32.toRat? =
        some ((pcmSample { file := monoWav, pos := 44, good := true } i : ℚ) / 32768) :=
  readWAVFile_mono16 zeroUninit monoWav (parseHeader monoWav) 4
    { file := monoWav, pos := 44, good := true } 2 monoWav_bytes locateData_monoWav
    (by decide) (by decide) (by decide) (by decide) rfl rfl (by decide)

/-! ## Channel mixdown -/

theorem add_exact (a b : Int) (h : (a + b).natAbs ≤ 2 ^ 24) :
    F32.add (F32.fin (a * 2 ^ 149)) (F32.fin (b * 2 ^ 149)) = F32.fin ((a + b) * 2 ^ 149) := by
  have hr := roundF32_dyadic (a + b) 149 1 (by norm_num) h (by norm_num)
  rw [Nat.cast_one, mul_one] at hr
  show roundF32 (a * 2 ^ 149 + b * 2 ^ 149) 1 = _
  rw [← add_mul]
  exact hr

theorem foldl_add_exact (vs : List Int) (acc : Int) (hvs : ∀ v ∈ vs, v.natAbs ≤ 2 ^ 15)
    (hacc : acc.natAbs + vs.length * 2 ^ 15 ≤ 2 ^ 24) :
    (vs.map F32.ofInt).foldl F32.add (F32.fin (acc * 2 ^ 149)) =
      F32.fin ((acc + vs.sum) * 2 ^ 149) := by
  induction vs generalizing acc with
  | nil => simp
  | cons v vs ih =>
    have hv : v.natAbs ≤ 2 ^ 15 := hvs v (by simp)
    have hrest : ∀ x ∈ vs, x.natAbs ≤ 2 ^ 15 := fun x hx => hvs x (by simp [hx])
    simp only [List.length_cons] at hacc
    have hsum : (acc + v).natAbs ≤ acc.natAbs + v.natAbs := Int.natAbs_add_le acc v
    have h24 : (acc + v).natAbs ≤ 2 ^ 24 := by omega
    have hnext : (acc + v).natAbs + vs.length * 2 ^ 15 ≤ 2 ^ 24 := by
      have : (vs.length + 1) * 2 ^ 15 = vs.length * 2 ^ 15 + 2 ^ 15 := by ring
      omega
    simp only [List.map_cons, List.foldl_cons, List.sum_cons]
    rw [ofInt_exact v (le_trans hv (by norm_num)), add_exact acc v h24, ih (acc + v) hrest hnext,
      add_assoc]

/-- The float sum of at most 512 samples of 16 bits is their exact sum. -/
theorem channelSum_exact (vs : List Int) (hvs : ∀ v ∈ vs, v.natAbs ≤ 2 ^ 15)
    (hlen : vs.length ≤ 512) :
    channelSum (vs.map F32.ofInt) = F32.fin (vs.sum * 2 ^ 149) := by
  have h := foldl_add_exact vs 0 hvs (by
    have : vs.length * 2 ^ 15 ≤ 512 * 2 ^ 15 := Nat.mul_le_mul_right _ hlen
    simp only [Int.natAbs_zero, Nat.zero_add]
    calc vs.length * 2 ^ 15 ≤ 512 * 2 ^ 15 := this
      _ = 2 ^ 24 := by norm_num)
  rw [zero_mul, zero_add] at h
  exact h

theorem sum_natAbs_le (vs : List Int) (hvs : ∀ v ∈ vs, v.natAbs ≤ 2 ^ 15) :
    vs.sum.natAbs ≤ vs.length * 2 ^ 15 := by
  induction vs with
  | nil => simp
  | cons v vs ih =>
    have hv : v.natAbs ≤ 2 ^ 15 := hvs v (by simp)
    have hrest := ih (fun x hx => hvs x (by simp [hx]))
    have hsum : (v + vs.sum).natAbs ≤ v.natAbs + vs.sum.natAbs := Int.natAbs_add_le _ _
    have : (vs.length + 1) * 2 ^ 15 = vs.length * 2 ^ 15 + 2 ^ 15 := by ring
    simp only [List.sum_cons, List.length_cons]
    omega

/-- The mean of `2 ^ k` samples (`k ≤ 9`) scaled by `32768.0f` is computed without rounding. -/
theorem mean_exact (vs : List Int) (k : Nat) (hk : k ≤ 9) (hlen : vs.length = 2 ^ k)
    (hvs : ∀ v ∈ vs, v.natAbs ≤ 2 ^ 15) :
    F32.div (F32.div (channelSum (vs.map F32.ofInt)) (F32.ofInt ((2 ^ k : Nat) : Int)))
        (F32.ofInt 32768) = F32.fin (vs.sum * 2 ^ (134 - k)) := by
  have hpow : (2 : Nat) ^ k ≤ 2 ^ 9 := Nat.pow_le_pow_right (by norm_num) hk
  have hlen' : vs.length ≤ 512 := by rw [hlen]; exact hpow
  have hS : vs.sum.natAbs ≤ 2 ^ 24 := by
    have h1 := sum_natAbs_le vs hvs
    have h2 : vs.length * 2 ^ 15 ≤ 512 * 2 ^ 15 := Nat.mul_le_mul_right _ hlen'
    have h3 : 512 * 2 ^ 15 = 2 ^ 24 := by norm_num
    omega
  have hN : F32.ofInt ((2 ^ k : Nat) : Int) = F32.fin (2 ^ (k + 149)) := by
    rw [ofInt_exact _ (by
      rw [Int.natAbs_ofNat]
      exact le_trans hpow (by norm_num))]
    rw [Nat.cast_pow, Nat.cast_ofNat, ← pow_add]
  have h5 : k + 149 ≤ 149 + 149 := by omega
  have h6 : 149 + 149 - (k + 149) ≤ 252 := by omega
  rw [channelSum_exact vs hvs hlen', hN, ofInt_32768,
    div_two_pow vs.sum 149 (k + 149) hS h5 h6]
  have h1 : 149 + 149 - (k + 149) = 149 - k := by omega
  have h2 : 149 - k + 149 - 164 = 134 - k := by omega
  have h3 : 164 ≤ 149 - k + 149 := by omega
  have h4 : 149 - k + 149 - 164 ≤ 252 := by omega
  rw [h1, div_two_pow vs.sum (149 - k) 164 hS h3 h4, h2]

theorem toRat_mean (S : Int) (k : Nat) (hk : k ≤ 9) :
    F32.toRat? (F32.fin (S * 2 ^ (134 - k))) = some ((S : ℚ) / (2 ^ k : ℚ) / 32768) := by
  have h : (2 : ℚ) ^ 149 = 2 ^ k * 32768 * 2 ^ (134 - k) := by
    have h15 : (32768 : ℚ) = 2 ^ 15 := by norm_num
    rw [h15, ← pow_add, ← pow_add]
    congr 1
    omega
  unfold F32.toRat?
  rw [Option.some.injEq, Int.cast_mul, Int.cast_pow, Int.cast_ofNat, h,
    mul_div_mul_right _ _ (by positivity), div_div]

/-! ## The mean of a frame in single precision -/

theorem neg_ite (c : Prop) [Decidable c] (u : Int) :
    (if c then F32.fin (-u) else F32.inf true) =
      F32.neg (if c then F32.fin u else F32.inf false) := by
  split
  · rfl
  · rfl

theorem roundF32_neg (n d : Nat) (hpos : 0 < n) :
    roundF32 (-(n : Int)) d = F32.neg (roundF32 (n : Int) d) := by
  have h1 : (-(n : Int)) < 0 := by omega
  have h2 : ¬ ((n : Int) < 0) := by omega
  unfold roundF32
  simp only [Int.natAbs_neg, Int.natAbs_ofNat, h1, h2, if_true, if_false, decide_True,
    decide_False]
  exact neg_ite _ _

theorem div_fin_neg (x y : Nat) (hx : 0 < x) (hy : 0 < y) :
    F32.div (F32.fin (-(x : Int))) (F32.fin (y : Int)) =
      F32.neg (F32.div (F32.fin (x : Int)) (F32.fin (y : Int))) := by
  rw [div_fin_pos x y hy, ← roundF32_neg _ _ (Nat.mul_pos hx (by norm_num))]
  have hne : ¬ ((y : Int) = 0) := by omega
  have hsign : (y : Int).sign = 1 := Int.sign_eq_one_of_pos (by omega)
  unfold F32.div
  simp only [hne, if_false, hsign, Int.natAbs_ofNat, mul_one]
  push_cast
  ring_nf

/-- The float quotient of a positive integer `k ≤ 2 ^ 24` by a channel count `N ≤ 512`:
`m * 2 ^ e` units with `m ≤ 2 ^ 24` and `e ≥ 15`, within a relative `2 ^ (-24)` of `k / N`. -/
theorem quotient_pos (k N : Nat) (hk : 0 < k) (hk24 : k ≤ 2 ^ 24) (hN : 0 < N)
    (hN512 : N ≤ 512) :
    ∃ m e : Nat, F32.div (F32.fin ((k * 2 ^ 149 : Nat) : Int)) (F32.fin ((N * 2 ^ 149 : Nat) : Int)) =
        F32.fin ((m * 2 ^ e : Nat) : Int) ∧ m ≤ 2 ^ 24 ∧ 15 ≤ e ∧ e ≤ 227 ∧
      2 ^ 24 * (m * 2 ^ e * N) ≤ (2 ^ 24 + 1) * (k * 2 ^ 149) ∧
      (2 ^ 24 - 1) * (k * 2 ^ 149) ≤ 2 ^ 24 * (m * 2 ^ e * N) := by
  have hd : 0 < N * 2 ^ 149 := Nat.mul_pos hN (by norm_num)
  have hlt : k * 2 ^ 149 * 2 ^ 149 / (N * 2 ^ 149) < 2 ^ 250 := by
    rw [Nat.div_lt_iff_lt_mul hd]
    omega
  have hnorm : 2 ^ 24 * (N * 2 ^ 149) ≤ k * 2 ^ 149 * 2 ^ 149 := by omega
  obtain ⟨m, e, hround, hm, he, hquant, hup, hlo⟩ :=
    roundF32_rel (k * 2 ^ 149 * 2 ^ 149) (N * 2 ^ 149) hd hlt hnorm
  have hbig : 2 ^ 140 ≤ k * 2 ^ 149 * 2 ^ 149 / (N * 2 ^ 149) := by
    rw [Nat.le_div_iff_mul_le hd]
    omega
  have he15 : 15 ≤ e := by
    by_contra hcon
    have he14 : e ≤ 14 := by omega
    have hq := (quantum_spec (k * 2 ^ 149 * 2 ^ 149 / (N * 2 ^ 149))).1
    rw [← hquant] at hq
    have hpow : 2 ^ e ≤ 2 ^ 14 := Nat.pow_le_pow_right (by norm_num) he14
    have h1 : k * 2 ^ 149 * 2 ^ 149 / (N * 2 ^ 149) / 2 ^ 14 ≤
        k * 2 ^ 149 * 2 ^ 149 / (N * 2 ^ 149) / 2 ^ e :=
      Nat.div_le_div_left hpow (Nat.pos_pow_of_pos _ (by norm_num))
    omega
  have hmN : m * 2 ^ e * (N * 2 ^ 149) = 2 ^ 149 * (m * 2 ^ e * N) := by ring
  refine ⟨m, e, ?_, hm, he15, he, by omega, by omega⟩
  rw [div_fin_pos _ _ hd]
  exact hround

theorem rel_abs (p k N : Nat) (hN : 0 < N)
    (hup : 2 ^ 24 * (p * N) ≤ (2 ^ 24 + 1) * (k * 2 ^ 149))
    (hlo : (2 ^ 24 - 1) * (k * 2 ^ 149) ≤ 2 ^ 24 * (p * N)) :
    |(p : ℚ) / 2 ^ 149 - (k : ℚ) / N| ≤ |(k : ℚ) / N| / 2 ^ 24 := by
  have hU : (0 : ℚ) < 2 ^ 149 := by positivity
  have hNq : (0 : ℚ) < (N : ℚ) := by exact_mod_cast hN
  have hupq : (2 : ℚ) ^ 24 * ((p : ℚ) * N) ≤ (2 ^ 24 + 1) * ((k : ℚ) * 2 ^ 149) := by
    exact_mod_cast hup
  have hloq : ((2 : ℚ) ^ 24 - 1) * ((k : ℚ) * 2 ^ 149) ≤ 2 ^ 24 * ((p : ℚ) * N) := by
    have h : ((2 ^ 24 - 1 : Nat) : ℚ) * ((k : ℚ) * 2 ^ 149) ≤ 2 ^ 24 * ((p : ℚ) * N) := by
      exact_mod_cast hlo
    have hc : ((2 ^ 24 - 1 : Nat) : ℚ) = (2 : ℚ) ^ 24 - 1 := by norm_num
    rw [hc] at h
    exact h
  have hk0 : (0 : ℚ) ≤ (k : ℚ) / N := div_nonneg (Nat.cast_nonneg k) (Nat.cast_nonneg N)
  obtain ⟨a, ha⟩ : ∃ a : ℚ, a = (k : ℚ) / N := ⟨_, rfl⟩
  obtain ⟨q, hq⟩ : ∃ q : ℚ, q = (p : ℚ) / 2 ^ 149 := ⟨_, rfl⟩
  have hka : (k : ℚ) = a * N := by
    rw [ha]
    field_simp
  have hpq : (p : ℚ) = q * 2 ^ 149 := by
    rw [hq]
    field_simp
  rw [← ha, ← hq]
  rw [← ha] at hk0
  rw [hka, hpq] at hupq hloq
  have hpos : (0 : ℚ) < 2 ^ 149 * N := by positivity
  have h1 : (2 : ℚ) ^ 24 * q ≤ (2 ^ 24 + 1) * a := by
    have : (2 : ℚ) ^ 24 * q * (2 ^ 149 * N) ≤ (2 ^ 24 + 1) * a * (2 ^ 149 * N) := by
      linarith
    exact le_of_mul_le_mul_right this hpos
  have h2 : ((2 : ℚ) ^ 24 - 1) * a ≤ 2 ^ 24 * q := by
    have : ((2 : ℚ) ^ 24 - 1) * a * (2 ^ 149 * N) ≤ 2 ^ 24 * q * (2 ^ 149 * N) := by
      linarith
    exact le_of_mul_le_mul_right this hpos
  rw [abs_of_nonneg hk0, abs_le]
  constructor
  · linarith
  · linarith

theorem scale_value (m : Int) (e : Nat) (hm : m.natAbs ≤ 2 ^ 24) (he15 : 15 ≤ e)
    (he : e ≤ 227) :
    F32.toRat? (F32.div (F32.fin (m * 2 ^ e)) (F32.ofInt 32768)) =
      some (((m * 2 ^ e : Int) : ℚ) / 2 ^ 149 / 32768) := by
  obtain ⟨e', rfl⟩ : ∃ e', e = e' + 15 := ⟨e - 15, by omega⟩
  rw [ofInt_32768, div_two_pow m (e' + 15) 164 hm (by omega) (by omega)]
  have hexp : e' + 15 + 149 - 164 = e' := by omega
  rw [hexp]
  simp only [F32.toRat?, Option.some.injEq]
  push_cast
  rw [pow_add]
  field_simp
  ring

/-- The mean of a frame whose samples sum to `S`, for at most 512 channels: the float
quotient `S / N` is within a relative `2 ^ (-24)` of the exact quotient, and the division
by `32768.0f` that follows is exact. -/
theorem mean_value (S : Int) (N : Nat) (hS : S.natAbs ≤ 2 ^ 24) (hN : 0 < N)
    (hN512 : N ≤ 512) :
    ∃ v : ℚ, F32.toRat? (F32.div (F32.ofInt S) (F32.ofInt (N : Int))) = some v ∧
      |v - (S : ℚ) / N| ≤ |(S : ℚ) / N| / 2 ^ 24 ∧
      F32.toRat? (F32.div (F32.div (F32.fin (S * 2 ^ 149)) (F32.ofInt (N : Int)))
        (F32.ofInt 32768)) = some (v / 32768) := by
  have hNcast : F32.ofInt (N : Int) = F32.fin ((N * 2 ^ 149 : Nat) : Int) := by
    rw [ofNat_exact N (le_trans hN512 (by norm_num))]
    push_cast
    rfl
  have hd : 0 < N * 2 ^ 149 := Nat.mul_pos hN (by norm_num)
  rw [ofInt_exact S hS, hNcast]
  rcases lt_trichotomy S 0 with hneg | rfl | hpos
  · obtain ⟨k, hk⟩ : ∃ k : Nat, S = -(k : Int) := ⟨S.natAbs, by omega⟩
    subst hk
    have hkpos : 0 < k := by omega
    have hk24 : k ≤ 2 ^ 24 := by
      rw [Int.natAbs_neg, Int.natAbs_ofNat] at hS
      exact hS
    obtain ⟨m, e, hdiv, hm, he15, he, hup, hlo⟩ := quotient_pos k N hkpos hk24 hN hN512
    have hcast : -(k : Int) * 2 ^ 149 = -((k * 2 ^ 149 : Nat) : Int) := by push_cast; ring
    have hq : F32.div (F32.fin (-(k : Int) * 2 ^ 149)) (F32.fin ((N * 2 ^ 149 : Nat) : Int)) =
        F32.fin (-(m : Int) * 2 ^ e) := by
      rw [hcast, div_fin_neg _ _ (Nat.mul_pos hkpos (by norm_num)) hd, hdiv]
      show F32.fin (-((m * 2 ^ e : Nat) : Int)) = _
      push_cast
      ring_nf
    have habs := rel_abs (m * 2 ^ e) k N hN hup hlo
    refine ⟨((-(m : Int) * 2 ^ e : Int) : ℚ) / 2 ^ 149, ?_, ?_, ?_⟩
    · rw [hq]
      rfl
    · have h1 : ((-(m : Int) * 2 ^ e : Int) : ℚ) / 2 ^ 149 - ((-(k : Int) : Int) : ℚ) / N =
          -(((m * 2 ^ e : Nat) : ℚ) / 2 ^ 149 - (k : ℚ) / N) := by
        push_cast
        ring
      have h2 : ((-(k : Int) : Int) : ℚ) / N = -((k : ℚ) / N) := by
        push_cast
        ring
      rw [h1, h2, abs_neg, abs_neg]
      exact habs
    · rw [hq]
      exact scale_value _ e (by rw [Int.natAbs_neg, Int.natAbs_ofNat]; exact hm) he15 he
  · refine ⟨0, ?_, by simp, ?_⟩
    · have h0 := div_fin_pos 0 (N * 2 ^ 149) hd
      rw [Nat.zero_mul] at h0
      rw [zero_mul]
      rw [show F32.fin (0 : Int) = F32.fin ((0 : Nat) : Int) from rfl, h0,
        show ((0 : Nat) : Int) = 0 from rfl, roundF32_zero _ hd]
      simp [F32.toRat?]
    · have h0 := div_fin_pos 0 (N * 2 ^ 149) hd
      rw [Nat.zero_mul] at h0
      rw [zero_mul]
      rw [show F32.fin (0 : Int) = F32.fin ((0 : Nat) : Int) from rfl, h0,
        show ((0 : Nat) : Int) = 0 from rfl, roundF32_zero _ hd]
      have hs := scale_value 0 15 (by norm_num) (by norm_num) (by norm_num)
      rw [zero_mul] at hs
      rw [hs]
      norm_num
  · obtain ⟨k, hk⟩ : ∃ k : Nat, S = (k : Int) := ⟨S.natAbs, by omega⟩
    subst hk
    have hkpos : 0 < k := by omega
    have hk24 : k ≤ 2 ^ 24 := by
      rw [Int.natAbs_ofNat] at hS
      exact hS
    obtain ⟨m, e, hdiv, hm, he15, he, hup, hlo⟩ := quotient_pos k N hkpos hk24 hN hN512
    have hcast : (k : Int) * 2 ^ 149 = ((k * 2 ^ 149 : Nat) : Int) := by push_cast; rfl
    have hq : F32.div (F32.fin ((k : Int) * 2 ^ 149)) (F32.fin ((N * 2 ^ 149 : Nat) : Int)) =
        F32.fin ((m : Int) * 2 ^ e) := by
      rw [hcast, hdiv]
      push_cast
      rfl
    have habs := rel_abs (m * 2 ^ e) k N hN hup hlo
    refine ⟨(((m : Int) * 2 ^ e : Int) : ℚ) / 2 ^ 149, ?_, ?_, ?_⟩
    · rw [hq]
      rfl
    · have h1 : (((m : Int) * 2 ^ e : Int) : ℚ) / 2 ^ 149 = ((m * 2 ^ e : Nat) : ℚ) / 2 ^ 149 := by
        push_cast
        rfl
      rw [h1, Int.cast_natCast]
      exact habs
    · rw [hq]
      exact scale_value _ e (by rw [Int.natAbs_ofNat]; exact hm) he15 he

theorem frame_pcm (file : Bytes) (pos N F i : Nat) (hdata : pos + 2 * (N * F) ≤ file.length)
    (hi : i < F) :
    frame (int16Elems ((file.drop pos).take (2 * (N * F)))) N i =
      (List.range N).map fun ch => toInt16 (leValue (field file (pos + 2 * (i * N + ch)) 2)) := by
  have hlen : ((file.drop pos).take (2 * (N * F))).length = 2 * (N * F) := by
    rw [List.length_take, List.length_drop]
    omega
  have hmul : i * N + N ≤ N * F := by
    have h1 : (i + 1) * N ≤ F * N := Nat.mul_le_mul_right N hi
    have h2 : (i + 1) * N = i * N + N := by ring
    have h3 : F * N = N * F := Nat.mul_comm F N
    omega
  unfold frame
  apply List.ext_getElem?
  intro c
  by_cases hc : c < N
  · have hidx : 2 * (i * N + c) + 2 ≤ ((file.drop pos).take (2 * (N * F))).length := by
      rw [hlen]; omega
    rw [List.getElem?_take_of_lt hc, List.getElem?_drop, int16Elems_getElem? _ _ hidx,
      field_payload file pos (2 * (N * F)) (i * N + c) (by omega), List.getElem?_map,
      List.getElem?_range hc]
    rfl
  · have h1 : (List.take N (List.drop (i * N)
        (int16Elems ((file.drop pos).take (2 * (N * F)))))).length ≤ c := by
      rw [List.length_take]
      omega
    have h2 : ((List.range N).map fun ch =>
        toInt16 (leValue (field file (pos + 2 * (i * N + ch)) 2))).length ≤ c := by
      rw [List.length_map, List.length_range]
      omega
    rw [List.getElem?_eq_none h1, List.getElem?_eq_none h2]

/-- Lines 95-124 for a 16-bit PCM header with several channels and a payload of `F`
complete frames. -/
theorem readSamples_multi16 (h : WAVHeader) (s : IfStream) (F : Nat)
    (hfmt : h.audio_format = 1) (hN : 2 ≤ h.num_channels) (hbits : h.bits_per_sample = 16)
    (hgood : s.good = true) (hdata : s.pos + 2 * (h.num_channels * F) ≤ s.file.length) :
    readSamples h (2 * (h.num_channels * F)) s = Except.ok (some ((List.range F).map fun i =>
      F32.div (F32.div
        (channelSum (((List.range h.num_channels).map fun ch =>
          pcmSample s (i * h.num_channels + ch)).map F32.ofInt))
        (F32.ofInt h.num_channels)) (F32.ofInt 32768))) := by
  obtain ⟨hgot, hlen⟩ := read_good s (2 * (h.num_channels * F)) hgood hdata
  have htotal : 2 * (h.num_channels * F) / (16 / 8) = h.num_channels * F := by omega
  have hper : h.num_channels * F / h.num_channels = F :=
    Nat.mul_div_cancel_left F (by omega)
  have hne1 : ¬ (h.num_channels = 1) := by omega
  have hne0 : ¬ (h.num_channels = 0) := by omega
  unfold readSamples
  simp only [hfmt, hbits, htotal, hper, hgot, hlen, lt_irrefl, if_false, hne0,
    Nat.sub_self, List.replicate_zero, List.append_nil, if_true]
  simp only [show (16 / 8 = 0) = False by simp, if_false]
  congr 2
  unfold convertPcm16
  simp only [hne1, if_false]
  apply List.map_congr_left
  intro i hi
  have hi' : i < F := List.mem_range.mp hi
  rw [frame_pcm s.file s.pos h.num_channels F i hdata hi']
  rfl

/-- C6 (amended): for every 16-bit integer-PCM WAV with `N ≥ 2` interleaved channels at
16000 Hz, `readWAVFile` returns one value per frame: the samples of frame `i`, at positions
`i * N .. i * N + N - 1`, converted to `float` and added from left to right to `0.0f`, the
sum divided by `N` and then by `32768.0f`, every operation in single precision. For
`N ≤ 512` the sum is the exact sum `S` and the division by 32768 is exact, so the value is
the float quotient `S / N`, within a relative `2 ^ (-24)` of the mean, divided by 32768;
when `N` is a power of two up to 512 the value is exactly the mean divided by 32768, and
for stereo this is `(left + right) / 2 / 32768`. -/
theorem readWAVFile_multi16 (u : Uninit) (bytes : Bytes) (h : WAVHeader) (chunk_size : Nat)
    (s : IfStream) (F : Nat) (hbytes : ∀ b ∈ bytes, b < 256)
    (hloc : locateData u bytes = some (h, chunk_size, s))
    (hfmt : h.audio_format = 1) (hN : 2 ≤ h.num_channels) (hbits : h.bits_per_sample = 16)
    (hrate : h.sample_rate = 16000) (hsize : chunk_size = 2 * (h.num_channels * F))
    (hgood : s.good = true) (hdata : s.pos + 2 * (h.num_channels * F) ≤ s.file.length) :
    ∃ out, readWAVFile u (some bytes) = Except.ok out ∧ out.length = F ∧
      (∀ i, i < F → out[i]? = some (F32.div (F32.div
        (List.foldl F32.add F32.zero
          (((List.range h.num_channels).map fun ch =>
            pcmSample s (i * h.num_channels + ch)).map F32.ofInt))
        (F32.ofInt h.num_channels)) (F32.ofInt 32768))) ∧
      (h.num_channels ≤ 512 → ∀ i, i < F → ∃ v : ℚ,
        F32.toRat? (F32.div (F32.ofInt (frameSum s h.num_channels i))
          (F32.ofInt h.num_channels)) = some v ∧
        |v - (frameSum s h.num_channels i : ℚ) / h.num_channels| ≤
          |(frameSum s h.num_channels i : ℚ) / h.num_channels| / 2 ^ 24 ∧
        (out[i]?).bind F32.toRat? = some (v / 32768)) ∧
      (∀ k, k ≤ 9 → h.num_channels = 2 ^ k → ∀ i, i < F →
        (out[i]?).bind F32.toRat? =
          some ((frameSum s h.num_channels i : ℚ) / (h.num_channels : ℚ) / 32768)) ∧
      (h.num_channels = 2 → ∀ i, i < F →
        (out[i]?).bind F32.toRat? =
          some (((pcmSample s (2 * i) : ℚ) + (pcmSample s (2 * i + 1) : ℚ)) / 2 / 32768)) := by
  have hfile := locateData_file u bytes h chunk_size s hloc
  have hb : ∀ x ∈ s.file, x < 256 := by rw [hfile]; exact hbytes
  subst hsize
  have hvs : ∀ i, ∀ v ∈ (List.range h.num_channels).map
      (fun ch => pcmSample s (i * h.num_channels + ch)), v.natAbs ≤ 2 ^ 15 := by
    intro i v hv
    obtain ⟨ch, -, rfl⟩ := List.mem_map.mp hv
    exact pcmSample_natAbs_le s _ hb
  have hget : ∀ i, i < F →
      (((List.range F).map fun i =>
        F32.div (F32.div
          (channelSum (((List.range h.num_channels).map fun ch =>
            pcmSample s (i * h.num_channels + ch)).map F32.ofInt))
          (F32.ofInt h.num_channels)) (F32.ofInt 32768))[i]?) =
        some (F32.div (F32.div
          (channelSum (((List.range h.num_channels).map fun ch =>
            pcmSample s (i * h.num_channels + ch)).map F32.ofInt))
          (F32.ofInt h.num_channels)) (F32.ofInt 32768)) := by
    intro i hi
    rw [List.getElem?_map, List.getElem?_range hi, Option.map_some']
  have hpow : ∀ k, k ≤ 9 → h.num_channels = 2 ^ k → ∀ i, i < F →
      (((List.range F).map fun i =>
        F32.div (F32.div
          (channelSum (((List.range h.num_channels).map fun ch =>
            pcmSample s (i * h.num_channels + ch)).map F32.ofInt))
          (F32.ofInt h.num_channels)) (F32.ofInt 32768))[i]?).bind F32.toRat? =
        some ((frameSum s h.num_channels i : ℚ) / (h.num_channels : ℚ) / 32768) := by
    intro k hk hNk i hi
    have hlen : ((List.range h.num_channels).map
        (fun ch => pcmSample s (i * h.num_channels + ch))).length = 2 ^ k := by
      rw [List.length_map, List.length_range, hNk]
    have hcast : ((h.num_channels : Nat) : Int) = ((2 ^ k : Nat) : Int) := by rw [hNk]
    have hq : (h.num_channels : ℚ) = (2 : ℚ) ^ k := by rw [hNk]; push_cast; rfl
    rw [hget i hi, Option.some_bind, hcast,
      mean_exact _ k hk hlen (hvs i), toRat_mean _ k hk, hq]
    rfl
  refine ⟨_, ?_, by simp, ?_, ?_, hpow, ?_⟩
  · unfold readWAVFile
    simp only [hloc, readSamples_multi16 h s F hfmt hN hbits hgood hdata, hrate,
      resample_16000]
  · intro i hi
    rw [hget i hi]
    rfl
  · intro h512 i hi
    have hlen : ((List.range h.num_channels).map
        (fun ch => pcmSample s (i * h.num_channels + ch))).length ≤ 512 := by
      rw [List.length_map, List.length_range]
      exact h512
    have hS : (frameSum s h.num_channels i).natAbs ≤ 2 ^ 24 := by
      have h1 := sum_natAbs_le _ (hvs i)
      have h2 := Nat.mul_le_mul_right (2 ^ 15) hlen
      have h3 : 512 * 2 ^ 15 = 2 ^ 24 := by norm_num
      unfold frameSum
      omega
    obtain ⟨v, hv1, hv2, hv3⟩ := mean_value (frameSum s h.num_channels i) h.num_channels hS
      (by omega) h512
    refine ⟨v, hv1, hv2, ?_⟩
    rw [hget i hi, Option.some_bind, channelSum_exact _ (hvs i) hlen]
    exact hv3
  · intro h2 i hi
    rw [hpow 1 (by norm_num) (by rw [h2]; rfl) i hi, h2]
    congr 2
    simp only [frameSum, List.range_succ, List.range_zero, List.nil_append, List.map_cons,
      List.map_nil, List.cons_append, List.sum_cons, List.sum_nil]
    push_cast
    ring_nf

theorem locateData_stereoWav :
    locateData zeroUninit stereoWav =
      some (parseHeader stereoWav, 8, { file := stereoWav, pos := 44, good := true }) := by
  decide

theorem stereoWav_bytes : ∀ b ∈ stereoWav, b < 256 := by decide

theorem readWAVFile_multi16_witness :
    ∃ out, readWAVFile zeroUninit (some stereoWav) = Except.ok out ∧ out.length = 2 ∧
      (∀ i, i < 2 → out[i]? = some (F32.div (F32.div
        (List.foldl F32.add F32.zero
          (((List.range (parseHeader stereoWav).num_channels).map fun ch =>
            pcmSample { file := stereoWav, pos := 44, good := true }
              (i * (parseHeader stereoWav).num_channels + ch)).map F32.ofInt))
        (F32.ofInt (parseHeader stereoWav).num_channels)) (F32.ofInt 32768))) ∧
      ((parseHeader stereoWav).num_channels ≤ 512 → ∀ i, i < 2 → ∃ v : ℚ,
        F32.toRat? (F32.div
          (F32.ofInt (frameSum { file := stereoWav, pos := 44, good := true }
            (parseHeader stereoWav).num_channels i))
          (F32.ofInt (parseHeader stereoWav).num_channels)) = some v ∧
        |v - (frameSum { file := stereoWav, pos := 44, good := true }
            (parseHeader stereoWav).num_channels i : ℚ) /
              (parseHeader stereoWav).num_channels| ≤
          |(frameSum { file := stereoWav, pos := 44, good := true }
            (parseHeader stereoWav).num_channels i : ℚ) /
              (parseHeader stereoWav).num_channels| / 2 ^ 24 ∧
        (out[i]?).bind F32.toRat? = some (v / 32768)) ∧
      (∀ k, k ≤ 9 → (parseHeader stereoWav).num_channels = 2 ^ k → ∀ i, i < 2 →
        (out[i]?).bind F32.toRat? =
          some ((frameSum { file := stereoWav, pos := 44, good := true }
            (parseHeader stereoWav).num_channels i : ℚ) /
              ((parseHeader stereoWav).num_channels : ℚ) / 32768)) ∧
      ((parseHeader stereoWav).num_channels = 2 → ∀ i, i < 2 →
        (out[i]?).bind F32.toRat? =
          some (((pcmSample { file := stereoWav, pos := 44, good := true } (2 * i) : ℚ) +
            (pcmSample { file := stereoWav, pos := 44, good := true } (2 * i + 1) : ℚ)) /
              2 / 32768)) :=
  readWAVFile_multi16 zeroUninit stereoWav (parseHeader stereoWav) 8
    { file := stereoWav, pos := 44, good := true } 2 stereoWav_bytes locateData_stereoWav
    (by decide) (by decide) (by decide) (by decide) (by decide) rfl (by decide)

set_option maxRecDepth 100000 in
theorem readWAVFile_lowRateWav : readWAVFile zeroUninit (some lowRateWav) =
    Except.ok [F32.fin (2 ^ 148), F32.fin 0, F32.fin (-(2 ^ 148)), F32.fin (-(2 ^ 148))] := by
  decide

/-! ## More than 512 channels -/

theorem int16Elems_pairs (n a b : Nat) (rest : Bytes) :
    int16Elems ((List.replicate n [a, b]).flatten ++ rest) =
      List.replicate n (toInt16 (a + 256 * b)) ++ int16Elems rest := by
  induction n with
  | zero => rfl
  | succ n ih =>
    rw [List.replicate_succ, List.flatten_cons, List.replicate_succ, List.append_assoc]
    show int16Elems (a :: b :: ((List.replicate n [a, b]).flatten ++ rest)) = _
    rw [int16Elems, ih]
    rfl

theorem int16Elems_zeros (k : Nat) :
    int16Elems (List.replicate (2 * k) 0) = List.replicate k 0 := by
  induction k with
  | zero => rfl
  | succ k ih =>
    have h : 2 * (k + 1) = 2 * k + 1 + 1 := by ring
    rw [h, List.replicate_succ, List.replicate_succ, int16Elems, ih, List.replicate_succ]
    rfl

theorem length_pairs (n a b : Nat) : ((List.replicate n [a, b]).flatten).length = 2 * n := by
  induction n with
  | zero => rfl
  | succ n ih =>
    rw [List.replicate_succ, List.flatten_cons, List.length_append, ih]
    simp only [List.length_cons, List.length_nil]
    omega

theorem widePayload_length : widePayload.length = 2048 := by
  rw [widePayload, List.length_append, length_pairs, List.length_append, List.length_replicate]
  rfl

theorem int16Elems_widePayload :
    int16Elems widePayload = List.replicate 512 (-32768) ++ (-1 :: List.replicate 511 0) := by
  rw [widePayload, int16Elems_pairs]
  show _ ++ int16Elems (255 :: 255 :: List.replicate (2 * 511) 0) = _
  rw [int16Elems, int16Elems_zeros]
  rfl

theorem foldl_add_zeros (X : Int) (n : Nat)
    (hX : F32.add (F32.fin X) (F32.ofInt 0) = F32.fin X) :
    ((List.replicate n (0 : Int)).map F32.ofInt).foldl F32.add (F32.fin X) = F32.fin X := by
  induction n with
  | zero => rfl
  | succ n ih =>
    rw [List.replicate_succ, List.map_cons, List.foldl_cons, hX, ih]

set_option maxRecDepth 100000 in
theorem add_lost : F32.add (F32.fin (-16777216 * 2 ^ 149)) (F32.ofInt (-1)) =
    F32.fin (-16777216 * 2 ^ 149) := by
  decide

set_option maxRecDepth 100000 in
theorem add_zero_wide : F32.add (F32.fin (-16777216 * 2 ^ 149)) (F32.ofInt 0) =
    F32.fin (-16777216 * 2 ^ 149) := by
  decide

/-- The float sum of the 1024 samples of the wide frame: the sample `-1` is lost. -/
theorem channelSum_wide :
    channelSum ((List.replicate 512 (-32768) ++ (-1 :: List.replicate 511 0)).map F32.ofInt) =
      F32.fin (-16777216 * 2 ^ 149) := by
  have hfirst := foldl_add_exact (List.replicate 512 (-32768)) 0 (by
    intro v hv
    rw [List.eq_of_mem_replicate hv]
    norm_num) (by
    rw [List.length_replicate]
    norm_num)
  rw [List.sum_replicate] at hfirst
  have hsum : (0 : Int) + 512 • (-32768 : Int) = -16777216 := by norm_num
  rw [hsum, zero_mul] at hfirst
  unfold channelSum
  rw [List.map_append, List.foldl_append]
  show List.foldl F32.add (List.foldl F32.add (F32.fin 0) _) _ = _
  rw [hfirst, List.map_cons, List.foldl_cons, add_lost]
  exact foldl_add_zeros _ 511 add_zero_wide

set_option maxRecDepth 100000 in
theorem mean_wide :
    F32.div (F32.div (F32.fin (-16777216 * 2 ^ 149)) (F32.ofInt ((1024 : Nat) : Int)))
      (F32.ofInt 32768) = F32.fin (-(2 ^ 148)) := by
  decide

/-- Lines 95-124 for a 16-bit PCM header and a payload of `F` complete frames, in terms
of the 16-bit elements of the payload. -/
theorem readSamples_pcm16 (h : WAVHeader) (s : IfStream) (F : Nat)
    (hfmt : h.audio_format = 1) (hN : 1 ≤ h.num_channels) (hbits : h.bits_per_sample = 16)
    (hgood : s.good = true) (hdata : s.pos + 2 * (h.num_channels * F) ≤ s.file.length) :
    readSamples h (2 * (h.num_channels * F)) s = Except.ok (some
      (convertPcm16 (int16Elems ((s.file.drop s.pos).take (2 * (h.num_channels * F))))
        h.num_channels F)) := by
  obtain ⟨hgot, hlen⟩ := read_good s (2 * (h.num_channels * F)) hgood hdata
  have htotal : 2 * (h.num_channels * F) / (16 / 8) = h.num_channels * F := by omega
  have hper : h.num_channels * F / h.num_channels = F :=
    Nat.mul_div_cancel_left F (by omega)
  have hne0 : ¬ (h.num_channels = 0) := by omega
  unfold readSamples
  simp only [hfmt, hbits, htotal, hper, hgot, hlen, lt_irrefl, if_false, hne0,
    Nat.sub_self, List.replicate_zero, List.append_nil, if_true]
  simp only [show (16 / 8 = 0) = False by simp, if_false]

theorem wideHeader_fields :
    (parseHeader wideHeader).audio_format = 1 ∧ (parseHeader wideHeader).num_channels = 1024 ∧
    (parseHeader wideHeader).bits_per_sample = 16 ∧
    (parseHeader wideHeader).sample_rate = 16000 ∧
    (parseHeader wideHeader).fmt_chunk_size = 16 := by
  decide


/-! ## Resampling -/

theorem resampleLoop_length (float_samples : List F32) (ratio : F32) (is : List Nat)
    (out : List F32) (h : resampleLoop float_samples ratio is = Except.ok out) :
    out.length = is.length := by
  induction is generalizing out with
  | nil =>
    simp only [resampleLoop] at h
    rw [← Except.ok.inj h]
    rfl
  | cons i rest ih =>
    unfold resampleLoop at h
    split at h
    · exact absurd h (by simp)
    · split at h
      · exact absurd h (by simp)
      · rename_i ys hys
        rw [← Except.ok.inj h, List.length_cons, List.length_cons, ih ys hys]

theorem resampleLoop_ok (float_samples : List F32) (ratio : F32) (is : List Nat)
    (h : ∀ i ∈ is, ∃ y, resampleAt float_samples ratio i = Except.ok y) :
    ∃ out, resampleLoop float_samples ratio is = Except.ok out := by
  induction is with
  | nil => exact ⟨[], rfl⟩
  | cons i rest ih =>
    obtain ⟨y, hy⟩ := h i (by simp)
    obtain ⟨ys, hys⟩ := ih (fun j hj => h j (by simp [hj]))
    exact ⟨y :: ys, by simp only [resampleLoop, hy, hys]⟩

/-- Whenever the resampling step completes it returns `new_size` samples. -/
theorem resample_length (float_samples : List F32) (sample_rate : Nat) (out : List F32)
    (hrate : sample_rate ≠ 16000) (h : resample float_samples sample_rate = Except.ok out) :
    resampleSize float_samples.length sample_rate = some out.length := by
  unfold resample at h
  rw [if_pos hrate] at h
  dsimp only at h
  split at h
  · exact absurd h (by simp)
  · rename_i new_size hsize
    rw [hsize, resampleLoop_length _ _ _ _ h, List.length_range]

set_option maxRecDepth 100000 in
theorem ratio_8000 : F32.div (F32.ofInt 8000) (F32.ofInt 16000) = F32.fin (2 ^ 148) := by
  decide

/-- The product of a float `m * 2 ^ s` units and a power of two is exact. -/
theorem mul_two_pow (m : Int) (s t : Nat) (hm : m.natAbs ≤ 2 ^ 24) (ht : 149 ≤ s + t)
    (hs : s + t - 149 ≤ 252) :
    F32.mul (F32.fin (m * 2 ^ s)) (F32.fin (2 ^ t)) = F32.fin (m * 2 ^ (s + t - 149)) := by
  have hval : m * 2 ^ s * 2 ^ t = m * 2 ^ (s + t - 149) * ((2 ^ 149 : Nat) : Int) := by
    have hsplit : s + t = (s + t - 149) + 149 := by omega
    rw [mul_assoc, ← pow_add]
    conv_lhs => rw [hsplit, pow_add]
    rw [Nat.cast_pow, Nat.cast_ofNat, mul_assoc]
  show roundF32 (m * 2 ^ s * 2 ^ t) (2 ^ 149) = _
  rw [hval]
  exact roundF32_dyadic m (s + t - 149) (2 ^ 149) (Nat.pos_pow_of_pos _ (by norm_num)) hm hs

theorem toUInt32_half (i : Nat) (hi : i < 2 ^ 33) :
    F32.toUInt32 (F32.fin ((i : Int) * 2 ^ 148)) = some (i / 2) := by
  have hnn : ¬ ((i : Int) * 2 ^ 148 < 0) := by
    have : (0 : Int) ≤ (i : Int) * 2 ^ 148 := by positivity
    omega
  have habs : ((i : Int) * 2 ^ 148).natAbs = i * 2 ^ 148 := by
    rw [natAbs_mul_two_pow, Int.natAbs_ofNat]
  have hdiv : i * 2 ^ 148 / 2 ^ 149 = i / 2 := by
    have h149 : (2 : Nat) ^ 149 = 2 ^ 148 * 2 := by rw [← Nat.pow_succ]
    rw [h149, Nat.mul_comm i, Nat.mul_div_mul_left _ _ (Nat.pos_pow_of_pos _ (by norm_num))]
  have hlt : i / 2 < 2 ^ 32 := by omega
  unfold F32.toUInt32
  simp only [hnn, if_false, habs, hdiv, hlt, if_true]

theorem toUInt32_double (n : Nat) (hn : 2 * n < 2 ^ 32) :
    F32.toUInt32 (F32.fin ((n : Int) * 2 ^ 150)) = some (2 * n) := by
  have hnn : ¬ ((n : Int) * 2 ^ 150 < 0) := by
    have : (0 : Int) ≤ (n : Int) * 2 ^ 150 := by positivity
    omega
  have habs : ((n : Int) * 2 ^ 150).natAbs = n * 2 ^ 150 := by
    rw [natAbs_mul_two_pow, Int.natAbs_ofNat]
  have hdiv : n * 2 ^ 150 / 2 ^ 149 = 2 * n := by
    have h150 : (2 : Nat) ^ 150 = 2 * 2 ^ 149 := by rw [Nat.pow_succ, Nat.mul_comm]
    rw [h150, ← Nat.mul_assoc, Nat.mul_div_cancel _ (Nat.pos_pow_of_pos _ (by norm_num)),
      Nat.mul_comm]
  unfold F32.toUInt32
  simp only [hnn, if_false, habs, hdiv, hn, if_true]

/-- The value of `new_size` for an 8000 Hz header and at most `2 ^ 24` samples. -/
theorem resampleSize_8000 (n : Nat) (hn : n ≤ 2 ^ 24) : resampleSize n 8000 = some (2 * n) := by
  have h1 : 148 ≤ 149 + 149 := by norm_num
  have h2 : 149 + 149 - 148 ≤ 252 := by norm_num
  have hdiv := div_two_pow (n : Int) 149 148 (by rw [Int.natAbs_ofNat]; exact hn) h1 h2
  have h3 : 149 + 149 - 148 = 150 := by norm_num
  rw [h3] at hdiv
  unfold resampleSize
  rw [show ((8000 : Nat) : Int) = 8000 from rfl, ratio_8000, ofNat_exact n hn, hdiv]
  exact toUInt32_double n (by omega)

/-- The loop body for an 8000 Hz header reads inside the buffer for every index below
twice its length, up to `2 ^ 24`. -/
theorem resampleAt_8000 (float_samples : List F32) (i : Nat) (hi : i < 2 * float_samples.length)
    (h24 : i ≤ 2 ^ 24) :
    ∃ y, resampleAt float_samples (F32.fin (2 ^ 148)) i = Except.ok y := by
  have h1 : 149 ≤ 149 + 148 := by norm_num
  have h2 : 149 + 148 - 149 ≤ 252 := by norm_num
  have hmul := mul_two_pow (i : Int) 149 148 (by rw [Int.natAbs_ofNat]; exact h24) h1 h2
  have h3 : 149 + 148 - 149 = 148 := by norm_num
  rw [h3] at hmul
  have hidx : i / 2 < float_samples.length := by omega
  have hmod : (i / 2 + 1) % 2 ^ 32 = i / 2 + 1 := Nat.mod_eq_of_lt (by omega)
  unfold resampleAt
  simp only [ofNat_exact i h24, hmul, toUInt32_half i (by omega), hmod]
  split
  · rename_i hnext
    rw [List.get?_eq_getElem?, List.get?_eq_getElem?, List.getElem?_eq_getElem hidx,
      List.getElem?_eq_getElem hnext]
    exact ⟨_, rfl⟩
  · rw [List.get?_eq_getElem?, List.getElem?_eq_getElem hidx]
    exact ⟨_, rfl⟩

theorem resampleLoop_getElem (float_samples : List F32) (ratio : F32) (is : List Nat)
    (out : List F32) (h : resampleLoop float_samples ratio is = Except.ok out) (j : Nat)
    (hj : j < is.length) :
    ∃ v, resampleAt float_samples ratio is[j] = Except.ok v ∧ out[j]? = some v := by
  induction is generalizing out j with
  | nil => exact absurd hj (by simp)
  | cons i rest ih =>
    unfold resampleLoop at h
    split at h
    · exact absurd h (by simp)
    · rename_i y hy
      split at h
      · exact absurd h (by simp)
      · rename_i ys hys
        have hout := (Except.ok.inj h).symm
        subst hout
        cases j with
        | zero => exact ⟨y, hy, by simp⟩
        | succ j =>
          have hj' : j < rest.length := by
            simp only [List.length_cons] at hj
            omega
          obtain ⟨v, hv, hget⟩ := ih ys hys j hj'
          exact ⟨v, hv, by simpa using hget⟩

/-- Every value the resampling step returns is the value of the loop body at its index. -/
theorem resample_getElem (float_samples : List F32) (sample_rate : Nat) (out : List F32)
    (hrate : sample_rate ≠ 16000) (h : resample float_samples sample_rate = Except.ok out)
    (i : Nat) (hi : i < out.length) :
    resampleAt float_samples (F32.div (F32.ofInt sample_rate) (F32.ofInt 16000)) i =
      Except.ok out[i] := by
  unfold resample at h
  rw [if_pos hrate] at h
  dsimp only at h
  split at h
  · exact absurd h (by simp)
  · rename_i new_size hsize
    have hlen := resampleLoop_length _ _ _ _ h
    rw [List.length_range] at hlen
    obtain ⟨v, hv, hget⟩ := resampleLoop_getElem _ _ _ _ h i (by
      rw [List.length_range]; omega)
    rw [List.getElem_range] at hv
    rw [List.getElem?_eq_getElem hi] at hget
    rw [hv, Option.some.inj hget]


/-- The loop body at an index whose product `i * ratio` is a finite float below the
buffer length: the read is inside the buffer and the fractional part is exact. -/
theorem resampleAt_core (x : List F32) (ρ i m e : Nat)
    (hp : F32.mul (F32.ofInt (i : Int)) (F32.fin (ρ : Int)) = F32.fin ((m * 2 ^ e : Nat) : Int))
    (hm : m ≤ 2 ^ 24) (he : e ≤ 227) (hlt : m * 2 ^ e < x.length * 2 ^ 149)
    (hL : x.length < 2 ^ 32) :
    ∃ a, x[m * 2 ^ e / 2 ^ 149]? = some a ∧
      resampleAt x (F32.fin (ρ : Int)) i = Except.ok
        (match x[m * 2 ^ e / 2 ^ 149 + 1]? with
        | some b =>
          F32.add
            (F32.mul a (F32.sub (F32.ofInt 1) (F32.fin ((m * 2 ^ e % 2 ^ 149 : Nat) : Int))))
            (F32.mul b (F32.fin ((m * 2 ^ e % 2 ^ 149 : Nat) : Int)))
        | none => a) := by
  have hs : m * 2 ^ e / 2 ^ 149 < x.length := (Nat.div_lt_iff_lt_mul (by norm_num)).mpr hlt
  have h32 : m * 2 ^ e / 2 ^ 149 < 2 ^ 32 := lt_trans hs hL
  have hmod : (m * 2 ^ e / 2 ^ 149 + 1) % 2 ^ 32 = m * 2 ^ e / 2 ^ 149 + 1 :=
    Nat.mod_eq_of_lt (by omega)
  refine ⟨x[m * 2 ^ e / 2 ^ 149], List.getElem?_eq_getElem hs, ?_⟩
  unfold resampleAt
  simp only [hp, toUInt32_fin_nat _ h32, hmod, frac_exact m e hm he]
  by_cases hnext : m * 2 ^ e / 2 ^ 149 + 1 < x.length
  · rw [if_pos hnext]
    simp only [List.get?_eq_getElem?, List.getElem?_eq_getElem hs,
      List.getElem?_eq_getElem hnext]
  · rw [if_neg hnext]
    have hnone : x[m * 2 ^ e / 2 ^ 149 + 1]? = none := List.getElem?_eq_none (by omega)
    simp only [List.get?_eq_getElem?, List.getElem?_eq_getElem hs, hnone]

/-- The resampling step for a header rate `0 < r < 2 ^ 32` other than 16000 and a buffer
of `L < 2 ^ 32` samples with `L / (r / 16000) ≤ 2 ^ 21`: it completes, with `new_size`
outputs, every one read inside the buffer. -/
theorem resample_general (x : List F32) (r : Nat) (hr : 0 < r) (hr32 : r < 2 ^ 32)
    (hrate : r ≠ 16000) (hL : x.length < 2 ^ 32) (hq : x.length * 16000 ≤ r * 2 ^ 21) :
    ∃ (ρ : Nat) (out : List F32),
      F32.div (F32.ofInt (r : Int)) (F32.ofInt 16000) = F32.fin (ρ : Int) ∧
      resample x r = Except.ok out ∧ resampleSize x.length r = some out.length ∧
      out.length * r ≤ x.length * 16000 + r ∧ x.length * 16000 < (out.length + 2) * r ∧
      ∀ i, i < out.length → ∃ m e : Nat,
        F32.mul (F32.ofInt (i : Int)) (F32.fin (ρ : Int)) = F32.fin ((m * 2 ^ e : Nat) : Int) ∧
        m ≤ 2 ^ 24 ∧ e ≤ 227 ∧ m * 2 ^ e < x.length * 2 ^ 149 ∧
        2 ^ 22 * (16000 * (m * 2 ^ e)) ≤ (2 ^ 22 + 1) * (i * r * 2 ^ 149) ∧
        (2 ^ 22 - 1) * (i * r * 2 ^ 149) ≤ 2 ^ 22 * (16000 * (m * 2 ^ e)) ∧
        ∃ a, x[m * 2 ^ e / 2 ^ 149]? = some a ∧
          out[i]? = some
            (match x[m * 2 ^ e / 2 ^ 149 + 1]? with
            | some b =>
              F32.add
                (F32.mul a
                  (F32.sub (F32.ofInt 1) (F32.fin ((m * 2 ^ e % 2 ^ 149 : Nat) : Int))))
                (F32.mul b (F32.fin ((m * 2 ^ e % 2 ^ 149 : Nat) : Int)))
            | none => a) := by
  obtain ⟨ρ, n, hratio, hsize, hn1, hn2, -, hidx⟩ := resample_core x.length r hr hr32 hq
  have hloop := resampleLoop_ok x (F32.fin (ρ : Int)) (List.range n) (by
    intro i hi
    obtain ⟨m, e, hp, hm, he, hlt, -, -⟩ := hidx i (List.mem_range.mp hi)
    obtain ⟨a, -, hres⟩ := resampleAt_core x ρ i m e hp hm he hlt hL
    exact ⟨_, hres⟩)
  obtain ⟨out, hout⟩ := hloop
  have hlen : out.length = n := by
    rw [resampleLoop_length _ _ _ _ hout, List.length_range]
  have hres : resample x r = Except.ok out := by
    unfold resample
    rw [if_pos hrate]
    simp only [hratio, hsize, hout]
  refine ⟨ρ, out, hratio, hres, by rw [hlen]; exact hsize, by rw [hlen]; exact hn1,
    by rw [hlen]; exact hn2, ?_⟩
  intro i hi
  obtain ⟨m, e, hp, hm, he, hlt, hup, hlo⟩ := hidx i (by omega)
  obtain ⟨a, ha, hat⟩ := resampleAt_core x ρ i m e hp hm he hlt hL
  refine ⟨m, e, hp, hm, he, hlt, hup, hlo, a, ha, ?_⟩
  obtain ⟨v, hv, hget⟩ := resampleLoop_getElem _ _ _ _ hout i (by
    rw [List.length_range]; omega)
  rw [List.getElem_range] at hv
  rw [hat] at hv
  rw [hget, ← Except.ok.inj hv]

/-- The truncated float quotient `new_size` and the exact floor: two integer inequalities
that place `n` within one of `floor(L / (r / 16000))`. -/
theorem exactResampleSize_near (L r n : Nat) (hr : 0 < r) (h1 : n * r ≤ L * 16000 + r)
    (h2 : L * 16000 < (n + 2) * r) :
    exactResampleSize L r - 1 ≤ n ∧ (n : Int) ≤ exactResampleSize L r + 1 := by
  have hrq : (0 : ℚ) < (r : ℚ) := by exact_mod_cast hr
  have hquot : (L : ℚ) / ((r : ℚ) / 16000) = (L : ℚ) * 16000 / r := by
    field_simp
  have h1q : (n : ℚ) * r ≤ (L : ℚ) * 16000 + r := by exact_mod_cast h1
  have h2q : (L : ℚ) * 16000 < ((n : ℚ) + 2) * r := by exact_mod_cast h2
  unfold exactResampleSize
  rw [hquot]
  constructor
  · have hlt : ⌊(L : ℚ) * 16000 / r⌋ < (n : Int) + 2 := by
      rw [Int.floor_lt, div_lt_iff₀ hrq]
      push_cast
      exact h2q
    omega
  · have hle : (n : Int) - 1 ≤ ⌊(L : ℚ) * 16000 / r⌋ := by
      rw [Int.le_floor, le_div_iff₀ hrq]
      push_cast
      linarith
    omega

/-- C7 (amended): for a buffer of `L < 2 ^ 32` samples and a header rate `0 < r < 2 ^ 32`
other than 16000 with `L / (r / 16000) ≤ 2 ^ 21`, the resampling step of `readWAVFile`
completes and returns exactly `new_size` samples, the single-precision quotient of `L` by
the single-precision ratio `r / 16000`, truncated; `new_size` differs from
`floor(L / (r / 16000))` by at most one. Whenever the step completes, for any `L` and `r`,
it returns `new_size` samples. An input of `N ≤ 2 ^ 23` samples at 8000 Hz yields exactly
`2 * N` samples. -/
theorem resample_output_length (float_samples : List F32) :
    (∀ sample_rate : Nat, 0 < sample_rate → sample_rate < 2 ^ 32 → sample_rate ≠ 16000 →
      float_samples.length < 2 ^ 32 → float_samples.length * 16000 ≤ sample_rate * 2 ^ 21 →
      ∃ out, resample float_samples sample_rate = Except.ok out ∧
        F32.toUInt32 (F32.div (F32.ofInt float_samples.length)
          (F32.div (F32.ofInt sample_rate) (F32.ofInt 16000))) = some out.length ∧
        exactResampleSize float_samples.length sample_rate - 1 ≤ out.length ∧
        (out.length : Int) ≤ exactResampleSize float_samples.length sample_rate + 1) ∧
    (∀ (sample_rate : Nat) (out : List F32), sample_rate ≠ 16000 →
      resample float_samples sample_rate = Except.ok out →
      F32.toUInt32 (F32.div (F32.ofInt float_samples.length)
        (F32.div (F32.ofInt sample_rate) (F32.ofInt 16000))) = some out.length) ∧
    (float_samples.length ≤ 2 ^ 23 →
      ∃ out, resample float_samples 8000 = Except.ok out ∧
        out.length = 2 * float_samples.length) := by
  refine ⟨?_, fun sample_rate out hrate h =>
    resample_length float_samples sample_rate out hrate h, ?_⟩
  · intro sample_rate hr hr32 hrate hL hq
    obtain ⟨ρ, out, -, hres, hsize, h1, h2, -⟩ :=
      resample_general float_samples sample_rate hr hr32 hrate hL hq
    obtain ⟨hlo, hhi⟩ := exactResampleSize_near _ _ _ hr h1 h2
    exact ⟨out, hres, hsize, hlo, hhi⟩
  intro hlen
  have hsize := resampleSize_8000 float_samples.length (le_trans hlen (by norm_num))
  have hloop := resampleLoop_ok float_samples (F32.fin (2 ^ 148))
    (List.range (2 * float_samples.length)) (by
      intro i hi
      have hi' : i < 2 * float_samples.length := List.mem_range.mp hi
      exact resampleAt_8000 float_samples i hi' (by
        have : 2 * float_samples.length ≤ 2 * 2 ^ 23 := Nat.mul_le_mul_left 2 hlen
        have h24 : (2 : Nat) * 2 ^ 23 = 2 ^ 24 := by norm_num
        omega))
  obtain ⟨out, hout⟩ := hloop
  refine ⟨out, ?_, ?_⟩
  · unfold resample
    rw [if_pos (by norm_num)]
    simp only [show ((8000 : Nat) : Int) = 8000 from rfl, ratio_8000, hsize, hout]
  · rw [resampleLoop_length _ _ _ _ hout, List.length_range]

theorem resample_output_length_witness :
    (∃ out, resample (List.replicate 90518 F32.zero) 44100 = Except.ok out ∧
      F32.toUInt32 (F32.div (F32.ofInt (List.replicate 90518 F32.zero).length)
        (F32.div (F32.ofInt ((44100 : Nat) : Int)) (F32.ofInt 16000))) = some out.length ∧
      exactResampleSize (List.replicate 90518 F32.zero).length 44100 - 1 ≤ out.length ∧
      (out.length : Int) ≤ exactResampleSize (List.replicate 90518 F32.zero).length 44100 + 1) ∧
    (∃ out, resample (List.replicate 90518 F32.zero) 8000 = Except.ok out ∧
      out.length = 2 * (List.replicate 90518 F32.zero).length) :=
  ⟨(resample_output_length (List.replicate 90518 F32.zero)).1 44100 (by norm_num)
      (by norm_num) (by norm_num) (by rw [List.length_replicate]; norm_num)
      (by rw [List.length_replicate]; norm_num),
    (resample_output_length (List.replicate 90518 F32.zero)).2.2
      (by rw [List.length_replicate]; norm_num)⟩

theorem exactResampleSize_44100 : exactResampleSize 90518 44100 = 32840 := by
  unfold exactResampleSize
  rw [Int.floor_eq_iff]
  constructor <;> norm_num

theorem exactResampleSize_huge_rate : exactResampleSize 1049 16784001 = 0 := by
  unfold exactResampleSize
  rw [Int.floor_eq_iff]
  constructor <;> norm_num

set_option maxRecDepth 100000 in
theorem resampleSize_44100 : resampleSize 90518 44100 = some 32841 := by
  decide


/-! ## Unsupported formats -/

/-- When the header declares at least 8 bits per sample and at least one channel, an
integer-PCM depth other than 16 and a format code other than 1 and 3 both end in the
empty vector. -/
theorem readSamples_unsupported (h : WAVHeader) (chunk_size : Nat) (s : IfStream)
    (hbits : 8 ≤ h.bits_per_sample) (hch : h.num_channels ≠ 0)
    (hfmt : (h.audio_format = 1 ∧ h.bits_per_sample ≠ 16) ∨
      (h.audio_format ≠ 1 ∧ h.audio_format ≠ 3)) :
    readSamples h chunk_size s = Except.ok none := by
  have hbps : ¬ (h.bits_per_sample / 8 = 0) := by omega
  unfold readSamples
  simp only [hbps, hch, if_false]
  rcases hfmt with ⟨h1, h16⟩ | ⟨h1, h3⟩
  · simp only [h1, h16, if_true, if_false]
  · simp only [h1, h3, if_false]

theorem readWAVFile_unsupported (u : Uninit) (bytes : Bytes) (h : WAVHeader) (chunk_size : Nat)
    (s : IfStream) (hloc : locateData u bytes = some (h, chunk_size, s))
    (hbits : 8 ≤ h.bits_per_sample) (hch : h.num_channels ≠ 0)
    (hfmt : (h.audio_format = 1 ∧ h.bits_per_sample ≠ 16) ∨
      (h.audio_format ≠ 1 ∧ h.audio_format ≠ 3)) :
    readWAVFile u (some bytes) = Except.ok [] := by
  unfold readWAVFile
  simp only [hloc, readSamples_unsupported h chunk_size s hbits hch hfmt]

set_option maxRecDepth 100000 in
/-- C10 (failing inputs): an integer-PCM file that declares 4 bits per sample passes the
tag validation and has a data chunk, and `readWAVFile` divides `chunk_size` by
`bytes_per_sample = 0`; a file with format code 7 and no channels divides by
`num_channels = 0`. Neither call returns the empty vector. -/
theorem readWAVFile_divides_by_zero :
    locateData zeroUninit fourBitWav =
      some (parseHeader fourBitWav, 2, { file := fourBitWav, pos := 44, good := true }) ∧
    (parseHeader fourBitWav).audio_format = 1 ∧ (parseHeader fourBitWav).bits_per_sample = 4 ∧
    readWAVFile zeroUninit (some fourBitWav) = Except.error WavFault.divByZero ∧
    locateData zeroUninit noChannelWav =
      some (parseHeader noChannelWav, 2, { file := noChannelWav, pos := 44, good := true }) ∧
    (parseHeader noChannelWav).audio_format = 7 ∧ (parseHeader noChannelWav).num_channels = 0 ∧
    readWAVFile zeroUninit (some noChannelWav) = Except.error WavFault.divByZero := by
  decide

/-! ## The engine life cycle -/

theorem tailWord_congr (v w : whisper_vocab) (i : Int) (h1 : v.token_eot = w.token_eot)
    (h2 : v.token_sot = w.token_sot) (h3 : v.token_prev = w.token_prev)
    (h5 : v.token_not = w.token_not) (h6 : v.token_beg = w.token_beg) :
    tailWord v i = tailWord w i := by
  unfold tailWord
  rw [h1, h2, h3, h5, h6]

theorem addTail_congr (v w : whisper_vocab) (k : Nat) (i : Int)
    (m : AList (fun _ : Int => Bytes)) (h1 : v.token_eot = w.token_eot)
    (h2 : v.token_sot = w.token_sot) (h3 : v.token_prev = w.token_prev)
    (h5 : v.token_not = w.token_not) (h6 : v.token_beg = w.token_beg) :
    addTail v k i m = addTail w k i m := by
  induction k generalizing i m with
  | zero => rfl
  | succ k ih =>
    simp only [addTail]
    rw [tailWord_congr v w i h1 h2 h3 h5 h6, ih]

/-- The state `loadModel` continues with after a well-formed asset was decoded on an
engine that is not initialised: ids shifted in multilingual mode, filters as encoded,
the table holding the encoded strings and the synthesised tail. -/
theorem loadModel_decoded (assets : Assets) (env : ModelEnv) (isMultilingual : Bool)
    (e : TFLiteEngine) (melBinCount fftSize : Nat) (coefficients : List Nat)
    (words : List Bytes) (hwf : WellFormedAsset melBinCount fftSize coefficients words)
    (hsel : assets.select isMultilingual = encodeAsset melBinCount fftSize coefficients words)
    (hinit : e.g_whisper_tflite.is_whisper_tflite_initialized = false) :
    ∃ e1, loadModel assets env isMultilingual e = loadModelBuffer env e1 ∧
      e1.g_whisper_tflite = e.g_whisper_tflite ∧ e1.mel = e.mel ∧
      e1.filters = { n_mel := melBinCount, n_fft := fftSize, data := coefficients } ∧
      e1.g_vocab.id_to_token =
        addTail e1.g_vocab (totalVocabSize isMultilingual - (words.length : Int)).toNat
          (words.length : Int) (insertWords words 0 e.g_vocab.id_to_token) ∧
      e1.g_vocab.token_eot = e.g_vocab.token_eot + (if isMultilingual then 1 else 0) ∧
      e1.g_vocab.token_sot = e.g_vocab.token_sot + (if isMultilingual then 1 else 0) ∧
      e1.g_vocab.token_prev = e.g_vocab.token_prev + (if isMultilingual then 1 else 0) ∧
      e1.g_vocab.token_solm = e.g_vocab.token_solm + (if isMultilingual then 1 else 0) ∧
      e1.g_vocab.token_not = e.g_vocab.token_not + (if isMultilingual then 1 else 0) ∧
      e1.g_vocab.token_beg = e.g_vocab.token_beg + (if isMultilingual then 1 else 0) := by
  obtain ⟨e1, hdec, hload⟩ := loadModel_encode assets env isMultilingual e melBinCount fftSize
    coefficients words hwf hsel hinit
  rw [decodeAsset_encode melBinCount fftSize coefficients words isMultilingual e hwf] at hdec
  have he1 := (Option.some.inj hdec).symm
  subst he1
  refine ⟨_, hload, rfl, rfl, rfl, ?_, ?_⟩
  · cases isMultilingual
    · exact addTail_congr _ _ _ _ _ rfl rfl rfl rfl rfl
    · exact addTail_congr _ _ _ _ _ rfl rfl rfl rfl rfl
  · cases isMultilingual
    · simp
    · simp [shiftTokens]

theorem loadModelBuffer_closed (e : TFLiteEngine) :
    loadModelBuffer closedModelEnv e = LoadOutcome.returned (-1) e := rfl

theorem loadModelBuffer_good (e : TFLiteEngine) :
    loadModelBuffer goodModelEnv e = LoadOutcome.returned 0
      { e with g_whisper_tflite :=
          { e.g_whisper_tflite with
            size := 3, buffer := some [1, 2, 3], model := true, interpreter := true,
            input := some [], is_whisper_tflite_initialized := true } } := rfl

theorem loadModelBuffer_shortRead (e : TFLiteEngine) :
    loadModelBuffer shortReadEnv e = LoadOutcome.returned 0
      { e with g_whisper_tflite :=
          { e.g_whisper_tflite with
            size := 3, buffer := some [1, 0, 0], model := true, interpreter := true,
            input := some [], is_whisper_tflite_initialized := true } } := rfl

theorem smallAssets_select (isMultilingual : Bool) :
    smallAssets.select isMultilingual = encodeAsset 1 2 [0, 1065353216] [ascii "a", ascii "b"] := by
  cases isMultilingual <;> rfl

/-- C11 (failing input): a multilingual `loadModel` on a fresh engine whose model file
cannot be opened returns `-1` after the six increments; the repeated call with a readable
model file increments again and returns `0` with every reserved id at its
single-language value plus 2. -/
theorem loadModel_retry_shifts_twice :
    ∃ e1 e2, loadModel smallAssets closedModelEnv true sampleEngine =
        LoadOutcome.returned (-1) e1 ∧
      loadModel smallAssets goodModelEnv true e1 = LoadOutcome.returned 0 e2 ∧
      e2.g_whisper_tflite.is_whisper_tflite_initialized = true ∧
      e2.g_vocab.token_eot = sampleEngine.g_vocab.token_eot + 2 ∧
      e2.g_vocab.token_sot = sampleEngine.g_vocab.token_sot + 2 ∧
      e2.g_vocab.token_prev = sampleEngine.g_vocab.token_prev + 2 ∧
      e2.g_vocab.token_solm = sampleEngine.g_vocab.token_solm + 2 ∧
      e2.g_vocab.token_not = sampleEngine.g_vocab.token_not + 2 ∧
      e2.g_vocab.token_beg = sampleEngine.g_vocab.token_beg + 2 := by
  obtain ⟨e1, h1, ht1, -, -, -, a1, a2, a3, a4, a5, a6⟩ := loadModel_decoded smallAssets
    closedModelEnv true sampleEngine 1 2 [0, 1065353216] [ascii "a", ascii "b"]
    wellFormed_smallAsset (smallAssets_select true) rfl
  rw [loadModelBuffer_closed] at h1
  have hinit1 : e1.g_whisper_tflite.is_whisper_tflite_initialized = false := by rw [ht1]; rfl
  obtain ⟨e2, h2, -, -, -, -, b1, b2, b3, b4, b5, b6⟩ := loadModel_decoded smallAssets
    goodModelEnv true e1 1 2 [0, 1065353216] [ascii "a", ascii "b"]
    wellFormed_smallAsset (smallAssets_select true) hinit1
  rw [loadModelBuffer_good] at h2
  refine ⟨e1, _, h1, h2, rfl, ?_, ?_, ?_, ?_, ?_, ?_⟩
  · show e2.g_vocab.token_eot = _
    rw [b1, a1]; simp; ring
  · show e2.g_vocab.token_sot = _
    rw [b2, a2]; simp; ring
  · show e2.g_vocab.token_prev = _
    rw [b3, a3]; simp; ring
  · show e2.g_vocab.token_solm = _
    rw [b4, a4]; simp; ring
  · show e2.g_vocab.token_not = _
    rw [b5, a5]; simp; ring
  · show e2.g_vocab.token_beg = _
    rw [b6, a6]; simp; ring

/-- C12: once the initialised flag is set, `loadModel` returns `0` for every model path
and either mode flag and leaves the engine (filters, table, reserved ids, model buffer,
flag) exactly as it was. -/
theorem loadModel_idempotent (assets : Assets) (env : ModelEnv) (isMultilingual : Bool)
    (e : TFLiteEngine) (hinit : e.g_whisper_tflite.is_whisper_tflite_initialized = true) :
    loadModel assets env isMultilingual e = LoadOutcome.returned 0 e := by
  unfold loadModel
  simp [hinit]

theorem loadModel_idempotent_witness :
    loadModel badMagicAssets closedModelEnv false readyEngine =
      LoadOutcome.returned 0 readyEngine :=
  loadModel_idempotent badMagicAssets closedModelEnv false readyEngine rfl

/-- C13 (failing input): the model file opens but `read` fails; `loadModel` goes on with
the partly filled buffer, the inference engine is built from it, and the call returns `0`
with the initialised flag set. -/
theorem loadModel_short_read_succeeds :
    shortReadEnv.is_open = true ∧ shortReadEnv.readOk = false ∧
    ∃ e2, loadModel smallAssets shortReadEnv false sampleEngine = LoadOutcome.returned 0 e2 ∧
      e2.g_whisper_tflite.is_whisper_tflite_initialized = true ∧
      e2.g_whisper_tflite.model = true ∧
      e2.g_whisper_tflite.buffer = some shortReadEnv.partialBuffer := by
  obtain ⟨e1, h1, -⟩ := loadModel_decoded smallAssets shortReadEnv false sampleEngine 1 2
    [0, 1065353216] [ascii "a", ascii "b"] wellFormed_smallAsset (smallAssets_select false) rfl
  rw [loadModelBuffer_shortRead] at h1
  exact ⟨rfl, rfl, _, h1, rfl, rfl, rfl⟩

/-- The part of C13 that holds: a model file that cannot be opened makes `loadModel`
return `-1` without touching the members of `g_whisper_tflite`. -/
theorem loadModel_unopened (assets : Assets) (env : ModelEnv) (isMultilingual : Bool)
    (e : TFLiteEngine) (melBinCount fftSize : Nat) (coefficients : List Nat)
    (words : List Bytes) (hwf : WellFormedAsset melBinCount fftSize coefficients words)
    (hsel : assets.select isMultilingual = encodeAsset melBinCount fftSize coefficients words)
    (hinit : e.g_whisper_tflite.is_whisper_tflite_initialized = false)
    (hopen : env.is_open = false) :
    ∃ e1, loadModel assets env isMultilingual e = LoadOutcome.returned (-1) e1 ∧
      e1.g_whisper_tflite = e.g_whisper_tflite := by
  obtain ⟨e1, h1, ht, -⟩ := loadModel_decoded assets env isMultilingual e melBinCount fftSize
    coefficients words hwf hsel hinit
  refine ⟨e1, ?_, ht⟩
  rw [h1]
  unfold loadModelBuffer
  simp [hopen]

/-- C14 (failing input): `freeModel` leaves the buffer pointer as it is, so a second call
on a Ready engine calls `delete[]` on the same buffer again; on an engine without buffer
nothing is released. -/
theorem freeModel_twice_releases_twice :
    freeModel sampleEngine = (sampleEngine, []) ∧
    (freeModel readyEngine).2 = [[1, 2, 3]] ∧
    (freeModel (freeModel readyEngine).1).2 = [[1, 2, 3]] ∧
    (freeModel readyEngine).2 ++ (freeModel (freeModel readyEngine).1).2 =
      [[1, 2, 3], [1, 2, 3]] :=
  ⟨rfl, rfl, rfl, rfl⟩

/-- The engine after `freeModel` is the engine before it, owned pointer included. -/
theorem freeModel_engine (e : TFLiteEngine) : (freeModel e).1 = e := by
  unfold freeModel
  split <;> rfl

/-- Whenever the header declares fewer than 8 bits per sample, or no channel,
`readWAVFile` divides by zero once the data chunk is found. -/
theorem readWAVFile_zero_divisor (u : Uninit) (bytes : Bytes) (h : WAVHeader) (chunk_size : Nat)
    (s : IfStream) (hloc : locateData u bytes = some (h, chunk_size, s))
    (hzero : h.bits_per_sample < 8 ∨ h.num_channels = 0) :
    readWAVFile u (some bytes) = Except.error WavFault.divByZero := by
  have hsamples : readSamples h chunk_size s = Except.error WavFault.divByZero := by
    unfold readSamples
    rcases hzero with hb | hc
    · have : h.bits_per_sample / 8 = 0 := by omega
      simp only [this, if_true]
    · by_cases hb : h.bits_per_sample / 8 = 0
      · simp only [hb, if_true]
      · simp only [hb, hc, if_true, if_false]
  unfold readWAVFile
  simp only [hloc, hsamples]

set_option maxRecDepth 100000 in
/-- C15 (failing inputs): a file that passes tag validation, has a data chunk and declares
0 bits per sample makes `readWAVFile` compute `chunk_size / 0`; a file that declares 0
channels makes it compute `num_samples_total / 0`. No sample buffer is returned. -/
theorem readWAVFile_not_total :
    locateData zeroUninit zeroBitWav =
      some (parseHeader zeroBitWav, 4, { file := zeroBitWav, pos := 44, good := true }) ∧
    (parseHeader zeroBitWav).bits_per_sample = 0 ∧
    readWAVFile zeroUninit (some zeroBitWav) = Except.error WavFault.divByZero ∧
    locateData zeroUninit zeroChannelWav =
      some (parseHeader zeroChannelWav, 4,
        { file := zeroChannelWav, pos := 44, good := true }) ∧
    (parseHeader zeroChannelWav).num_channels = 0 ∧
    (parseHeader zeroChannelWav).bits_per_sample = 16 ∧
    readWAVFile zeroUninit (some zeroChannelWav) = Except.error WavFault.divByZero := by
  decide

/-! ## The decoded table -/

theorem lookup_insertWords_of_lt (ws : List Bytes) (i a : Int)
    (m : AList (fun _ : Int => Bytes)) (h : a < i) :
    (insertWords ws i m).lookup a = m.lookup a := by
  induction ws generalizing i m with
  | nil => rfl
  | cons w ws ih =>
    simp only [insertWords]
    rw [ih (i + 1) _ (by omega), AList.lookup_insert_ne (by omega)]

theorem lookup_insertWords (ws : List Bytes) (i : Int) (m : AList (fun _ : Int => Bytes))
    (j : Nat) (hj : j < ws.length) :
    (insertWords ws i m).lookup (i + (j : Int)) = some ws[j] := by
  induction ws generalizing i m j with
  | nil => exact absurd hj (by simp)
  | cons w ws ih =>
    simp only [insertWords]
    cases j with
    | zero =>
      rw [Nat.cast_zero, add_zero, lookup_insertWords_of_lt ws (i + 1) i _ (by omega),
        AList.lookup_insert]
      rfl
    | succ j =>
      have hj' : j < ws.length := by
        simp only [List.length_cons] at hj
        omega
      have hidx : i + ((j + 1 : Nat) : Int) = (i + 1) + (j : Int) := by
        push_cast
        ring
      rw [hidx, ih (i + 1) _ j hj']
      rfl

theorem lookup_addTail_of_lt (v : whisper_vocab) (k : Nat) (i a : Int)
    (m : AList (fun _ : Int => Bytes)) (h : a < i) :
    (addTail v k i m).lookup a = m.lookup a := by
  induction k generalizing i m with
  | zero => rfl
  | succ k ih =>
    simp only [addTail]
    rw [ih (i + 1) _ (by omega), AList.lookup_insert_ne (by omega)]

theorem lookup_addTail (v : whisper_vocab) (k : Nat) (i a : Int)
    (m : AList (fun _ : Int => Bytes)) (h1 : i ≤ a) (h2 : a < i + k) :
    (addTail v k i m).lookup a = some (tailWord v a) := by
  induction k generalizing i m with
  | zero =>
    simp only [Nat.cast_zero, add_zero] at h2
    omega
  | succ k ih =>
    simp only [addTail]
    by_cases ha : a = i
    · subst ha
      rw [lookup_addTail_of_lt v k (a + 1) a _ (by omega), AList.lookup_insert]
    · have h2' : a < i + 1 + (k : Int) := by
        push_cast at h2
        omega
      exact ih (i + 1) _ (by omega) h2'

/-- C16 (amended): for every asset in the layout
`[magic][melBinCount][fftSize][coefficients][n][n x (len, bytes)]` whose counts and lengths
fit the `int` fields, with `melBinCount * fftSize < 2 ^ 31` coefficients, decoding in
`loadModel` yields filters with those `melBinCount` and `fftSize` and exactly the encoded
coefficients, and a table whose entry at key `i` is the `i`-th byte string for every
`i < n`: the synthesised tail leaves these entries unchanged. -/
theorem loadModel_roundtrip (assets : Assets) (env : ModelEnv) (isMultilingual : Bool)
    (e : TFLiteEngine) (melBinCount fftSize : Nat) (coefficients : List Nat)
    (words : List Bytes) (hwf : WellFormedAsset melBinCount fftSize coefficients words)
    (hsel : assets.select isMultilingual = encodeAsset melBinCount fftSize coefficients words)
    (hinit : e.g_whisper_tflite.is_whisper_tflite_initialized = false) :
    ∃ e2, (loadModel assets env isMultilingual e).engine? = some e2 ∧
      e2.filters.n_mel = melBinCount ∧ e2.filters.n_fft = fftSize ∧
      e2.filters.data = coefficients ∧ e2.filters.data.length = melBinCount * fftSize ∧
      ∀ (i : Nat) (hi : i < words.length),
        e2.g_vocab.id_to_token.lookup (i : Int) = some words[i] := by
  obtain ⟨e1, h1, -, -, hf, htab, -⟩ := loadModel_decoded assets env isMultilingual e
    melBinCount fftSize coefficients words hwf hsel hinit
  obtain ⟨e2, he2, hv, hfil⟩ := loadModelBuffer_vocab env e1
  rw [← h1] at he2
  refine ⟨e2, he2, by rw [hfil, hf], by rw [hfil, hf], by rw [hfil, hf], ?_, ?_⟩
  · rw [hfil, hf]
    exact hwf.2.2.2.1
  · intro i hi
    have hlt : (i : Int) < (words.length : Int) := by exact_mod_cast hi
    rw [hv, htab, lookup_addTail_of_lt _ _ _ _ _ hlt]
    have := lookup_insertWords words 0 e.g_vocab.id_to_token i hi
    rw [zero_add] at this
    exact this

theorem loadModel_roundtrip_witness :
    ∃ e2, (loadModel smallAssets goodModelEnv false sampleEngine).engine? = some e2 ∧
      e2.filters.n_mel = (1 : Nat) ∧ e2.filters.n_fft = (2 : Nat) ∧
      e2.filters.data = [0, 1065353216] ∧ e2.filters.data.length = 1 * 2 ∧
      ∀ (i : Nat) (hi : i < [ascii "a", ascii "b"].length),
        e2.g_vocab.id_to_token.lookup (i : Int) = some [ascii "a", ascii "b"][i] :=
  loadModel_roundtrip smallAssets goodModelEnv false sampleEngine 1 2 [0, 1065353216]
    [ascii "a", ascii "b"] wellFormed_smallAsset (smallAssets_select false) rfl

/-- The product `n_mel * n_fft` of two `int` values that does not fit an `int`. -/
theorem decodeAsset_overflow (a b : Nat) (rest : Bytes) (isMultilingual : Bool)
    (e : TFLiteEngine) (ha : a < 2 ^ 31) (hb : b < 2 ^ 31) (hprod : 2 ^ 31 ≤ a * b) :
    decodeAsset (le32 a ++ (le32 b ++ rest)) isMultilingual e = none := by
  have hcheck : ((a : Int) * (b : Int) < 0 ∨ (2 : Int) ^ 31 ≤ (a : Int) * (b : Int)) := by
    right
    exact_mod_cast hprod
  unfold decodeAsset
  simp only [takeInt_le32 a _ ha, takeInt_le32 b _ hb, if_pos hcheck]

theorem loadModel_of_decode_none (assets : Assets) (env : ModelEnv) (isMultilingual : Bool)
    (e : TFLiteEngine) (p : Bytes)
    (hinit : e.g_whisper_tflite.is_whisper_tflite_initialized = false)
    (hsel : assets.select isMultilingual = le32 0x57535052 ++ p)
    (hdec : decodeAsset p isMultilingual e = none) :
    loadModel assets env isMultilingual e = LoadOutcome.undefined := by
  unfold Assets.select at hsel
  unfold loadModel
  simp only [hinit, Bool.not_false, if_true, hsel, takeInt_magic, hdec]
  simp

/-- C16 (as stated) fails: for `melBinCount = fftSize = 65536` and a coefficient list of
length `melBinCount * fftSize`, the product computed in `int` overflows and `loadModel`
yields no filter bank. -/
theorem loadModel_filter_count_overflows :
    (List.replicate (65536 * 65536) 0).length = 65536 * 65536 ∧
    overflowAssets.select false =
      encodeAsset 65536 65536 (List.replicate (65536 * 65536) 0) [] ∧
    loadModel overflowAssets goodModelEnv false sampleEngine = LoadOutcome.undefined := by
  refine ⟨List.length_replicate _ _, rfl, ?_⟩
  have hsel : overflowAssets.select false = le32 0x57535052 ++ (le32 65536 ++ (le32 65536 ++
        ((List.map le32 (List.replicate (65536 * 65536) 0)).flatten ++
          (le32 ([] : List Bytes).length ++ encodeVocab [])))) := by
    show overflowAsset = _
    unfold overflowAsset encodeAsset
    simp only [List.append_assoc]
  exact loadModel_of_decode_none overflowAssets goodModelEnv false sampleEngine _ rfl hsel
    (decodeAsset_overflow 65536 65536 _ false sampleEngine
      (by norm_num) (by norm_num) (by norm_num))

/-! ## The synthesised tail -/

/-- The strings of the tail of the table `loadModel` leaves, for a well-formed asset on an
engine that is not initialised. -/
theorem loadModel_tail (assets : Assets) (env : ModelEnv) (isMultilingual : Bool)
    (e : TFLiteEngine) (melBinCount fftSize : Nat) (coefficients : List Nat)
    (words : List Bytes) (hwf : WellFormedAsset melBinCount fftSize coefficients words)
    (hsel : assets.select isMultilingual = encodeAsset melBinCount fftSize coefficients words)
    (hinit : e.g_whisper_tflite.is_whisper_tflite_initialized = false) :
    ∃ e2, (loadModel assets env isMultilingual e).engine? = some e2 ∧
      e2.g_vocab.token_eot = e.g_vocab.token_eot + (if isMultilingual then 1 else 0) ∧
      e2.g_vocab.token_sot = e.g_vocab.token_sot + (if isMultilingual then 1 else 0) ∧
      e2.g_vocab.token_prev = e.g_vocab.token_prev + (if isMultilingual then 1 else 0) ∧
      e2.g_vocab.token_solm = e.g_vocab.token_solm + (if isMultilingual then 1 else 0) ∧
      e2.g_vocab.token_not = e.g_vocab.token_not + (if isMultilingual then 1 else 0) ∧
      e2.g_vocab.token_beg = e.g_vocab.token_beg + (if isMultilingual then 1 else 0) ∧
      ∀ i : Int, (words.length : Int) ≤ i → i < totalVocabSize isMultilingual →
        e2.g_vocab.id_to_token.lookup i = some (tailWord e2.g_vocab i) := by
  obtain ⟨e1, h1, -, -, -, htab, a1, a2, a3, a4, a5, a6⟩ := loadModel_decoded assets env
    isMultilingual e melBinCount fftSize coefficients words hwf hsel hinit
  obtain ⟨e2, he2, hv, -⟩ := loadModelBuffer_vocab env e1
  rw [← h1] at he2
  refine ⟨e2, he2, by rw [hv, a1], by rw [hv, a2], by rw [hv, a3], by rw [hv, a4],
    by rw [hv, a5], by rw [hv, a6], ?_⟩
  intro i hlo hhi
  have hk : (((totalVocabSize isMultilingual - (words.length : Int)).toNat : Nat) : Int) =
      totalVocabSize isMultilingual - (words.length : Int) :=
    Int.toNat_of_nonneg (by omega)
  rw [hv, htab]
  exact lookup_addTail _ _ _ _ _ hlo (by rw [hk]; omega)

/-- C17 (failing input): in the table `loadModel` builds in single-language mode on a
fresh engine, the index of the start-of-language-marker id, 50361, holds an
"extra token" placeholder: the tail loop has no branch for `token_solm`. -/
theorem loadModel_solm_is_extra_token :
    ∃ e2, (loadModel smallAssets goodModelEnv false sampleEngine).engine? = some e2 ∧
      e2.g_vocab.token_solm = 50361 ∧
      e2.g_vocab.id_to_token.lookup 50361 = some (ascii "[_extra_token_50361]") := by
  obtain ⟨e2, he2, b1, b2, b3, b4, b5, b6, htail⟩ := loadModel_tail smallAssets goodModelEnv
    false sampleEngine 1 2 [0, 1065353216] [ascii "a", ascii "b"] wellFormed_smallAsset
    (smallAssets_select false) rfl
  refine ⟨e2, he2, by rw [b4]; rfl, ?_⟩
  rw [htail 50361 (by simp) (by simp [totalVocabSize]),
    tailWord_congr e2.g_vocab sampleEngine.g_vocab 50361 (by rw [b1]; rfl) (by rw [b2]; rfl)
      (by rw [b3]; rfl) (by rw [b5]; rfl) (by rw [b6]; rfl)]
  decide

/-- C18: in the table `loadModel` builds, with `beg` the begin-timestamp id after the
mode-dependent shift, every index `i` of `[n, totalVocabSize)` above `beg` holds
`"[_TT_" ++ decimal (i - beg) ++ "]"`, and every index `i ≤ beg` of that range that is
none of the six reserved ids holds `"[_extra_token_" ++ decimal i ++ "]"`. -/
theorem loadModel_tail_strings (assets : Assets) (env : ModelEnv) (isMultilingual : Bool)
    (e : TFLiteEngine) (melBinCount fftSize : Nat) (coefficients : List Nat)
    (words : List Bytes) (hwf : WellFormedAsset melBinCount fftSize coefficients words)
    (hsel : assets.select isMultilingual = encodeAsset melBinCount fftSize coefficients words)
    (hinit : e.g_whisper_tflite.is_whisper_tflite_initialized = false) :
    ∃ e2, (loadModel assets env isMultilingual e).engine? = some e2 ∧
      e2.g_vocab.token_beg = e.g_vocab.token_beg + (if isMultilingual then 1 else 0) ∧
      ∀ i : Int, (words.length : Int) ≤ i → i < totalVocabSize isMultilingual →
        (e2.g_vocab.token_beg < i →
          e2.g_vocab.id_to_token.lookup i =
            some (ascii ("[_TT_" ++ toString (i - e2.g_vocab.token_beg) ++ "]"))) ∧
        (i ≤ e2.g_vocab.token_beg → i ≠ e2.g_vocab.token_eot → i ≠ e2.g_vocab.token_sot →
          i ≠ e2.g_vocab.token_prev → i ≠ e2.g_vocab.token_solm →
          i ≠ e2.g_vocab.token_not → i ≠ e2.g_vocab.token_beg →
          e2.g_vocab.id_to_token.lookup i =
            some (ascii ("[_extra_token_" ++ toString i ++ "]"))) := by
  obtain ⟨e2, he2, -, -, -, -, -, b6, htail⟩ := loadModel_tail assets env isMultilingual e
    melBinCount fftSize coefficients words hwf hsel hinit
  refine ⟨e2, he2, b6, ?_⟩
  intro i hlo hhi
  rw [htail i hlo hhi]
  constructor
  · intro hgt
    have hgt' : i > e2.g_vocab.token_beg := hgt
    simp only [tailWord, if_pos hgt']
  · intro hle h1 h2 h3 _ h5 h6
    have hngt : ¬ (i > e2.g_vocab.token_beg) := by omega
    simp only [tailWord, if_neg hngt, if_neg h1, if_neg h2, if_neg h3, if_neg h5, if_neg h6]

theorem loadModel_tail_strings_witness :
    ∃ e2, (loadModel smallAssets goodModelEnv true sampleEngine).engine? = some e2 ∧
      e2.g_vocab.token_beg = sampleEngine.g_vocab.token_beg + (if true = true then 1 else 0) ∧
      ∀ i : Int, ([ascii "a", ascii "b"].length : Int) ≤ i → i < totalVocabSize true →
        (e2.g_vocab.token_beg < i →
          e2.g_vocab.id_to_token.lookup i =
            some (ascii ("[_TT_" ++ toString (i - e2.g_vocab.token_beg) ++ "]"))) ∧
        (i ≤ e2.g_vocab.token_beg → i ≠ e2.g_vocab.token_eot → i ≠ e2.g_vocab.token_sot →
          i ≠ e2.g_vocab.token_prev → i ≠ e2.g_vocab.token_solm →
          i ≠ e2.g_vocab.token_not → i ≠ e2.g_vocab.token_beg →
          e2.g_vocab.id_to_token.lookup i =
            some (ascii ("[_extra_token_" ++ toString i ++ "]"))) :=
  loadModel_tail_strings smallAssets goodModelEnv true sampleEngine 1 2 [0, 1065353216]
    [ascii "a", ascii "b"] wellFormed_smallAsset (smallAssets_select true) rfl

/-! ## Interpolated values -/

/-- The fractional part of `i / 2`, computed as at line 164. -/
theorem frac_half (i : Nat) (hi : i ≤ 2 ^ 24) :
    F32.sub (F32.fin ((i : Int) * 2 ^ 148)) (F32.ofInt ((i / 2 : Nat) : Int)) =
      F32.fin (((i % 2 : Nat) : Int) * 2 ^ 148) := by
  have hhalf : i / 2 ≤ 2 ^ 24 := le_trans (Nat.div_le_self i 2) hi
  rw [ofNat_exact (i / 2) hhalf]
  show F32.add (F32.fin ((i : Int) * 2 ^ 148)) (F32.fin (-(((i / 2 : Nat) : Int) * 2 ^ 149))) = _
  apply add_dyadic
  · have hdm : (i : Int) = 2 * ((i / 2 : Nat) : Int) + ((i % 2 : Nat) : Int) := by
      exact_mod_cast (Nat.div_add_mod i 2).symm
    have h149 : (2 : Int) ^ 149 = 2 * 2 ^ 148 := by norm_num
    rw [h149]
    conv_lhs => rw [hdm]
    ring
  · rw [Int.natAbs_ofNat]
    have : i % 2 < 2 := Nat.mod_lt _ (by norm_num)
    have h2 : (2 : Nat) ≤ 2 ^ 24 := by norm_num
    omega
  · norm_num

set_option maxRecDepth 100000 in
theorem one_sub_zero : F32.sub (F32.ofInt 1) (F32.fin 0) = F32.fin (2 ^ 149) := by decide

set_option maxRecDepth 100000 in
theorem one_sub_half : F32.sub (F32.ofInt 1) (F32.fin (2 ^ 148)) = F32.fin (2 ^ 148) := by
  decide

theorem pcmFloat_exact (s : Int) (hs : s.natAbs ≤ 2 ^ 15) : pcmFloat s = F32.fin (s * 2 ^ 134) :=
  sample_div_exact s hs

theorem lerp_even (a b : Int) (ha : a.natAbs ≤ 2 ^ 15) :
    F32.add (F32.mul (F32.fin (a * 2 ^ 134)) (F32.fin (2 ^ 149)))
      (F32.mul (F32.fin (b * 2 ^ 134)) (F32.fin 0)) = F32.fin (a * 2 ^ 134) := by
  have ha' : a.natAbs ≤ 2 ^ 24 := le_trans ha (by norm_num)
  have h1 : 149 ≤ 134 + 149 := by norm_num
  have h2 : 134 + 149 - 149 ≤ 252 := by norm_num
  have h3 : 134 + 149 - 149 = 134 := by norm_num
  have hmul := mul_two_pow a 134 149 ha' h1 h2
  rw [h3] at hmul
  have hzero : F32.mul (F32.fin (b * 2 ^ 134)) (F32.fin 0) = F32.fin 0 := by
    show roundF32 (b * 2 ^ 134 * 0) (2 ^ 149) = _
    rw [mul_zero]
    exact roundF32_zero _ (Nat.pos_pow_of_pos _ (by norm_num))
  rw [hmul, hzero]
  exact add_dyadic _ _ a 134 (add_zero _) ha' (by norm_num)

theorem lerp_odd (a b : Int) (ha : a.natAbs ≤ 2 ^ 15) (hb : b.natAbs ≤ 2 ^ 15) :
    F32.add (F32.mul (F32.fin (a * 2 ^ 134)) (F32.fin (2 ^ 148)))
      (F32.mul (F32.fin (b * 2 ^ 134)) (F32.fin (2 ^ 148))) = F32.fin ((a + b) * 2 ^ 133) := by
  have ha' : a.natAbs ≤ 2 ^ 24 := le_trans ha (by norm_num)
  have hb' : b.natAbs ≤ 2 ^ 24 := le_trans hb (by norm_num)
  have h1 : 149 ≤ 134 + 148 := by norm_num
  have h2 : 134 + 148 - 149 ≤ 252 := by norm_num
  have h3 : 134 + 148 - 149 = 133 := by norm_num
  have hmula := mul_two_pow a 134 148 ha' h1 h2
  have hmulb := mul_two_pow b 134 148 hb' h1 h2
  rw [h3] at hmula hmulb
  rw [hmula, hmulb]
  have hsum : (a + b).natAbs ≤ 2 ^ 24 := by
    have := Int.natAbs_add_le a b
    have h16 : (2 : Nat) ^ 15 + 2 ^ 15 ≤ 2 ^ 24 := by norm_num
    omega
  exact add_dyadic _ _ (a + b) 133 (by ring) hsum (by norm_num)

theorem toRat_midpoint (a b : Int) :
    F32.toRat? (F32.fin ((a + b) * 2 ^ 133)) =
      some (((a : ℚ) / 32768 + (b : ℚ) / 32768) / 2) := by
  have h : (2 : ℚ) ^ 149 = 65536 * 2 ^ 133 := by norm_num
  unfold F32.toRat?
  rw [Option.some.injEq, Int.cast_mul, Int.cast_pow, Int.cast_ofNat, h,
    mul_div_mul_right _ _ (by positivity)]
  push_cast
  ring

theorem resample_8000_ok (float_samples : List F32) (hlen : float_samples.length ≤ 2 ^ 23) :
    ∃ out, resample float_samples 8000 = Except.ok out ∧
      out.length = 2 * float_samples.length := by
  have hsize := resampleSize_8000 float_samples.length (le_trans hlen (by norm_num))
  obtain ⟨out, hout⟩ := resampleLoop_ok float_samples (F32.fin (2 ^ 148))
    (List.range (2 * float_samples.length)) (by
      intro i hi
      have hi' : i < 2 * float_samples.length := List.mem_range.mp hi
      exact resampleAt_8000 float_samples i hi' (by
        have : 2 * float_samples.length ≤ 2 * 2 ^ 23 := Nat.mul_le_mul_left 2 hlen
        have h24 : (2 : Nat) * 2 ^ 23 = 2 ^ 24 := by norm_num
        omega))
  refine ⟨out, ?_, ?_⟩
  · unfold resample
    rw [if_pos (by norm_num)]
    simp only [show ((8000 : Nat) : Int) = 8000 from rfl, ratio_8000, hsize, hout]
  · rw [resampleLoop_length _ _ _ _ hout, List.length_range]

theorem get?_map_pcmFloat (samples : List Int) (j : Nat) (hj : j < samples.length) :
    (samples.map pcmFloat).get? j = some (pcmFloat samples[j]) := by
  rw [List.get?_eq_getElem?, List.getElem?_map, List.getElem?_eq_getElem hj]
  rfl

/-- The loop body at 8000 Hz, up to the test for a right neighbour. -/
theorem resampleAt_8000_unfold (float_samples : List F32) (i : Nat) (h24 : i ≤ 2 ^ 24) :
    resampleAt float_samples (F32.fin (2 ^ 148)) i =
      if i / 2 + 1 < float_samples.length then
        match float_samples.get? (i / 2), float_samples.get? (i / 2 + 1) with
        | some a, some b =>
          Except.ok (F32.add
            (F32.mul a (F32.sub (F32.ofInt 1) (F32.fin (((i % 2 : Nat) : Int) * 2 ^ 148))))
            (F32.mul b (F32.fin (((i % 2 : Nat) : Int) * 2 ^ 148))))
        | _, _ => Except.error WavFault.outOfBounds
      else
        match float_samples.get? (i / 2) with
        | some a => Except.ok a
        | none => Except.error WavFault.outOfBounds := by
  have h1 : 149 ≤ 149 + 148 := by norm_num
  have h2 : 149 + 148 - 149 ≤ 252 := by norm_num
  have hmul := mul_two_pow (i : Int) 149 148 (by rw [Int.natAbs_ofNat]; exact h24) h1 h2
  have h3 : 149 + 148 - 149 = 148 := by norm_num
  rw [h3] at hmul
  have hmod : (i / 2 + 1) % 2 ^ 32 = i / 2 + 1 := Nat.mod_eq_of_lt (by omega)
  unfold resampleAt
  simp only [ofNat_exact i h24, hmul, toUInt32_half i (by omega), hmod, frac_half i h24]

theorem resampleAt_8000_held (samples : List Int) (i : Nat) (h24 : i ≤ 2 ^ 24)
    (hi : i / 2 < samples.length) (hlast : ¬ (i / 2 + 1 < samples.length)) :
    resampleAt (samples.map pcmFloat) (F32.fin (2 ^ 148)) i =
      Except.ok (pcmFloat samples[i / 2]) := by
  rw [resampleAt_8000_unfold _ i h24, List.length_map, if_neg hlast,
    get?_map_pcmFloat samples (i / 2) hi]

theorem resampleAt_8000_even (samples : List Int) (i : Nat) (h24 : i ≤ 2 ^ 24)
    (hs : ∀ s ∈ samples, s.natAbs ≤ 2 ^ 15) (heven : i % 2 = 0)
    (hnext : i / 2 + 1 < samples.length) :
    resampleAt (samples.map pcmFloat) (F32.fin (2 ^ 148)) i =
      Except.ok (F32.fin (samples[i / 2] * 2 ^ 134)) := by
  have ha := hs samples[i / 2] (List.getElem_mem _)
  have hb := hs samples[i / 2 + 1] (List.getElem_mem _)
  rw [resampleAt_8000_unfold _ i h24, List.length_map, if_pos hnext,
    get?_map_pcmFloat samples (i / 2) (by omega), get?_map_pcmFloat samples (i / 2 + 1) hnext]
  simp only [heven, Nat.cast_zero, zero_mul, one_sub_zero, pcmFloat_exact _ ha,
    pcmFloat_exact _ hb, lerp_even _ _ ha]

theorem resampleAt_8000_odd (samples : List Int) (i : Nat) (h24 : i ≤ 2 ^ 24)
    (hs : ∀ s ∈ samples, s.natAbs ≤ 2 ^ 15) (hodd : i % 2 = 1)
    (hnext : i / 2 + 1 < samples.length) :
    resampleAt (samples.map pcmFloat) (F32.fin (2 ^ 148)) i =
      Except.ok (F32.fin ((samples[i / 2] + samples[i / 2 + 1]) * 2 ^ 133)) := by
  have ha := hs samples[i / 2] (List.getElem_mem _)
  have hb := hs samples[i / 2 + 1] (List.getElem_mem _)
  rw [resampleAt_8000_unfold _ i h24, List.length_map, if_pos hnext,
    get?_map_pcmFloat samples (i / 2) (by omega), get?_map_pcmFloat samples (i / 2 + 1) hnext]
  simp only [hodd, Nat.cast_one, one_mul, one_sub_half, pcmFloat_exact _ ha,
    pcmFloat_exact _ hb, lerp_odd _ _ ha hb]

theorem split_units (s rem P : ℚ) (h : 2 ^ 149 * s + rem = P) (h0 : 0 ≤ rem)
    (h1 : rem < 2 ^ 149) :
    s ≤ P / 2 ^ 149 ∧ P / 2 ^ 149 < s + 1 ∧ rem / 2 ^ 149 = P / 2 ^ 149 - s := by
  have hU : (0 : ℚ) < 2 ^ 149 := by positivity
  refine ⟨?_, ?_, ?_⟩
  · rw [le_div_iff₀ hU]
    linarith
  · rw [div_lt_iff₀ hU]
    linarith
  · rw [div_sub' _ _ _ (ne_of_gt hU), div_left_inj' (ne_of_gt hU)]
    linarith

/-- The rational value of a non-negative finite float of `p` units, its integer part and
its fractional part, and its distance from `i * r / 16000`. -/
theorem toRat_index (p i r : Nat)
    (hup : 2 ^ 22 * (16000 * p) ≤ (2 ^ 22 + 1) * (i * r * 2 ^ 149))
    (hlo : (2 ^ 22 - 1) * (i * r * 2 ^ 149) ≤ 2 ^ 22 * (16000 * p)) :
    F32.toRat? (F32.fin (p : Int)) = some ((p : ℚ) / 2 ^ 149) ∧
    |(p : ℚ) / 2 ^ 149 - (i : ℚ) * r / 16000| ≤ (i : ℚ) * r / 16000 / 2 ^ 22 ∧
    ((p / 2 ^ 149 : Nat) : Int) = ⌊(p : ℚ) / 2 ^ 149⌋ ∧
    F32.toRat? (F32.fin ((p % 2 ^ 149 : Nat) : Int)) =
      some ((p : ℚ) / 2 ^ 149 - ((p / 2 ^ 149 : Nat) : ℚ)) := by
  have hU : (0 : ℚ) < 2 ^ 149 := by positivity
  have hdm := Nat.div_add_mod p (2 ^ 149)
  have hmod := Nat.mod_lt p (show 0 < 2 ^ 149 by norm_num)
  have hdmq : (2 : ℚ) ^ 149 * ((p / 2 ^ 149 : Nat) : ℚ) + ((p % 2 ^ 149 : Nat) : ℚ) = (p : ℚ) := by
    exact_mod_cast hdm
  have hmodq : ((p % 2 ^ 149 : Nat) : ℚ) < 2 ^ 149 := by exact_mod_cast hmod
  have hmod0 : (0 : ℚ) ≤ ((p % 2 ^ 149 : Nat) : ℚ) := Nat.cast_nonneg _
  have hupq : (2 : ℚ) ^ 22 * (16000 * (p : ℚ)) ≤ (2 ^ 22 + 1) * ((i : ℚ) * r * 2 ^ 149) := by
    exact_mod_cast hup
  have hloq : ((2 : ℚ) ^ 22 - 1) * ((i : ℚ) * r * 2 ^ 149) ≤ 2 ^ 22 * (16000 * (p : ℚ)) := by
    have h : (((2 ^ 22 - 1 : Nat) : ℚ)) * ((i : ℚ) * r * 2 ^ 149) ≤ 2 ^ 22 * (16000 * (p : ℚ)) := by
      exact_mod_cast hlo
    have hc : ((2 ^ 22 - 1 : Nat) : ℚ) = (2 : ℚ) ^ 22 - 1 := by norm_num
    rw [hc] at h
    exact h
  have hsplit := split_units _ _ _ hdmq hmod0 hmodq
  refine ⟨?_, ?_, ?_, ?_⟩
  · simp only [F32.toRat?, Int.cast_natCast]
  · rw [abs_le]
    constructor
    · rw [le_sub_iff_add_le, le_div_iff₀ hU]
      have : (-((i : ℚ) * r / 16000 / 2 ^ 22) + (i : ℚ) * r / 16000) * 2 ^ 149 =
          ((2 : ℚ) ^ 22 - 1) * ((i : ℚ) * r * 2 ^ 149) / (2 ^ 22 * 16000) := by
        field_simp
        ring
      rw [this, div_le_iff₀ (by positivity)]
      linarith
    · rw [sub_le_iff_le_add, div_le_iff₀ hU]
      have : ((i : ℚ) * r / 16000 / 2 ^ 22 + (i : ℚ) * r / 16000) * 2 ^ 149 =
          ((2 : ℚ) ^ 22 + 1) * ((i : ℚ) * r * 2 ^ 149) / (2 ^ 22 * 16000) := by
        field_simp
        ring
      rw [this, le_div_iff₀ (by positivity)]
      linarith
  · symm
    rw [Int.floor_eq_iff, Int.cast_natCast]
    exact ⟨hsplit.1, hsplit.2.1⟩
  · simp only [F32.toRat?, Int.cast_natCast, Option.some.injEq]
    exact hsplit.2.2

/-- C19 (amended): for a buffer `x` of `L < 2 ^ 32` samples and a header rate
`0 < r < 2 ^ 32` other than 16000 with `L / (r / 16000) ≤ 2 ^ 21`, the resampling step
completes, and for every output index `i`, with `p` the single-precision product of `i` and
the single-precision ratio `r / 16000` (within a relative `2 ^ (-22)` of `i * r / 16000`),
`s = floor(p)` and `f = p - s` (computed without rounding): `s < L`, and the output is
`x[s] * (1 - f) + x[s+1] * f` evaluated in single precision when `s + 1 < L`, and `x[s]`
otherwise. For an 8000 Hz input of at most `2 ^ 23` 16-bit PCM samples, output `2k` equals
`x[k]` and output `2k+1` equals `(x[k] + x[k+1]) / 2` exactly, the last output holding the
last sample. -/
theorem resample_values (samples : List Int) :
    (∀ (x : List F32) (r : Nat), 0 < r → r < 2 ^ 32 → r ≠ 16000 → x.length < 2 ^ 32 →
      x.length * 16000 ≤ r * 2 ^ 21 →
      ∃ out, resample x r = Except.ok out ∧
        ∀ i, i < out.length → ∃ (s : Nat) (f : F32) (pq : ℚ),
          F32.toRat? (F32.mul (F32.ofInt i) (F32.div (F32.ofInt r) (F32.ofInt 16000))) =
            some pq ∧
          |pq - (i : ℚ) * r / 16000| ≤ (i : ℚ) * r / 16000 / 2 ^ 22 ∧
          (s : Int) = ⌊pq⌋ ∧
          f = F32.sub (F32.mul (F32.ofInt i) (F32.div (F32.ofInt r) (F32.ofInt 16000)))
            (F32.ofInt s) ∧
          F32.toRat? f = some (pq - s) ∧
          ∃ a, x[s]? = some a ∧
            (∀ b, x[s + 1]? = some b →
              out[i]? = some (F32.add (F32.mul a (F32.sub (F32.ofInt 1) f)) (F32.mul b f))) ∧
            (x.length ≤ s + 1 → out[i]? = some a)) ∧
    ((∀ s ∈ samples, s.natAbs ≤ 2 ^ 15) → samples.length ≤ 2 ^ 23 →
      ∃ out, resample (samples.map pcmFloat) 8000 = Except.ok out ∧
        out.length = 2 * samples.length ∧
        ∀ (k : Nat) (hk : k < samples.length),
          out[2 * k]? = (samples.map pcmFloat)[k]? ∧
          (out[2 * k]?).bind F32.toRat? = some ((samples[k] : ℚ) / 32768) ∧
          (∀ hk1 : k + 1 < samples.length,
            (out[2 * k + 1]?).bind F32.toRat? =
              some (((samples[k] : ℚ) / 32768 + (samples[k + 1] : ℚ) / 32768) / 2)) ∧
          (k + 1 = samples.length →
            (out[2 * k + 1]?).bind F32.toRat? = some ((samples[k] : ℚ) / 32768))) := by
  refine ⟨?_, ?_⟩
  · intro x r hr hr32 hrate hL hq
    obtain ⟨ρ, out, hratio, hres, -, -, -, hidx⟩ := resample_general x r hr hr32 hrate hL hq
    refine ⟨out, hres, ?_⟩
    intro i hi
    obtain ⟨m, e, hp, hm, he, hlt, hup, hlo, a, ha, hout⟩ := hidx i hi
    obtain ⟨hrat, herr, hfloor, hfrac⟩ := toRat_index (m * 2 ^ e) i r hup hlo
    refine ⟨m * 2 ^ e / 2 ^ 149, F32.fin ((m * 2 ^ e % 2 ^ 149 : Nat) : Int),
      ((m * 2 ^ e : Nat) : ℚ) / 2 ^ 149, ?_, herr, hfloor, ?_, hfrac, a, ha, ?_, ?_⟩
    · rw [hratio, hp]
      exact hrat
    · rw [hratio, hp]
      exact (frac_exact m e hm he).symm
    · intro b hb
      rw [hout]
      simp only [hb]
    · intro hlast
      have hnone : x[m * 2 ^ e / 2 ^ 149 + 1]? = none := List.getElem?_eq_none hlast
      rw [hout]
      simp only [hnone]
  intro hs hlen
  obtain ⟨out, hout, houtlen⟩ := resample_8000_ok (samples.map pcmFloat) (by
    rw [List.length_map]; exact hlen)
  rw [List.length_map] at houtlen
  refine ⟨out, hout, houtlen, ?_⟩
  intro k hk
  have hbound : 2 * samples.length ≤ 2 ^ 24 := by
    have : 2 * samples.length ≤ 2 * 2 ^ 23 := Nat.mul_le_mul_left 2 hlen
    have h24 : (2 : Nat) * 2 ^ 23 = 2 ^ 24 := by norm_num
    omega
  have hsk := hs samples[k] (List.getElem_mem _)
  have hi0 : 2 * k < out.length := by omega
  have hi1 : 2 * k + 1 < out.length := by omega
  have hv0 := resample_getElem _ 8000 out (by norm_num) hout (2 * k) hi0
  have hv1 := resample_getElem _ 8000 out (by norm_num) hout (2 * k + 1) hi1
  rw [show ((8000 : Nat) : Int) = 8000 from rfl, ratio_8000] at hv0 hv1
  have hd0 : 2 * k / 2 = k := by omega
  have hm0 : 2 * k % 2 = 0 := by omega
  have hd1 : (2 * k + 1) / 2 = k := by omega
  have hm1 : (2 * k + 1) % 2 = 1 := by omega
  have heven : out[2 * k] = F32.fin (samples[k] * 2 ^ 134) := by
    by_cases hnext : k + 1 < samples.length
    · have h := resampleAt_8000_even samples (2 * k) (by omega) hs hm0 (by rw [hd0]; exact hnext)
      rw [hv0] at h
      simp only [hd0] at h
      exact Except.ok.inj h
    · have h := resampleAt_8000_held samples (2 * k) (by omega) (by rw [hd0]; exact hk)
        (by rw [hd0]; exact hnext)
      rw [hv0] at h
      simp only [hd0] at h
      rw [Except.ok.inj h, pcmFloat_exact _ hsk]
  refine ⟨?_, ?_, ?_, ?_⟩
  · rw [List.getElem?_eq_getElem hi0, heven, List.getElem?_map, List.getElem?_eq_getElem hk,
      Option.map_some', pcmFloat_exact _ hsk]
  · rw [List.getElem?_eq_getElem hi0, heven, Option.some_bind, toRat_sample]
  · intro hk1
    have h := resampleAt_8000_odd samples (2 * k + 1) (by omega) hs hm1
      (by rw [hd1]; exact hk1)
    rw [hv1] at h
    simp only [hd1] at h
    rw [List.getElem?_eq_getElem hi1, Except.ok.inj h, Option.some_bind, toRat_midpoint]
  · intro hlast
    have h := resampleAt_8000_held samples (2 * k + 1) (by omega) (by rw [hd1]; exact hk)
      (by rw [hd1]; omega)
    rw [hv1] at h
    simp only [hd1] at h
    rw [List.getElem?_eq_getElem hi1, Except.ok.inj h, pcmFloat_exact _ hsk, Option.some_bind,
      toRat_sample]

theorem resample_values_witness :
    (∃ out, resample ([16384, -16384, 0, 8192, 100, -5].map pcmFloat) 44100 = Except.ok out ∧
      ∀ i, i < out.length → ∃ (s : Nat) (f : F32) (pq : ℚ),
        F32.toRat? (F32.mul (F32.ofInt i)
          (F32.div (F32.ofInt ((44100 : Nat) : Int)) (F32.ofInt 16000))) = some pq ∧
        |pq - (i : ℚ) * (44100 : Nat) / 16000| ≤ (i : ℚ) * (44100 : Nat) / 16000 / 2 ^ 22 ∧
        (s : Int) = ⌊pq⌋ ∧
        f = F32.sub (F32.mul (F32.ofInt i)
          (F32.div (F32.ofInt ((44100 : Nat) : Int)) (F32.ofInt 16000))) (F32.ofInt s) ∧
        F32.toRat? f = some (pq - s) ∧
        ∃ a, ([16384, -16384, 0, 8192, 100, -5].map pcmFloat)[s]? = some a ∧
          (∀ b, ([16384, -16384, 0, 8192, 100, -5].map pcmFloat)[s + 1]? = some b →
            out[i]? =
              some (F32.add (F32.mul a (F32.sub (F32.ofInt 1) f)) (F32.mul b f))) ∧
          (([16384, -16384, 0, 8192, 100, -5].map pcmFloat).length ≤ s + 1 →
            out[i]? = some a)) ∧
    (∃ out, resample ([16384, -16384].map pcmFloat) 8000 = Except.ok out ∧
      out.length = 2 * [(16384 : Int), -16384].length ∧
      ∀ (k : Nat) (hk : k < [(16384 : Int), -16384].length),
        out[2 * k]? = ([(16384 : Int), -16384].map pcmFloat)[k]? ∧
        (out[2 * k]?).bind F32.toRat? = some (([(16384 : Int), -16384][k] : ℚ) / 32768) ∧
        (∀ hk1 : k + 1 < [(16384 : Int), -16384].length,
          (out[2 * k + 1]?).bind F32.toRat? =
            some ((([(16384 : Int), -16384][k] : ℚ) / 32768 +
              ([(16384 : Int), -16384][k + 1] : ℚ) / 32768) / 2)) ∧
        (k + 1 = [(16384 : Int), -16384].length →
          (out[2 * k + 1]?).bind F32.toRat? =
            some (([(16384 : Int), -16384][k] : ℚ) / 32768))) :=
  ⟨(resample_values []).1 ([16384, -16384, 0, 8192, 100, -5].map pcmFloat) 44100
      (by norm_num) (by norm_num) (by norm_num) (by simp) (by simp),
    (resample_values [16384, -16384]).2 (by decide) (by decide)⟩

/-- The loop body when the source index and its right neighbour are inside the buffer. -/
theorem resampleAt_interpolated (float_samples : List F32) (ratio a b : F32) (i s : Nat)
    (hs : F32.toUInt32 (F32.mul (F32.ofInt i) ratio) = some s) (hs32 : s + 1 < 2 ^ 32)
    (hnext : s + 1 < float_samples.length) (ha : float_samples.get? s = some a)
    (hb : float_samples.get? (s + 1) = some b) :
    resampleAt float_samples ratio i =
      Except.ok (F32.add
        (F32.mul a (F32.sub (F32.ofInt 1)
          (F32.sub (F32.mul (F32.ofInt i) ratio) (F32.ofInt s))))
        (F32.mul b (F32.sub (F32.mul (F32.ofInt i) ratio) (F32.ofInt s)))) := by
  have hmod : (s + 1) % 2 ^ 32 = s + 1 := Nat.mod_eq_of_lt hs32
  unfold resampleAt
  simp only [hs, hmod, if_pos hnext, ha, hb]

theorem stepBuffer_length : stepBuffer.length = 3972 := by
  rw [stepBuffer, List.length_append, List.length_replicate]
  rfl

theorem stepBuffer_get_3968 : stepBuffer.get? 3968 = some F32.zero := by
  rw [List.get?_eq_getElem?, stepBuffer,
    List.getElem?_append_left (by rw [List.length_replicate]; norm_num),
    List.getElem?_replicate]
  simp

theorem stepBuffer_get_3969 : stepBuffer.get? (3968 + 1) = some (F32.fin (2 ^ 149)) := by
  rw [List.get?_eq_getElem?, stepBuffer,
    List.getElem?_append_right (by rw [List.length_replicate]), List.length_replicate]
  rfl

set_option maxRecDepth 100000 in
theorem sourceIndex_44100_1440 :
    F32.toUInt32 (F32.mul (F32.ofInt ((1440 : Nat) : Int))
      (F32.div (F32.ofInt ((44100 : Nat) : Int)) (F32.ofInt 16000))) = some 3968 := by
  decide

set_option maxRecDepth 100000 in
theorem lerp_44100_1440 :
    F32.add
      (F32.mul F32.zero (F32.sub (F32.ofInt 1)
        (F32.sub (F32.mul (F32.ofInt ((1440 : Nat) : Int))
          (F32.div (F32.ofInt ((44100 : Nat) : Int)) (F32.ofInt 16000)))
          (F32.ofInt ((3968 : Nat) : Int)))))
      (F32.mul (F32.fin (2 ^ 149))
        (F32.sub (F32.mul (F32.ofInt ((1440 : Nat) : Int))
          (F32.div (F32.ofInt ((44100 : Nat) : Int)) (F32.ofInt 16000)))
          (F32.ofInt ((3968 : Nat) : Int)))) =
      F32.fin (4095 * 2 ^ 137) := by
  decide

theorem resampleAt_stepBuffer :
    resampleAt stepBuffer (F32.div (F32.ofInt ((44100 : Nat) : Int)) (F32.ofInt 16000)) 1440 =
      Except.ok (F32.fin (4095 * 2 ^ 137)) := by
  rw [resampleAt_interpolated stepBuffer _ F32.zero (F32.fin (2 ^ 149)) 1440 3968
    sourceIndex_44100_1440 (by norm_num) (by rw [stepBuffer_length]; norm_num)
    stepBuffer_get_3968 stepBuffer_get_3969, lerp_44100_1440]

theorem exactInterpolation_tiny :
    exactInterpolation [1, 1 / 2 ^ 24] 8000 1 = (1 + 1 / 2 ^ 24) / 2 := by
  have hfloor : ⌊((1 : Nat) : ℚ) * (((8000 : Nat) : ℚ) / 16000)⌋ = 0 := by
    rw [Int.floor_eq_iff]
    constructor <;> norm_num
  unfold exactInterpolation
  simp only [hfloor]
  norm_num

theorem exactInterpolation_step :
    exactInterpolation (List.replicate 3969 0 ++ [1, 0, 0]) 44100 1440 = 1 := by
  have hfloor : ⌊((1440 : Nat) : ℚ) * (((44100 : Nat) : ℚ) / 16000)⌋ = 3969 := by
    rw [Int.floor_eq_iff]
    constructor <;> norm_num
  have hlen : (List.replicate 3969 (0 : ℚ) ++ [1, 0, 0]).length = 3972 := by
    rw [List.length_append, List.length_replicate]
    rfl
  have hget : (List.replicate 3969 (0 : ℚ) ++ [1, 0, 0]).getD 3969 0 = 1 := by
    rw [List.getD_eq_getElem?_getD,
      List.getElem?_append_right (by rw [List.length_replicate]), List.length_replicate]
    rfl
  have hget' : (List.replicate 3969 (0 : ℚ) ++ [1, 0, 0]).getD (3969 + 1) 0 = 0 := by
    rw [List.getD_eq_getElem?_getD,
      List.getElem?_append_right (by rw [List.length_replicate]; norm_num),
      List.length_replicate]
    rfl
  unfold exactInterpolation
  simp only [hfloor, hlen]
  rw [show (3969 : Int).toNat = 3969 from rfl, if_pos (by norm_num), hget, hget']
  norm_num


/-! ## Chunk scanning -/

theorem read_prefix (file : Bytes) (pos : Nat) (a rest mem : Bytes)
    (h : file.drop pos = a ++ rest) :
    IfStream.read { file := file, pos := pos, good := true } a.length mem =
      ({ file := file, pos := pos + a.length, good := true }, a ++ mem.drop a.length) ∧
    file.drop (pos + a.length) = rest := by
  have htake : (file.drop pos).take a.length = a := by
    rw [h, List.take_left']
    rfl
  constructor
  · unfold IfStream.read
    simp only [Bool.not_true, Bool.false_eq_true, if_false, htake, decide_True]
  · rw [← List.drop_drop, h, List.drop_left']
    rfl

theorem read_short (file : Bytes) (pos n : Nat) (mem : Bytes)
    (h : (file.drop pos).length < n) :
    (IfStream.read { file := file, pos := pos, good := true } n mem).1.good = false := by
  have hlen : ((file.drop pos).take n).length ≠ n := by
    rw [List.length_take]
    omega
  unfold IfStream.read
  simp only [Bool.not_true, Bool.false_eq_true, if_false, hlen, decide_False]

theorem read_bad (s : IfStream) (n : Nat) (mem : Bytes) (h : s.good = false) :
    s.read n mem = (s, mem) := by
  unfold IfStream.read
  simp [h]

theorem seekg_bad (s : IfStream) (off : Nat) (h : s.good = false) : s.seekg off = s := by
  unfold IfStream.seekg
  simp [h]

theorem findDataLoop_bad (fuel : Nat) (s : IfStream) (chunk_id chunk_size : Bytes)
    (h : s.good = false) : (findDataLoop fuel s chunk_id chunk_size).1 = false := by
  cases fuel with
  | zero => rfl
  | succ fuel =>
    unfold findDataLoop
    simp only [read_bad s 4 chunk_id h, h, Bool.not_false, if_true]

theorem findDataLoop_short (fuel : Nat) (file : Bytes) (pos : Nat) (chunk_id chunk_size : Bytes)
    (h : (file.drop pos).length < 4) :
    (findDataLoop fuel { file := file, pos := pos, good := true } chunk_id chunk_size).1 =
      false := by
  cases fuel with
  | zero => rfl
  | succ fuel =>
    unfold findDataLoop
    simp only [read_short file pos 4 chunk_id h, Bool.not_false, if_true]

theorem field_prefix (a rest : Bytes) (off n : Nat) (h : off + n ≤ a.length) :
    field (a ++ rest) off n = field a off n := by
  unfold field
  rw [List.drop_append_of_le_length (by omega), List.take_append_of_le_length (by
    rw [List.length_drop]; omega)]

theorem field_self (a rest : Bytes) : field (a ++ rest) 0 a.length = a := by
  unfold field
  rw [List.drop_zero, List.take_left']
  rfl

theorem parseHeader_prefix (hdr rest : Bytes) (h : hdr.length = 36) :
    parseHeader (hdr ++ rest) = parseHeader hdr := by
  have hf : ∀ off n, off + n ≤ 36 → field (hdr ++ rest) off n = field hdr off n :=
    fun off n hle => field_prefix hdr rest off n (by rw [h]; exact hle)
  unfold parseHeader
  rw [hf 0 4 (by norm_num), hf 4 4 (by norm_num), hf 8 4 (by norm_num), hf 12 4 (by norm_num),
    hf 16 4 (by norm_num), hf 20 2 (by norm_num), hf 22 2 (by norm_num),
    hf 24 4 (by norm_num), hf 28 4 (by norm_num), hf 32 2 (by norm_num),
    hf 34 2 (by norm_num)]

/-- One iteration of the scan over a chunk with a tag other than "data". -/
theorem findDataLoop_step (fuel : Nat) (file : Bytes) (pos : Nat) (c : Chunk) (rest : Bytes)
    (chunk_id chunk_size : Bytes) (hc : c.tag.length = 4) (htag : c.tag ≠ ascii "data")
    (n : Nat) (hn : n < 2 ^ 32) (h : file.drop pos = c.tag ++ (le32 n ++ rest)) :
    findDataLoop (fuel + 1) { file := file, pos := pos, good := true } chunk_id chunk_size =
      findDataLoop fuel { file := file, pos := pos + 4 + 4 + n, good := true }
        (c.tag ++ chunk_id.drop 4) (le32 n ++ chunk_size.drop 4) := by
  obtain ⟨hr1, hd1⟩ := read_prefix file pos c.tag (le32 n ++ rest) chunk_id h
  rw [hc] at hr1 hd1
  obtain ⟨hr2, -⟩ := read_prefix file (pos + 4) (le32 n) rest chunk_size hd1
  rw [le32_length] at hr2
  have hf1 : field (c.tag ++ chunk_id.drop 4) 0 4 = c.tag := by
    have := field_self c.tag (chunk_id.drop 4)
    rw [hc] at this
    exact this
  have hf2 : field (le32 n ++ chunk_size.drop 4) 0 4 = le32 n :=
    field_self (le32 n) (chunk_size.drop 4)
  conv_lhs => unfold findDataLoop
  simp only [hr1, Bool.not_true, Bool.false_eq_true, if_false, hr2, hf1, htag, hf2,
    leValue_le32 n hn]
  rfl

theorem encodeChunk_length (c : Chunk) (hc : c.tag.length = 4) :
    (encodeChunk c).length = 4 + 4 + c.payload.length := by
  simp only [encodeChunk, List.length_append, hc, le32_length]

theorem encodeChunks_length_ge (cs : List Chunk) (hcs : ∀ c ∈ cs, NonDataChunk c) :
    cs.length ≤ (encodeChunks cs).length := by
  induction cs with
  | nil => exact Nat.le_refl _
  | cons c cs ih =>
    have hc := (hcs c (by simp)).1
    have := ih (fun x hx => hcs x (by simp [hx]))
    simp only [encodeChunks, List.length_append, List.length_cons, encodeChunk_length c hc]
    omega

/-- The scan passes over a sequence of chunks with tags other than "data". -/
theorem findDataLoop_skip (file : Bytes) (cs : List Chunk) (tail : Bytes) (fuel pos : Nat)
    (chunk_id chunk_size : Bytes) (hcs : ∀ c ∈ cs, NonDataChunk c)
    (h : file.drop pos = encodeChunks cs ++ tail) :
    ∃ id sz, findDataLoop (fuel + cs.length) { file := file, pos := pos, good := true }
        chunk_id chunk_size =
      findDataLoop fuel { file := file, pos := pos + (encodeChunks cs).length, good := true }
        id sz := by
  induction cs generalizing pos chunk_id chunk_size with
  | nil => exact ⟨chunk_id, chunk_size, rfl⟩
  | cons c cs ih =>
    obtain ⟨hc, htag, hn⟩ := hcs c (by simp)
    have hrest : ∀ x ∈ cs, NonDataChunk x := fun x hx => hcs x (by simp [hx])
    have h' : file.drop pos =
        c.tag ++ (le32 c.payload.length ++ (c.payload ++ (encodeChunks cs ++ tail))) := by
      rw [h]
      simp only [encodeChunks, encodeChunk, List.append_assoc]
    have hstep := findDataLoop_step (fuel + cs.length) file pos c
      (c.payload ++ (encodeChunks cs ++ tail)) chunk_id chunk_size hc htag c.payload.length hn h'
    have hdrop : file.drop (pos + 4 + 4 + c.payload.length) = encodeChunks cs ++ tail := by
      have hpre : pos + 4 + 4 + c.payload.length =
          pos + (c.tag ++ (le32 c.payload.length ++ c.payload)).length := by
        simp only [List.length_append, hc, le32_length]
        omega
      have h'' : file.drop pos =
          (c.tag ++ (le32 c.payload.length ++ c.payload)) ++ (encodeChunks cs ++ tail) := by
        rw [h']
        simp only [List.append_assoc]
      rw [hpre, ← List.drop_drop, h'', List.drop_left']
      rfl
    obtain ⟨id, sz, hih⟩ := ih (pos + 4 + 4 + c.payload.length) (c.tag ++ chunk_id.drop 4)
      (le32 c.payload.length ++ chunk_size.drop 4) hrest hdrop
    refine ⟨id, sz, ?_⟩
    have hlen : pos + (encodeChunks (c :: cs)).length =
        pos + 4 + 4 + c.payload.length + (encodeChunks cs).length := by
      simp only [encodeChunks, List.length_append, encodeChunk_length c hc]
      omega
    rw [hlen, ← hih, ← hstep]
    rfl

/-- The iteration of the scan that reads the tag "data" and a complete size field. -/
theorem findDataLoop_data (fuel : Nat) (file : Bytes) (pos : Nat) (sizeBytes payload : Bytes)
    (chunk_id chunk_size : Bytes) (hsize : sizeBytes.length = 4)
    (h : file.drop pos = ascii "data" ++ (sizeBytes ++ payload)) :
    findDataLoop (fuel + 1) { file := file, pos := pos, good := true } chunk_id chunk_size =
      (true, sizeBytes ++ chunk_size.drop 4, { file := file, pos := pos + 4 + 4, good := true }) ∧
    file.drop (pos + 4 + 4) = payload := by
  obtain ⟨hr1, hd1⟩ := read_prefix file pos (ascii "data") (sizeBytes ++ payload) chunk_id h
  have h4 : (ascii "data").length = 4 := rfl
  rw [h4] at hr1 hd1
  obtain ⟨hr2, hd2⟩ := read_prefix file (pos + 4) sizeBytes payload chunk_size hd1
  rw [hsize] at hr2 hd2
  have hf1 : field (ascii "data" ++ chunk_id.drop 4) 0 4 = ascii "data" :=
    field_self (ascii "data") (chunk_id.drop 4)
  refine ⟨?_, hd2⟩
  conv_lhs => unfold findDataLoop
  simp only [hr1, Bool.not_true, Bool.false_eq_true, if_false, hr2, hf1, if_true]

/-- The result of lines 35-93 for a file with a complete 36-byte header followed by the
extra bytes its format chunk declares. -/
theorem locateData_header (u : Uninit) (hdr extra body : Bytes) (hhdr : hdr.length = 36)
    (hextra : extra.length = (parseHeader hdr).fmt_chunk_size - 16) :
    locateData u (hdr ++ (extra ++ body)) =
      if (parseHeader hdr).riff_header ≠ ascii "RIFF" ∨
          (parseHeader hdr).wave_header ≠ ascii "WAVE" ∨
          (parseHeader hdr).fmt_header ≠ ascii "fmt " then none
      else
        match findDataLoop ((hdr ++ (extra ++ body)).length + 1)
            { file := hdr ++ (extra ++ body), pos := 36 + extra.length, good := true }
            u.chunk_id u.chunk_size with
        | (false, _, _) => none
        | (true, size_bytes, s2) => some (parseHeader hdr, leValue (field size_bytes 0 4), s2) := by
  obtain ⟨hr, -⟩ := read_prefix (hdr ++ (extra ++ body)) 0 hdr (extra ++ body) u.wav_header
    (by rw [List.drop_zero])
  rw [hhdr, Nat.zero_add] at hr
  have hseek : (if (parseHeader hdr).fmt_chunk_size > 16 then
      IfStream.seekg { file := hdr ++ (extra ++ body), pos := 36, good := true }
        ((parseHeader hdr).fmt_chunk_size - 16)
      else { file := hdr ++ (extra ++ body), pos := 36, good := true }) =
      { file := hdr ++ (extra ++ body), pos := 36 + extra.length, good := true } := by
    split
    · rw [hextra]
      rfl
    · rename_i hle
      have : extra.length = 0 := by omega
      rw [this]
  unfold locateData
  simp only [hr, parseHeader_prefix hdr _ hhdr, hseek, findData]

theorem drop_header_extra (hdr extra body : Bytes) (hhdr : hdr.length = 36) :
    (hdr ++ (extra ++ body)).drop (36 + extra.length) = body := by
  have : hdr ++ (extra ++ body) = (hdr ++ extra) ++ body := by rw [List.append_assoc]
  rw [this, List.drop_left']
  rw [List.length_append, hhdr]

/-- The scan over a file with complete header, chunks with other tags and a data chunk
with a complete size field: the data chunk is found and the stream stands at its payload. -/
theorem locateData_with_data (u : Uninit) (hdr extra : Bytes) (cs : List Chunk)
    (sizeBytes payload : Bytes) (hhdr : hdr.length = 36)
    (hextra : extra.length = (parseHeader hdr).fmt_chunk_size - 16)
    (hcs : ∀ c ∈ cs, NonDataChunk c) (hsize : sizeBytes.length = 4)
    (htags : ¬ ((parseHeader hdr).riff_header ≠ ascii "RIFF" ∨
      (parseHeader hdr).wave_header ≠ ascii "WAVE" ∨
      (parseHeader hdr).fmt_header ≠ ascii "fmt ")) :
    ∃ s, locateData u
        (hdr ++ (extra ++ (encodeChunks cs ++ (ascii "data" ++ (sizeBytes ++ payload))))) =
        some (parseHeader hdr, leValue sizeBytes, s) ∧
      s.good = true ∧ s.file.drop s.pos = payload := by
  have hdrop := drop_header_extra hdr extra
    (encodeChunks cs ++ (ascii "data" ++ (sizeBytes ++ payload))) hhdr
  have hge := encodeChunks_length_ge cs hcs
  have hfuel : (hdr ++ (extra ++ (encodeChunks cs ++
      (ascii "data" ++ (sizeBytes ++ payload))))).length + 1 =
      ((hdr ++ (extra ++ (encodeChunks cs ++
        (ascii "data" ++ (sizeBytes ++ payload))))).length - cs.length + 1) + cs.length := by
    have : cs.length ≤ (hdr ++ (extra ++ (encodeChunks cs ++
        (ascii "data" ++ (sizeBytes ++ payload))))).length := by
      simp only [List.length_append]
      omega
    omega
  obtain ⟨id, sz, hskip⟩ := findDataLoop_skip _ cs (ascii "data" ++ (sizeBytes ++ payload))
    ((hdr ++ (extra ++ (encodeChunks cs ++
      (ascii "data" ++ (sizeBytes ++ payload))))).length - cs.length + 1)
    (36 + extra.length) u.chunk_id u.chunk_size hcs hdrop
  have hdrop2 : (hdr ++ (extra ++ (encodeChunks cs ++
      (ascii "data" ++ (sizeBytes ++ payload))))).drop
        (36 + extra.length + (encodeChunks cs).length) =
      ascii "data" ++ (sizeBytes ++ payload) := by
    rw [← List.drop_drop, hdrop, List.drop_left']
    rfl
  obtain ⟨hdata, hpay⟩ := findDataLoop_data
    ((hdr ++ (extra ++ (encodeChunks cs ++
      (ascii "data" ++ (sizeBytes ++ payload))))).length - cs.length)
    _ (36 + extra.length + (encodeChunks cs).length) sizeBytes payload id sz hsize hdrop2
  have hfield : field (sizeBytes ++ sz.drop 4) 0 4 = sizeBytes := by
    have := field_self sizeBytes (sz.drop 4)
    rw [hsize] at this
    exact this
  refine ⟨IfStream.mk _ (36 + extra.length + (encodeChunks cs).length + 4 + 4) true, ?_, rfl,
    hpay⟩
  rw [locateData_header u hdr extra _ hhdr hextra, if_neg htags, hfuel, hskip, hdata]
  simp only [hfield]

/-- The scan over a file with complete header, chunks with other tags and a data chunk
with a complete size field stops behind the size field of that data chunk. -/
theorem locateData_at_data (u : Uninit) (hdr extra : Bytes) (cs : List Chunk)
    (sizeBytes payload : Bytes) (hhdr : hdr.length = 36)
    (hextra : extra.length = (parseHeader hdr).fmt_chunk_size - 16)
    (hcs : ∀ c ∈ cs, NonDataChunk c) (hsize : sizeBytes.length = 4)
    (htags : ¬ ((parseHeader hdr).riff_header ≠ ascii "RIFF" ∨
      (parseHeader hdr).wave_header ≠ ascii "WAVE" ∨
      (parseHeader hdr).fmt_header ≠ ascii "fmt ")) :
    locateData u
        (hdr ++ (extra ++ (encodeChunks cs ++ (ascii "data" ++ (sizeBytes ++ payload))))) =
      some (parseHeader hdr, leValue sizeBytes,
        { file := hdr ++ (extra ++ (encodeChunks cs ++ (ascii "data" ++ (sizeBytes ++ payload)))),
          pos := 36 + extra.length + (encodeChunks cs).length + 4 + 4, good := true }) ∧
    (hdr ++ (extra ++ (encodeChunks cs ++ (ascii "data" ++ (sizeBytes ++ payload))))).drop
      (36 + extra.length + (encodeChunks cs).length + 4 + 4) = payload := by
  have hdrop := drop_header_extra hdr extra
    (encodeChunks cs ++ (ascii "data" ++ (sizeBytes ++ payload))) hhdr
  have hge := encodeChunks_length_ge cs hcs
  have hfuel : (hdr ++ (extra ++ (encodeChunks cs ++
      (ascii "data" ++ (sizeBytes ++ payload))))).length + 1 =
      ((hdr ++ (extra ++ (encodeChunks cs ++
        (ascii "data" ++ (sizeBytes ++ payload))))).length - cs.length + 1) + cs.length := by
    have : cs.length ≤ (hdr ++ (extra ++ (encodeChunks cs ++
        (ascii "data" ++ (sizeBytes ++ payload))))).length := by
      simp only [List.length_append]
      omega
    omega
  obtain ⟨id, sz, hskip⟩ := findDataLoop_skip _ cs (ascii "data" ++ (sizeBytes ++ payload))
    ((hdr ++ (extra ++ (encodeChunks cs ++
      (ascii "data" ++ (sizeBytes ++ payload))))).length - cs.length + 1)
    (36 + extra.length) u.chunk_id u.chunk_size hcs hdrop
  have hdrop2 : (hdr ++ (extra ++ (encodeChunks cs ++
      (ascii "data" ++ (sizeBytes ++ payload))))).drop
        (36 + extra.length + (encodeChunks cs).length) =
      ascii "data" ++ (sizeBytes ++ payload) := by
    rw [← List.drop_drop, hdrop, List.drop_left']
    rfl
  obtain ⟨hdata, hpay⟩ := findDataLoop_data
    ((hdr ++ (extra ++ (encodeChunks cs ++
      (ascii "data" ++ (sizeBytes ++ payload))))).length - cs.length)
    _ (36 + extra.length + (encodeChunks cs).length) sizeBytes payload id sz hsize hdrop2
  have hfield : field (sizeBytes ++ sz.drop 4) 0 4 = sizeBytes := by
    have := field_self sizeBytes (sz.drop 4)
    rw [hsize] at this
    exact this
  refine ⟨?_, hpay⟩
  rw [locateData_header u hdr extra _ hhdr hextra, if_neg htags, hfuel, hskip, hdata]
  simp only [hfield]

/-- The scan finds no data chunk in a file whose remainder ends without one. -/
theorem findDataLoop_ends (fuel : Nat) (file : Bytes) (pos : Nat) (chunk_id chunk_size : Bytes)
    (hend : EndsWithoutData (file.drop pos)) :
    (findDataLoop fuel { file := file, pos := pos, good := true } chunk_id chunk_size).1 =
      false := by
  cases fuel with
  | zero => rfl
  | succ fuel =>
    rcases hend with ⟨hlen, htag⟩ | ⟨tag, n, rest, htail, htl, htag, hn, hrest⟩
    · by_cases h4 : (file.drop pos).length < 4
      · exact findDataLoop_short _ file pos chunk_id chunk_size h4
      · have hsplit : file.drop pos = (file.drop pos).take 4 ++ (file.drop pos).drop 4 :=
          (List.take_append_drop 4 _).symm
        have htl : ((file.drop pos).take 4).length = 4 := by
          rw [List.length_take]
          omega
        obtain ⟨hr1, hd1⟩ := read_prefix file pos ((file.drop pos).take 4)
          ((file.drop pos).drop 4) chunk_id hsplit
        rw [htl] at hr1 hd1
        have hshort : (file.drop (pos + 4)).length < 4 := by
          rw [hd1, List.length_drop]
          omega
        have hbad := read_short file (pos + 4) 4 chunk_size hshort
        have hf1 : field ((file.drop pos).take 4 ++ chunk_id.drop 4) 0 4 =
            (file.drop pos).take 4 := by
          have := field_self ((file.drop pos).take 4) (chunk_id.drop 4)
          rw [htl] at this
          exact this
        unfold findDataLoop
        simp only [hr1, Bool.not_true, Bool.false_eq_true, if_false, hf1, htag]
        rw [seekg_bad _ _ hbad]
        exact findDataLoop_bad _ _ _ _ hbad
    · have h' : file.drop pos = tag ++ (le32 n ++ rest) := by
        rw [htail, List.append_assoc]
      have hstep := findDataLoop_step fuel file pos { tag := tag, payload := [] } rest
        chunk_id chunk_size htl htag n hn h'
      rw [hstep]
      apply findDataLoop_short
      have hpre : pos + 4 + 4 + n = pos + (tag ++ le32 n).length + n := by
        rw [List.length_append, htl, le32_length]
      have h'' : file.drop pos = (tag ++ le32 n) ++ rest := htail
      rw [hpre, Nat.add_assoc, ← List.drop_drop, ← List.drop_drop, h'', List.drop_left' rfl,
        List.length_drop]
      omega

theorem readSamples_congr (h : WAVHeader) (chunk_size : Nat) (s t : IfStream)
    (hs : s.good = true) (ht : t.good = true) (hdata : s.file.drop s.pos = t.file.drop t.pos) :
    readSamples h chunk_size s = readSamples h chunk_size t := by
  have hread : (s.read chunk_size []).2 = (t.read chunk_size []).2 := by
    unfold IfStream.read
    simp only [hs, ht, Bool.not_true, Bool.false_eq_true, if_false, hdata]
  unfold readSamples
  simp only [hread]

/-- What lines 95-175 return for a header, a declared data size and the bytes that follow
the size field of the data chunk. -/
theorem readWAVFile_payload (u : Uninit) (bytes : Bytes) (h : WAVHeader) (chunk_size : Nat)
    (s : IfStream) (payload : Bytes) (hloc : locateData u bytes = some (h, chunk_size, s))
    (hgood : s.good = true) (hdrop : s.file.drop s.pos = payload) :
    readWAVFile u (some bytes) =
      match readSamples h chunk_size { file := payload, pos := 0, good := true } with
      | Except.error f => Except.error f
      | Except.ok none => Except.ok []
      | Except.ok (some float_samples) => resample float_samples h.sample_rate := by
  have hcongr := readSamples_congr h chunk_size s { file := payload, pos := 0, good := true }
    hgood rfl (by rw [hdrop]; rfl)
  unfold readWAVFile
  simp only [hloc, hcongr]

/-- C20: chunk scanning finds the first chunk tagged "data" and skips every other chunk by
its declared size. For every complete header (with the extra bytes its format chunk
declares) and every list of chunks with other tags between format chunk and data chunk,
`readWAVFile` returns what it returns for the file without those chunks. When the header
tags are valid, the scan stops right behind the size field of that data chunk, the first
one in the file whatever follows it, and the result is computed from the declared size and
the bytes `payload` behind the size field: for a mono 16-bit PCM header at 16000 Hz and a
declared size of `2 * F` bytes it is the list of the first `F` 16-bit samples of `payload`,
each divided by 32768. When the file ends before a chunk tagged "data" is read, no data
chunk is found and the result is the empty buffer. -/
theorem readWAVFile_chunk_scan (u : Uninit) (hdr extra : Bytes) (chunks : List Chunk)
    (hhdr : hdr.length = 36)
    (hextra : extra.length = (parseHeader hdr).fmt_chunk_size - 16)
    (hchunks : ∀ c ∈ chunks, NonDataChunk c) :
    (∀ sizeBytes payload : Bytes, sizeBytes.length = 4 →
      readWAVFile u (some (hdr ++ (extra ++ (encodeChunks chunks ++
          (ascii "data" ++ (sizeBytes ++ payload)))))) =
        readWAVFile u (some (hdr ++ (extra ++ (ascii "data" ++ (sizeBytes ++ payload))))) ∧
      ((parseHeader hdr).riff_header = ascii "RIFF" →
        (parseHeader hdr).wave_header = ascii "WAVE" →
        (parseHeader hdr).fmt_header = ascii "fmt " →
        locateData u (hdr ++ (extra ++ (encodeChunks chunks ++
            (ascii "data" ++ (sizeBytes ++ payload))))) =
          some (parseHeader hdr, leValue sizeBytes,
            { file := hdr ++ (extra ++ (encodeChunks chunks ++
                (ascii "data" ++ (sizeBytes ++ payload)))),
              pos := 36 + extra.length + (encodeChunks chunks).length + 4 + 4,
              good := true }) ∧
        (hdr ++ (extra ++ (encodeChunks chunks ++
            (ascii "data" ++ (sizeBytes ++ payload))))).drop
          (36 + extra.length + (encodeChunks chunks).length + 4 + 4) = payload ∧
        readWAVFile u (some (hdr ++ (extra ++ (encodeChunks chunks ++
            (ascii "data" ++ (sizeBytes ++ payload)))))) =
          (match readSamples (parseHeader hdr) (leValue sizeBytes)
              { file := payload, pos := 0, good := true } with
            | Except.error f => Except.error f
            | Except.ok none => Except.ok []
            | Except.ok (some float_samples) =>
              resample float_samples (parseHeader hdr).sample_rate) ∧
        ∀ F : Nat, (parseHeader hdr).audio_format = 1 → (parseHeader hdr).num_channels = 1 →
          (parseHeader hdr).bits_per_sample = 16 → (parseHeader hdr).sample_rate = 16000 →
          leValue sizeBytes = 2 * F → 2 * F ≤ payload.length →
          readWAVFile u (some (hdr ++ (extra ++ (encodeChunks chunks ++
              (ascii "data" ++ (sizeBytes ++ payload)))))) =
            Except.ok ((List.range F).map fun i =>
              F32.div (F32.ofInt (pcmSample { file := payload, pos := 0, good := true } i))
                (F32.ofInt 32768)))) ∧
    (∀ tail : Bytes, EndsWithoutData tail →
      locateData u (hdr ++ (extra ++ (encodeChunks chunks ++ tail))) = none ∧
      readWAVFile u (some (hdr ++ (extra ++ (encodeChunks chunks ++ tail)))) =
        Except.ok []) := by
  constructor
  · intro sizeBytes payload hsize
    refine ⟨?_, ?_⟩
    · by_cases htags : (parseHeader hdr).riff_header ≠ ascii "RIFF" ∨
          (parseHeader hdr).wave_header ≠ ascii "WAVE" ∨
          (parseHeader hdr).fmt_header ≠ ascii "fmt "
      · unfold readWAVFile
        simp only [locateData_header u hdr extra _ hhdr hextra, if_pos htags]
      · obtain ⟨s, hs, hsg, hsd⟩ := locateData_with_data u hdr extra chunks sizeBytes payload
          hhdr hextra hchunks hsize htags
        obtain ⟨t, ht, htg, htd⟩ := locateData_with_data u hdr extra [] sizeBytes payload
          hhdr hextra (by simp) hsize htags
        simp only [encodeChunks, List.nil_append] at ht
        unfold readWAVFile
        simp only [hs, ht, readSamples_congr _ _ s t hsg htg (by rw [hsd, htd])]
    · intro h1 h2 h3
      have htags : ¬ ((parseHeader hdr).riff_header ≠ ascii "RIFF" ∨
          (parseHeader hdr).wave_header ≠ ascii "WAVE" ∨
          (parseHeader hdr).fmt_header ≠ ascii "fmt ") := by
        rintro (h | h | h)
        · exact h h1
        · exact h h2
        · exact h h3
      obtain ⟨hloc, hdrop⟩ := locateData_at_data u hdr extra chunks sizeBytes payload
        hhdr hextra hchunks hsize htags
      have hpay := readWAVFile_payload u _ _ _ _ payload hloc rfl hdrop
      refine ⟨hloc, hdrop, hpay, ?_⟩
      intro F hfmt hch hbits hrate hF hlen
      rw [hpay, hF, readSamples_mono16 (parseHeader hdr)
        { file := payload, pos := 0, good := true } F hfmt hch hbits rfl
        (by simp only [Nat.zero_add]; exact hlen)]
      simp only [hrate, resample_16000]
  · intro tail hend
    have hloc : locateData u (hdr ++ (extra ++ (encodeChunks chunks ++ tail))) = none := by
      by_cases htags : (parseHeader hdr).riff_header ≠ ascii "RIFF" ∨
          (parseHeader hdr).wave_header ≠ ascii "WAVE" ∨
          (parseHeader hdr).fmt_header ≠ ascii "fmt "
      · rw [locateData_header u hdr extra _ hhdr hextra, if_pos htags]
      · have hdrop := drop_header_extra hdr extra (encodeChunks chunks ++ tail) hhdr
        have hge := encodeChunks_length_ge chunks hchunks
        have hfuel : (hdr ++ (extra ++ (encodeChunks chunks ++ tail))).length + 1 =
            ((hdr ++ (extra ++ (encodeChunks chunks ++ tail))).length - chunks.length + 1) +
              chunks.length := by
          have : chunks.length ≤ (hdr ++ (extra ++ (encodeChunks chunks ++ tail))).length := by
            simp only [List.length_append]
            omega
          omega
        obtain ⟨id, sz, hskip⟩ := findDataLoop_skip _ chunks tail
          ((hdr ++ (extra ++ (encodeChunks chunks ++ tail))).length - chunks.length + 1)
          (36 + extra.length) u.chunk_id u.chunk_size hchunks hdrop
        have hdrop2 : (hdr ++ (extra ++ (encodeChunks chunks ++ tail))).drop
            (36 + extra.length + (encodeChunks chunks).length) = tail := by
          rw [← List.drop_drop, hdrop, List.drop_left']
          rfl
        have hfalse := findDataLoop_ends
          ((hdr ++ (extra ++ (encodeChunks chunks ++ tail))).length - chunks.length + 1)
          (hdr ++ (extra ++ (encodeChunks chunks ++ tail)))
          (36 + extra.length + (encodeChunks chunks).length) id sz (by rw [hdrop2]; exact hend)
        rw [locateData_header u hdr extra _ hhdr hextra, if_neg htags, hfuel, hskip]
        revert hfalse
        generalize findDataLoop _ _ id sz = r
        obtain ⟨b, sb, s2⟩ := r
        intro hb
        simp only at hb
        subst hb
        rfl
    refine ⟨hloc, ?_⟩
    unfold readWAVFile
    simp only [hloc]

theorem sampleChunks_nonData : ∀ c ∈ sampleChunks, NonDataChunk c := by
  intro c hc
  simp only [sampleChunks, List.mem_cons, List.mem_singleton, List.not_mem_nil, or_false] at hc
  rcases hc with rfl | rfl
  · exact ⟨rfl, by decide, by norm_num⟩
  · exact ⟨rfl, by decide, by norm_num⟩

set_option maxRecDepth 100000 in
theorem readWAVFile_sampleChunks :
    readWAVFile zeroUninit (some (sampleHeader ++ ([0, 0] ++ (encodeChunks sampleChunks ++
        (ascii "data" ++ (le32 4 ++ [0, 64, 0, 192])))))) =
      Except.ok [F32.fin (2 ^ 148), F32.fin (-(2 ^ 148))] := by
  decide

set_option maxRecDepth 100000 in
theorem twoDataPayload_samples :
    (Except.ok ((List.range 2).map fun i =>
      F32.div (F32.ofInt (pcmSample { file := twoDataPayload, pos := 0, good := true } i))
        (F32.ofInt 32768)) : Except WavFault (List F32)) =
      Except.ok [F32.fin (2 ^ 148), F32.fin (-(2 ^ 148))] := by
  decide

theorem readWAVFile_chunk_scan_witness :
    readWAVFile zeroUninit (some (sampleHeader ++ ([0, 0] ++ (encodeChunks sampleChunks ++
        (ascii "data" ++ (le32 4 ++ twoDataPayload)))))) =
      Except.ok [F32.fin (2 ^ 148), F32.fin (-(2 ^ 148))] ∧
    locateData zeroUninit (sampleHeader ++ ([0, 0] ++ (encodeChunks sampleChunks ++
        (ascii "data" ++ (le32 4 ++ twoDataPayload))))) =
      some (parseHeader sampleHeader, leValue (le32 4),
        { file := sampleHeader ++ ([0, 0] ++ (encodeChunks sampleChunks ++
            (ascii "data" ++ (le32 4 ++ twoDataPayload)))),
          pos := 36 + [0, 0].length + (encodeChunks sampleChunks).length + 4 + 4,
          good := true }) ∧
    readWAVFile zeroUninit (some (sampleHeader ++ ([0, 0] ++ (encodeChunks sampleChunks ++
        (ascii "data" ++ (le32 4 ++ twoDataPayload)))))) =
      readWAVFile zeroUninit
        (some (sampleHeader ++ ([0, 0] ++ (ascii "data" ++ (le32 4 ++ twoDataPayload))))) ∧
    locateData zeroUninit (sampleHeader ++ ([0, 0] ++ (encodeChunks sampleChunks ++
        ascii "LIS"))) = none ∧
    readWAVFile zeroUninit (some (sampleHeader ++ ([0, 0] ++ (encodeChunks sampleChunks ++
        ascii "LIS")))) = Except.ok [] :=
  ⟨((((readWAVFile_chunk_scan zeroUninit sampleHeader [0, 0] sampleChunks rfl (by decide)
      sampleChunks_nonData).1 (le32 4) twoDataPayload rfl).2 (by decide) (by decide)
      (by decide)).2.2.2 2 (by decide) (by decide) (by decide) (by decide) (by decide)
      (by decide)).trans twoDataPayload_samples,
    (((readWAVFile_chunk_scan zeroUninit sampleHeader [0, 0] sampleChunks rfl (by decide)
      sampleChunks_nonData).1 (le32 4) twoDataPayload rfl).2 (by decide) (by decide)
      (by decide)).1,
    ((readWAVFile_chunk_scan zeroUninit sampleHeader [0, 0] sampleChunks rfl (by decide)
      sampleChunks_nonData).1 (le32 4) twoDataPayload rfl).1,
    ((readWAVFile_chunk_scan zeroUninit sampleHeader [0, 0] sampleChunks rfl (by decide)
      sampleChunks_nonData).2 (ascii "LIS") (Or.inl ⟨by decide, by decide⟩)).1,
    ((readWAVFile_chunk_scan zeroUninit sampleHeader [0, 0] sampleChunks rfl (by decide)
      sampleChunks_nonData).2 (ascii "LIS") (Or.inl ⟨by decide, by decide⟩)).2⟩

/-! ## Bounds of the resampling loop -/

theorem resampleAt_fault (float_samples : List F32) (ratio : F32) (i : Nat) (f : WavFault)
    (h : resampleAt float_samples ratio i = Except.error f) :
    f = WavFault.badCast ∨ f = WavFault.outOfBounds := by
  unfold resampleAt at h
  dsimp only at h
  split at h
  · exact Or.inl (Except.error.inj h).symm
  · split at h
    · split at h
      · exact absurd h (by simp)
      · exact Or.inr (Except.error.inj h).symm
    · split at h
      · exact absurd h (by simp)
      · exact Or.inr (Except.error.inj h).symm

theorem resampleAt_no_badCast (float_samples : List F32) (ratio : F32) (i s : Nat)
    (hs : F32.toUInt32 (F32.mul (F32.ofInt i) ratio) = some s) :
    resampleAt float_samples ratio i ≠ Except.error WavFault.badCast := by
  unfold resampleAt
  simp only [hs]
  split
  · split <;> simp
  · split <;> simp

/-- The loop ends in an out-of-bounds read when some index reads outside the buffer and
no conversion to `uint32_t` is out of range. -/
theorem resampleLoop_outOfBounds (float_samples : List F32) (ratio : F32) (is : List Nat)
    (hcast : ∀ i ∈ is, resampleAt float_samples ratio i ≠ Except.error WavFault.badCast)
    (hbad : ∃ i ∈ is, resampleAt float_samples ratio i = Except.error WavFault.outOfBounds) :
    resampleLoop float_samples ratio is = Except.error WavFault.outOfBounds := by
  induction is with
  | nil =>
    obtain ⟨i, hi, -⟩ := hbad
    exact absurd hi (by simp)
  | cons j rest ih =>
    unfold resampleLoop
    cases hj : resampleAt float_samples ratio j with
    | error f =>
      rcases resampleAt_fault _ _ _ _ hj with hf | hf
      · exact absurd (hf ▸ hj) (hcast j (by simp))
      · simp only [hf]
    | ok y =>
      have hrest : resampleLoop float_samples ratio rest = Except.error WavFault.outOfBounds := by
        apply ih (fun i hi => hcast i (by simp [hi]))
        obtain ⟨i, hi, hbi⟩ := hbad
        rcases List.mem_cons.mp hi with rfl | hmem
        · rw [hj] at hbi
          exact absurd hbi (by simp)
        · exact ⟨i, hmem, hbi⟩
      simp only [hrest]

set_option maxRecDepth 100000 in
theorem sourceIndex_8000_last :
    F32.toUInt32 (F32.mul (F32.ofInt ((16777219 : Nat) : Int)) (F32.fin (2 ^ 148))) =
      some 8388610 := by
  decide

set_option maxRecDepth 100000 in
theorem sourceIndex_8000_17 :
    F32.toUInt32 (F32.mul (F32.ofInt ((16777217 : Nat) : Int)) (F32.fin (2 ^ 148))) =
      some 8388608 := by
  decide

set_option maxRecDepth 100000 in
theorem sourceIndex_8000_18 :
    F32.toUInt32 (F32.mul (F32.ofInt ((16777218 : Nat) : Int)) (F32.fin (2 ^ 148))) =
      some 8388609 := by
  decide

theorem sourceIndex_8000_some (i : Nat) (hi : i < 16777220) :
    ∃ s, F32.toUInt32 (F32.mul (F32.ofInt (i : Int)) (F32.fin (2 ^ 148))) = some s := by
  by_cases h24 : i ≤ 2 ^ 24
  · have h1 : 149 ≤ 149 + 148 := by norm_num
    have h2 : 149 + 148 - 149 ≤ 252 := by norm_num
    have hmul := mul_two_pow (i : Int) 149 148 (by rw [Int.natAbs_ofNat]; exact h24) h1 h2
    have h3 : 149 + 148 - 149 = 148 := by norm_num
    rw [h3] at hmul
    rw [ofNat_exact i h24, hmul]
    exact ⟨i / 2, toUInt32_half i (by omega)⟩
  · have hcases : i = 16777217 ∨ i = 16777218 ∨ i = 16777219 := by
      have : (2 : Nat) ^ 24 = 16777216 := by norm_num
      omega
    rcases hcases with rfl | rfl | rfl
    · exact ⟨_, sourceIndex_8000_17⟩
    · exact ⟨_, sourceIndex_8000_18⟩
    · exact ⟨_, sourceIndex_8000_last⟩

/-- The loop body at index 16777219 for an 8000 Hz header and 8388610 samples: the
hold-last branch reads `float_samples[8388610]`. -/
theorem resampleAt_8000_overrun (float_samples : List F32)
    (hlen : float_samples.length = 8388610) :
    resampleAt float_samples (F32.fin (2 ^ 148)) 16777219 =
      Except.error WavFault.outOfBounds := by
  have hmod : (8388610 + 1) % 2 ^ 32 = 8388611 := by norm_num
  have hnext : ¬ (8388611 < float_samples.length) := by omega
  have hget : float_samples.get? 8388610 = none := by
    rw [List.get?_eq_getElem?, List.getElem?_eq_none (by omega)]
  unfold resampleAt
  simp only [sourceIndex_8000_last, hmod, if_neg hnext, hget]

/-- The resampling step for an 8000 Hz header and 8388610 samples reads outside its input. -/
theorem resample_8000_overrun (float_samples : List F32)
    (hlen : float_samples.length = 8388610) :
    resample float_samples 8000 = Except.error WavFault.outOfBounds := by
  have hsize : resampleSize float_samples.length 8000 = some 16777220 := by
    rw [hlen, resampleSize_8000 8388610 (by norm_num)]
  have hloop := resampleLoop_outOfBounds float_samples (F32.fin (2 ^ 148))
    (List.range 16777220)
    (by
      intro i hi
      obtain ⟨s, hs⟩ := sourceIndex_8000_some i (List.mem_range.mp hi)
      exact resampleAt_no_badCast float_samples _ i s hs)
    ⟨16777219, List.mem_range.mpr (by norm_num), resampleAt_8000_overrun float_samples hlen⟩
  unfold resample
  rw [if_pos (by norm_num)]
  simp only [show ((8000 : Nat) : Int) = 8000 from rfl, ratio_8000, hsize, hloop]

/-- Lines 153-171 run on the samples that lines 35-152 produce. -/
theorem readWAVFile_of_samples (u : Uninit) (bytes : Bytes) (h : WAVHeader) (chunk_size : Nat)
    (s : IfStream) (float_samples : List F32)
    (hloc : locateData u bytes = some (h, chunk_size, s))
    (hread : readSamples h chunk_size s = Except.ok (some float_samples)) :
    readWAVFile u (some bytes) = resample float_samples h.sample_rate := by
  unfold readWAVFile
  simp only [hloc, hread]

theorem lowRateHeader_fields :
    (parseHeader lowRateHeader).audio_format = 1 ∧ (parseHeader lowRateHeader).num_channels = 1 ∧
    (parseHeader lowRateHeader).bits_per_sample = 16 ∧
    (parseHeader lowRateHeader).sample_rate = 8000 ∧
    (parseHeader lowRateHeader).fmt_chunk_size = 16 := by
  decide

/-- A mono 16-bit PCM file at 8000 Hz whose data chunk holds 8388610 samples: the
resampling loop of `readWAVFile` reads outside the sample buffer. -/
theorem readWAVFile_8000_overrun (u : Uninit) (payload : Bytes)
    (hlen : payload.length = 16777220) :
    readWAVFile u (some (lowRateHeader ++ (ascii "data" ++ (le32 16777220 ++ payload)))) =
      Except.error WavFault.outOfBounds := by
  obtain ⟨hfmt, hch, hbits, hrate, hfcs⟩ := lowRateHeader_fields
  obtain ⟨s, hs, hsg, hsd⟩ := locateData_with_data u lowRateHeader [] []
    (le32 16777220) payload rfl (by rw [hfcs]; rfl) (by simp) rfl (by decide)
  simp only [encodeChunks, List.nil_append] at hs
  rw [leValue_le32 16777220 (by norm_num)] at hs
  have hdata : s.pos + 2 * 8388610 ≤ s.file.length := by
    have h := congrArg List.length hsd
    rw [List.length_drop, hlen] at h
    omega
  have hread := readSamples_mono16 (parseHeader lowRateHeader) s 8388610 hfmt hch hbits hsg hdata
  rw [show 2 * 8388610 = 16777220 by norm_num] at hread
  rw [readWAVFile_of_samples u _ _ _ _ _ hs hread, hrate]
  exact resample_8000_overrun _ ((List.length_map _ _).trans (List.length_range _))

theorem exactResampleSize_8000 : exactResampleSize 8388610 8000 = 16777220 := by
  unfold exactResampleSize
  rw [Int.floor_eq_iff]
  norm_num

/-- C21 (failing input): a mono 16-bit PCM file at 8000 Hz with `L = 8388610` samples. The
loop bound is `new_size = 16777220 = floor(L / (8000 / 16000))`, and for the output index
`i = 16777219` below it the exact source index `floor(i * 8000 / 16000)` is `8388609 < L`,
but the code computes `src_idx` in single precision and obtains `8388610 = L`: the guard
`src_idx + 1 < L` fails and the hold-last branch reads `float_samples[L]`, outside the
input, whatever the locals of `readWAVFile` held before. -/
theorem readWAVFile_reads_past_input (u : Uninit) :
    resampleSize 8388610 8000 = some 16777220 ∧
    exactResampleSize 8388610 8000 = 16777220 ∧
    16777219 * 8000 / 16000 = 8388609 ∧
    sourceIndex 8000 16777219 = some 8388610 ∧
    readWAVFile u (some longWav) = Except.error WavFault.outOfBounds := by
  refine ⟨resampleSize_8000 8388610 (by norm_num), exactResampleSize_8000, by norm_num, ?_,
    readWAVFile_8000_overrun u _ (List.length_replicate _ _)⟩
  unfold sourceIndex
  rw [show ((8000 : Nat) : Int) = 8000 from rfl, ratio_8000]
  exact sourceIndex_8000_last

/-- The file with 1024 channels is read as the single value `-0.5`. -/
theorem readWAVFile_wideWav :
    readWAVFile zeroUninit (some wideWav) = Except.ok [F32.fin (-(2 ^ 148))] := by
  obtain ⟨hfmt, hch, hbits, hrate, hfcs⟩ := wideHeader_fields
  obtain ⟨s, hs, hsg, hsd⟩ := locateData_with_data zeroUninit wideHeader [] []
    (le32 2048) widePayload rfl (by rw [hfcs]; rfl) (by simp) rfl (by decide)
  simp only [encodeChunks, List.nil_append] at hs
  rw [leValue_le32 2048 (by norm_num)] at hs
  have hlen : (s.file.drop s.pos).length = 2048 := by rw [hsd, widePayload_length]
  have hdata : s.pos + 2 * ((parseHeader wideHeader).num_channels * 1) ≤ s.file.length := by
    rw [List.length_drop] at hlen
    rw [hch]
    omega
  have hread := readSamples_pcm16 (parseHeader wideHeader) s 1 hfmt (by rw [hch]; norm_num)
    hbits hsg hdata
  have htake : (s.file.drop s.pos).take (2 * ((parseHeader wideHeader).num_channels * 1)) =
      widePayload := by
    rw [hsd, hch]
    exact List.take_of_length_le (by rw [widePayload_length])
  rw [htake, int16Elems_widePayload] at hread
  have hsize : 2 * ((parseHeader wideHeader).num_channels * 1) = 2048 := by rw [hch]
  rw [hsize] at hread
  have hframe : frame (List.replicate 512 (-32768) ++ (-1 :: List.replicate 511 (0 : Int)))
      1024 0 = List.replicate 512 (-32768) ++ (-1 :: List.replicate 511 0) := by
    unfold frame
    rw [Nat.zero_mul, List.drop_zero]
    exact List.take_of_length_le (by
      rw [List.length_append, List.length_replicate, List.length_cons, List.length_replicate])
  have hconv : convertPcm16 (List.replicate 512 (-32768) ++ (-1 :: List.replicate 511 0))
      (parseHeader wideHeader).num_channels 1 = [F32.fin (-(2 ^ 148))] := by
    rw [hch]
    unfold convertPcm16
    rw [if_neg (by norm_num)]
    show [F32.div (F32.div (channelSum ((frame _ 1024 0).map F32.ofInt))
      (F32.ofInt ((1024 : Nat) : Int))) (F32.ofInt 32768)] = _
    rw [hframe, channelSum_wide, mean_wide]
  rw [hconv] at hread
  unfold wideWav
  rw [readWAVFile_of_samples zeroUninit _ _ _ _ _ hs hread, hrate]
  exact resample_16000 _

/-! ## Where the exact formulas fail -/

theorem wideFrame_sum :
    (List.replicate 512 (-32768 : Int) ++ (-1 :: List.replicate 511 0)).sum = -16777217 := by
  rw [List.sum_append, List.sum_cons, List.sum_replicate, List.sum_replicate]
  norm_num

set_option maxRecDepth 100000 in
/-- C6 (as stated) fails. For three channels the frame (1, 0, 0) yields the float nearest
to one third, divided by 32768, which is not the mean `1 / 3` divided by 32768. For 1024
channels, a power of two, the frame of 512 samples -32768, one sample -1 and 511 samples 0
has the sum -16777217, but the float sum loses the -1 and the value returned is `-0.5`,
not the mean `-16777217 / 1024` divided by 32768. -/
theorem readWAVFile_three_channels_rounds :
    locateData zeroUninit triWav =
      some (parseHeader triWav, 6, { file := triWav, pos := 44, good := true }) ∧
    (parseHeader triWav).audio_format = 1 ∧ (parseHeader triWav).num_channels = 3 ∧
    (parseHeader triWav).bits_per_sample = 16 ∧ (parseHeader triWav).sample_rate = 16000 ∧
    frameSum { file := triWav, pos := 44, good := true } 3 0 = 1 ∧
    readWAVFile zeroUninit (some triWav) = Except.ok [F32.fin (11184811 * 2 ^ 109)] ∧
    F32.toRat? (F32.fin (11184811 * 2 ^ 109)) ≠ some ((1 : ℚ) / 3 / 32768) ∧
    (parseHeader wideHeader).audio_format = 1 ∧ (parseHeader wideHeader).num_channels = 1024 ∧
    (parseHeader wideHeader).bits_per_sample = 16 ∧
    (parseHeader wideHeader).sample_rate = 16000 ∧
    int16Elems widePayload = List.replicate 512 (-32768) ++ (-1 :: List.replicate 511 0) ∧
    (List.replicate 512 (-32768 : Int) ++ (-1 :: List.replicate 511 0)).sum = -16777217 ∧
    readWAVFile zeroUninit (some wideWav) = Except.ok [F32.fin (-(2 ^ 148))] ∧
    F32.toRat? (F32.fin (-(2 ^ 148))) ≠ some ((-16777217 : ℚ) / 1024 / 32768) := by
  refine ⟨by decide, by decide, by decide, by decide, by decide, by decide, by decide, ?_,
    wideHeader_fields.1, wideHeader_fields.2.1, wideHeader_fields.2.2.1,
    wideHeader_fields.2.2.2.1, int16Elems_widePayload, wideFrame_sum, readWAVFile_wideWav, ?_⟩
  · unfold F32.toRat?
    rw [Ne, Option.some.injEq]
    norm_num
  · unfold F32.toRat?
    rw [Ne, Option.some.injEq]
    norm_num

set_option maxRecDepth 100000 in
/-- C7 (as stated) fails: 90518 samples at 44100 Hz are resampled to `new_size = 32841`
samples, not to the `floor(90518 / (44100 / 16000)) = 32840` samples of the claim; 1049
samples with a header rate of 16784001 are resampled to one sample, where the floor is 0;
and for 8388610 samples at 8000 Hz the step does not return `2 * 8388610` samples but
reads outside its input. -/
theorem resample_length_not_floor :
    resampleSize 90518 44100 = some 32841 ∧ exactResampleSize 90518 44100 = 32840 ∧
    (∃ out, resample (List.replicate 90518 F32.zero) 44100 = Except.ok out ∧
      out.length = 32841) ∧
    (¬ ∃ out, resample (List.replicate 90518 F32.zero) 44100 = Except.ok out ∧
      (out.length : Int) = exactResampleSize 90518 44100) ∧
    resample (List.replicate 1049 F32.zero) 16784001 = Except.ok [F32.zero] ∧
    exactResampleSize 1049 16784001 = 0 ∧
    resample (List.replicate 8388610 F32.zero) 8000 = Except.error WavFault.outOfBounds := by
  refine ⟨resampleSize_44100, exactResampleSize_44100, ?_, ?_, by decide,
    exactResampleSize_huge_rate, resample_8000_overrun _ (List.length_replicate _ _)⟩
  · obtain ⟨ρ, out, -, hres, hsize, -⟩ :=
      resample_general (List.replicate 90518 F32.zero) 44100 (by norm_num) (by norm_num)
        (by norm_num) (by rw [List.length_replicate]; norm_num)
        (by rw [List.length_replicate]; norm_num)
    rw [List.length_replicate, resampleSize_44100] at hsize
    exact ⟨out, hres, (Option.some.inj hsize).symm⟩
  · rintro ⟨out, hout, hlen⟩
    have h := resample_length _ 44100 out (by norm_num) hout
    rw [List.length_replicate, resampleSize_44100] at h
    have h' : out.length = 32841 := (Option.some.inj h).symm
    rw [exactResampleSize_44100, h'] at hlen
    norm_num at hlen

set_option maxRecDepth 100000 in
/-- The resampling of seventeen equal samples `a`, the float nearest to one third divided
by 32768, at 44100 Hz: output 5 blends `x[13]` and `x[14]` and is not `a`. -/
theorem resample_constant :
    resample (List.replicate 17 (F32.fin (11184811 * 2 ^ 109))) 44100 =
      Except.ok [F32.fin (11184811 * 2 ^ 109), F32.fin (11184811 * 2 ^ 109),
        F32.fin (11184811 * 2 ^ 109), F32.fin (11184811 * 2 ^ 109),
        F32.fin (11184811 * 2 ^ 109), F32.fin (2796203 * 2 ^ 111)] := by
  decide

set_option maxRecDepth 100000 in
theorem sourceIndex_44100_5 : sourceIndex 44100 5 = some 13 := by
  decide

set_option maxRecDepth 1000000 in
/-- The file of seventeen frames (1, 0, 0) at 44100 Hz: every frame is mixed down to the
same value, and resampling returns a last value above it. -/
theorem readWAVFile_constantWav :
    readWAVFile zeroUninit (some constantWav) =
      Except.ok [F32.fin (11184811 * 2 ^ 109), F32.fin (11184811 * 2 ^ 109),
        F32.fin (11184811 * 2 ^ 109), F32.fin (11184811 * 2 ^ 109),
        F32.fin (11184811 * 2 ^ 109), F32.fin (2796203 * 2 ^ 111)] := by
  decide

set_option maxRecDepth 100000 in
/-- C19 (as stated) fails. For the float buffer `[1, 2 ^ (-24)]` at 8000 Hz output 1 is
`0.5`, not `(x[0] + x[1]) / 2`. For 3972 samples at 44100 Hz with `x[3969] = 1` and zeros
elsewhere, output 1440 is `4095 / 4096`: the rounded product `1440 * ratio` lies below
3969, while `floor(1440 * 44100 / 16000) = 3969` and the exact formula gives `1`. For
seventeen samples all equal to `a = 11184811 * 2 ^ (-40)`, the mixdown of the frame
(1, 0, 0), at 44100 Hz, output 5, which blends `x[13] = a` and `x[14] = a`, is the next
float above `a`: it does not lie between the bracketing samples; `readWAVFile` returns
this for the file of seventeen such frames. For 8388610 samples at 8000 Hz the step reads
outside its input and returns no values. -/
theorem resample_value_not_exact :
    resample tinyBuffer 8000 =
      Except.ok [F32.fin (2 ^ 149), F32.fin (2 ^ 148), F32.fin (2 ^ 125), F32.fin (2 ^ 125)] ∧
    tinyBuffer.map F32.toRat? = [some 1, some (1 / 2 ^ 24)] ∧
    F32.toRat? (F32.fin (2 ^ 148)) = some (1 / 2) ∧
    exactInterpolation [1, 1 / 2 ^ 24] 8000 1 = (1 + 1 / 2 ^ 24) / 2 ∧
    ((1 : ℚ) + 1 / 2 ^ 24) / 2 ≠ 1 / 2 ∧
    resampleSize stepBuffer.length 44100 = some 1441 ∧
    (∃ out, resample stepBuffer 44100 = Except.ok out ∧
      out[1440]? = some (F32.fin (4095 * 2 ^ 137))) ∧
    F32.toRat? (F32.fin (4095 * 2 ^ 137)) = some (4095 / 4096) ∧
    exactInterpolation (List.replicate 3969 0 ++ [1, 0, 0]) 44100 1440 = 1 ∧
    (∃ out, resample (List.replicate 17 (F32.fin (11184811 * 2 ^ 109))) 44100 = Except.ok out ∧
      out[5]? = some (F32.fin (2796203 * 2 ^ 111))) ∧
    sourceIndex 44100 5 = some 13 ∧
    (List.replicate 17 (F32.fin (11184811 * 2 ^ 109)))[13]? =
      some (F32.fin (11184811 * 2 ^ 109)) ∧
    (List.replicate 17 (F32.fin (11184811 * 2 ^ 109)))[14]? =
      some (F32.fin (11184811 * 2 ^ 109)) ∧
    (11184811 * 2 ^ 109 : Int) < 2796203 * 2 ^ 111 ∧
    readWAVFile zeroUninit (some constantWav) =
      Except.ok [F32.fin (11184811 * 2 ^ 109), F32.fin (11184811 * 2 ^ 109),
        F32.fin (11184811 * 2 ^ 109), F32.fin (11184811 * 2 ^ 109),
        F32.fin (11184811 * 2 ^ 109), F32.fin (2796203 * 2 ^ 111)] ∧
    resample (List.replicate 8388610 F32.zero) 8000 = Except.error WavFault.outOfBounds := by
  refine ⟨by decide, ?_, ?_, exactInterpolation_tiny, by norm_num, ?_, ?_, ?_,
    exactInterpolation_step, ⟨_, resample_constant, rfl⟩, sourceIndex_44100_5, rfl, rfl,
    by norm_num, readWAVFile_constantWav,
    resample_8000_overrun _ (List.length_replicate _ _)⟩
  · simp only [tinyBuffer, List.map_cons, List.map_nil, F32.toRat?]
    norm_num
  · simp only [F32.toRat?]
    norm_num
  · rw [stepBuffer_length]
    decide
  · obtain ⟨ρ, out, -, hout, hsize, -⟩ :=
      resample_general stepBuffer 44100 (by norm_num) (by norm_num) (by norm_num)
        (by rw [stepBuffer_length]; norm_num) (by rw [stepBuffer_length]; norm_num)
    rw [stepBuffer_length, show resampleSize 3972 44100 = some 1441 by decide] at hsize
    have hlen' : out.length = 1441 := (Option.some.inj hsize).symm
    have hi : 1440 < out.length := by omega
    have h := resample_getElem stepBuffer 44100 out (by norm_num) hout 1440 hi
    rw [resampleAt_stepBuffer] at h
    exact ⟨out, hout, by rw [List.getElem?_eq_getElem hi, ← Except.ok.inj h]⟩
  · simp only [F32.toRat?]
    norm_num

end Whisper
